import Mathlib

/-!
# Hill-climbing structure search (PyBNesian): embedding and verification

Shallow embedding of `src/learning/algorithms/hillclimbing.hpp`:

* `estimate_hc`              (plain greedy hill-climbing, lines 45-99)
* `validation_delta_score`   (incremental validated delta, lines 101-133)
* `estimate_validation_hc`   (validated hill-climbing with patience and tabu set,
                              lines 135-223)

and of `SemiparametricCPD::__setstate__` of
`src/factors/continuous/SemiparametricCPD.cpp` (lines 67-78, namespace `Factors`
below).

The search loops only talk to their collaborators (models, operators, the
operator set, the scores, the local score cache, the callback) through method
calls.  None of these collaborators is defined in the embedded header, so they
are taken as parameters: a `World` packs their types and the behaviour of every
method the loops call.  The general theorems quantify over every `World`; a
small concrete world is used to run the functions on explicit inputs.

Conventions of the embedding:

* `double` values are exact rationals (`ℚ`); `util::machine_tol` is a parameter.
  The convergence test of `estimate_hc` (line 78) is embedded a second time on
  `double` values that may be not-a-number or infinite (`Double`,
  `estimate_hc_double`); the two embeddings coincide on numbers
  (`estimate_hc_double_num`).
* `int` values are `Int`; no counter of the loops can overflow, since `iter` and
  `p` are incremented at most once per iteration and `iter < max_iters` holds
  whenever they are.
* `clone()` is the identity on values (models are values here, so the two clones
  `current_model` and `best_model` never alias).
* mutation of an object passed by reference is explicit state passing.
* every call to a collaborator made by the loops is appended, in program order,
  to a `trace`; the validated loop additionally keeps a `history` with the
  operands of each acceptance test.  Both are ghost logs: no branch reads them.
* console output (spinner, cursor) is not modelled.
-/

namespace HillClimbing

/-- Operator kinds tested by the `switch` of `validation_delta_score`.  The four
named enumerators are the cases of the switch; `OTHER` stands for any further
enumerator value, which the switch sends to its `default` branch. -/
inductive OperatorType where
  | ADD_ARC
  | REMOVE_ARC
  | FLIP_ARC
  | CHANGE_NODE_TYPE
  | OTHER (code : Nat)
  deriving DecidableEq, Repr

/-- Exceptions that leave the search functions. -/
inductive HCError where
  /-- thrown by `check_blacklist` when the start model has a blacklisted arc -/
  | blacklist_violation
  /-- the `std::invalid_argument` of `validation_delta_score` (line 131) -/
  | invalid_argument
  deriving DecidableEq, Repr

/-- Collaborators of the search loops, taken as parameters: the types declared
outside the embedded header and the behaviour of each method that the loops
call on them.  The score object handed to the collaborators is fixed during a
run and is part of the world. -/
structure World where
  /-- the network class `T` -/
  Model : Type
  /-- `Operator` objects (as returned by `find_max`) -/
  Operator : Type
  /-- state of the `OperatorSet` -/
  OperatorSet : Type
  /-- state of a `LocalScoreCache` -/
  LocalScoreCache : Type
  /-- elements of an `ArcSet` -/
  Arc : Type
  /-- node names -/
  Node : Type
  /-- the type whitelist argument -/
  FactorStringTypeVector : Type
  /-- structural equality of operators (used by `OperatorTabuSet`) -/
  decEqOperator : DecidableEq Operator
  /-- `model.check_blacklist(arc_blacklist)`: `false` when it throws -/
  check_blacklist : Model → Finset Arc → Bool
  /-- `model.force_whitelist(arc_whitelist)` -/
  force_whitelist : Model → Finset Arc → Model
  /-- `model.type() == BayesianNetworkType::Semiparametric` -/
  is_semiparametric : Model → Bool
  /-- `spbn.force_type_whitelist(type_whitelist)` -/
  force_type_whitelist : Model → FactorStringTypeVector → Model
  /-- whether the model contains the arc -/
  has_arc : Model → Arc → Bool
  /-- `op_set.set_arc_blacklist(arc_blacklist)` -/
  set_arc_blacklist : OperatorSet → Finset Arc → OperatorSet
  /-- `op_set.set_arc_whitelist(arc_whitelist)` -/
  set_arc_whitelist : OperatorSet → Finset Arc → OperatorSet
  /-- `op_set.set_type_whitelist(type_whitelist)` -/
  set_type_whitelist : OperatorSet → FactorStringTypeVector → OperatorSet
  /-- `op_set.set_max_indegree(max_indegree)` -/
  set_max_indegree : OperatorSet → Int → OperatorSet
  /-- `op_set.cache_scores(model, score)` -/
  cache_scores : OperatorSet → Model → OperatorSet
  /-- `op_set.find_max(model)`: the candidate (or null) and the new state -/
  find_max : OperatorSet → Model → Option Operator × OperatorSet
  /-- `op_set.find_max(model, tabu_set)` -/
  find_max_tabu : OperatorSet → Model → Finset Operator → Option Operator × OperatorSet
  /-- `op_set.update_scores(model, score, op)` -/
  update_scores : OperatorSet → Model → Operator → OperatorSet
  /-- `op->apply(model)` -/
  apply : Operator → Model → Model
  /-- `op->delta()` -/
  delta : Operator → ℚ
  /-- `op->opposite()` -/
  opposite : Operator → Operator
  /-- `op->type()` -/
  type : Operator → OperatorType
  /-- `ArcOperator::source()` -/
  source : Operator → Node
  /-- `ArcOperator::target()` -/
  target : Operator → Node
  /-- `ChangeNodeType::node()` -/
  node : Operator → Node
  /-- the constructor `LocalScoreCache(model)` -/
  new_cache : Model → LocalScoreCache
  /-- `cache.cache_vlocal_scores(model, score)` -/
  cache_vlocal_scores : LocalScoreCache → Model → LocalScoreCache
  /-- `cache.local_score(model, name)` -/
  local_score : LocalScoreCache → Model → Node → ℚ
  /-- `cache.update_vlocal_score(model, val_score, op)` -/
  update_vlocal_score : LocalScoreCache → Model → Operator → LocalScoreCache

instance (W : World) : DecidableEq W.Operator := W.decEqOperator

/-- One call made by a search function, with its arguments. -/
inductive Event (W : World) where
  | set_arc_blacklist (s : Finset W.Arc)
  | set_arc_whitelist (s : Finset W.Arc)
  | set_type_whitelist (t : W.FactorStringTypeVector)
  | set_max_indegree (k : Int)
  | cache_vlocal_scores (m : W.Model)
  | cache_scores (m : W.Model)
  /-- `callback->call(model, op, score, iter)`; `none` is `nullptr` -/
  | callback (m : W.Model) (op : Option W.Operator) (iter : Int)
  /-- `op_set.find_max(model[, tabu_set])` together with what it returned -/
  | find_max (m : W.Model) (tabu : Option (Finset W.Operator)) (result : Option W.Operator)
  /-- `op->apply(model)`; `m` is the model before the call -/
  | apply (op : W.Operator) (m : W.Model)
  /-- `validation_delta_score(model, score, op, cache)` and the value returned -/
  | validation_delta_score (m : W.Model) (op : W.Operator) (value : ℚ)
  /-- `current_model->clone()` assigned to `best_model` -/
  | clone (m : W.Model)
  | tabu_clear
  | tabu_insert (op : W.Operator)
  | update_scores (m : W.Model) (op : W.Operator)

/-- The guarded call `if (callback) callback->call(model, op, score, iter)`. -/
def call_callback {W : World} (callback : Bool) (m : W.Model) (op : Option W.Operator)
    (iter : Int) (trace : List (Event W)) : List (Event W) :=
  if callback then trace ++ [Event.callback m op iter] else trace

/-! ## `estimate_hc` -/

/-- Local variables of `estimate_hc` at the head of its loop. -/
structure HCState (W : World) where
  current_model : W.Model
  op_set : W.OperatorSet
  iter : Int
  trace : List (Event W)

/-- Effect of one execution of a loop body: fall through to the loop head
(`next`) or leave the loop through `break` (`stop`). -/
inductive LoopStep (σ : Type) where
  | next (s : σ)
  | stop (s : σ)

/-- Body of the `while` loop of `estimate_hc` (lines 77-90). -/
def hc_body (W : World) (callback : Bool) (epsilon machine_tol : ℚ) (st : HCState W) :
    LoopStep (HCState W) :=
  let r := W.find_max st.op_set st.current_model
  let tr1 := st.trace ++ [Event.find_max st.current_model none r.1]
  match r.1 with
  | none => LoopStep.stop { st with op_set := r.2, trace := tr1 }
  | some best_op =>
    if W.delta best_op - epsilon < machine_tol then
      LoopStep.stop { st with op_set := r.2, trace := tr1 }
    else
      let m := W.apply best_op st.current_model
      let ops := W.update_scores r.2 m best_op
      let iter := st.iter + 1
      let tr2 := tr1 ++ [Event.apply best_op st.current_model, Event.update_scores m best_op]
      LoopStep.next
        { current_model := m
          op_set := ops
          iter := iter
          trace := call_callback callback m (some best_op) iter tr2 }

/-- The loop `while (iter < max_iters)` of `estimate_hc`.  The first argument
bounds the number of iterations still allowed; `estimate_hc` starts it at
`max_iters.toNat`, which the loop condition never lets it exceed
(`hc_loop_fuel`). -/
def hc_loop (W : World) (callback : Bool) (max_iters : Int) (epsilon machine_tol : ℚ) :
    Nat → HCState W → HCState W
  | 0, st => st
  | fuel + 1, st =>
    if st.iter < max_iters then
      match hc_body W callback epsilon machine_tol st with
      | LoopStep.next st' => hc_loop W callback max_iters epsilon machine_tol fuel st'
      | LoopStep.stop st' => st'
    else st

/-- State of `estimate_hc` when it reaches its loop (lines 60-75), for a start
model that passed `check_blacklist`. -/
def hc_init (W : World) (op_set : W.OperatorSet) (start : W.Model)
    (arc_blacklist arc_whitelist : Finset W.Arc) (callback : Bool) (max_indegree : Int) :
    HCState W :=
  let current_model := W.force_whitelist start arc_whitelist
  let ops := W.set_arc_blacklist op_set arc_blacklist
  let ops := W.set_arc_whitelist ops arc_whitelist
  let ops := W.set_max_indegree ops max_indegree
  let ops := W.cache_scores ops current_model
  let tr := [Event.set_arc_blacklist arc_blacklist, Event.set_arc_whitelist arc_whitelist,
             Event.set_max_indegree max_indegree, Event.cache_scores current_model]
  { current_model := current_model
    op_set := ops
    iter := 0
    trace := call_callback callback current_model none 0 tr }

/-- What a caller of `estimate_hc` observes: the returned model or the exception,
the operator set it passed by reference, and the calls that were made. -/
structure HCOutcome (W : World) where
  returned : Except HCError W.Model
  op_set : W.OperatorSet
  trace : List (Event W)

/-- The function `estimate_hc` (lines 45-99). -/
def estimate_hc (W : World) (machine_tol : ℚ) (op_set : W.OperatorSet) (start : W.Model)
    (arc_blacklist arc_whitelist : Finset W.Arc) (callback : Bool)
    (max_indegree max_iters : Int) (epsilon : ℚ) : HCOutcome W :=
  if W.check_blacklist start arc_blacklist then
    let st := hc_loop W callback max_iters epsilon machine_tol max_iters.toNat
      (hc_init W op_set start arc_blacklist arc_whitelist callback max_indegree)
    { returned := Except.ok st.current_model
      op_set := st.op_set
      trace := call_callback callback st.current_model none st.iter st.trace }
  else
    { returned := Except.error HCError.blacklist_violation
      op_set := op_set
      trace := [] }

/-! ## `validation_delta_score` -/

/-- The function `validation_delta_score` (lines 101-133): the value returned
and the cache after the call, or the exception of the `default` branch. -/
def validation_delta_score (W : World) (model : W.Model) (op : W.Operator)
    (current_local_scores : W.LocalScoreCache) : Except HCError (ℚ × W.LocalScoreCache) :=
  match W.type op with
  | OperatorType.ADD_ARC | OperatorType.REMOVE_ARC =>
    let prev := W.local_score current_local_scores model (W.target op)
    let cache := W.update_vlocal_score current_local_scores model op
    Except.ok (W.local_score cache model (W.target op) - prev, cache)
  | OperatorType.FLIP_ARC =>
    let prev := W.local_score current_local_scores model (W.source op) +
                W.local_score current_local_scores model (W.target op)
    let cache := W.update_vlocal_score current_local_scores model op
    Except.ok (W.local_score cache model (W.source op) +
               W.local_score cache model (W.target op) - prev, cache)
  | OperatorType.CHANGE_NODE_TYPE =>
    let prev := W.local_score current_local_scores model (W.node op)
    let cache := W.update_vlocal_score current_local_scores model op
    Except.ok (W.local_score cache model (W.node op) - prev, cache)
  | OperatorType.OTHER _ => Except.error HCError.invalid_argument

/-! ## `estimate_validation_hc` -/

/-- Ghost record of one acceptance test (line 196): the operator applied, the
working model before and after `apply`, and the two operands of the test. -/
structure VStep (W : World) where
  op : W.Operator
  model_before : W.Model
  model_after : W.Model
  validation_delta : ℚ
  offset_before : ℚ

/-- The test of line 196, `(validation_delta + validation_offset) > 0`. -/
def VStep.accepted {W : World} (r : VStep W) : Bool :=
  decide (r.validation_delta + r.offset_before > 0)

/-- Local variables of `estimate_validation_hc` at the head of its loop. -/
structure VState (W : World) where
  current_model : W.Model
  best_model : W.Model
  op_set : W.OperatorSet
  local_validation : W.LocalScoreCache
  p : Int
  validation_offset : ℚ
  tabu_set : Finset W.Operator
  iter : Int
  trace : List (Event W)
  history : List (VStep W)

/-- Effect of one execution of the body of the validated loop: as `LoopStep`,
or an exception leaving the function (`raise`). -/
inductive VLoopStep (σ : Type) where
  | next (s : σ)
  | stop (s : σ)
  | raise (e : HCError) (s : σ)

/-- Lines 208-214: callback, `update_scores`, `++iter`. -/
def validation_hc_tail (W : World) (callback : Bool) (best_op : W.Operator) (st : VState W) :
    VState W :=
  let tr := call_callback callback st.current_model (some best_op) st.iter st.trace
  { st with
    op_set := W.update_scores st.op_set st.current_model best_op
    trace := tr ++ [Event.update_scores st.current_model best_op]
    iter := st.iter + 1 }

/-- Body of the `while` loop of `estimate_validation_hc` (lines 185-214). -/
def validation_hc_body (W : World) (callback : Bool) (epsilon machine_tol : ℚ)
    (patience : Int) (st : VState W) : VLoopStep (VState W) :=
  let r := W.find_max_tabu st.op_set st.current_model st.tabu_set
  let tr1 := st.trace ++ [Event.find_max st.current_model (some st.tabu_set) r.1]
  match r.1 with
  | none => VLoopStep.stop { st with op_set := r.2, trace := tr1 }
  | some best_op =>
    if W.delta best_op - epsilon < machine_tol then
      VLoopStep.stop { st with op_set := r.2, trace := tr1 }
    else
      let m := W.apply best_op st.current_model
      let tr2 := tr1 ++ [Event.apply best_op st.current_model]
      match validation_delta_score W m best_op st.local_validation with
      | Except.error e =>
        VLoopStep.raise e { st with current_model := m, op_set := r.2, trace := tr2 }
      | Except.ok (validation_delta, cache) =>
        let tr3 := tr2 ++ [Event.validation_delta_score m best_op validation_delta]
        let hist := st.history ++
          [{ op := best_op, model_before := st.current_model, model_after := m,
             validation_delta := validation_delta, offset_before := st.validation_offset }]
        if validation_delta + st.validation_offset > 0 then
          VLoopStep.next (validation_hc_tail W callback best_op
            { current_model := m
              best_model := m
              op_set := r.2
              local_validation := cache
              p := 0
              validation_offset := 0
              tabu_set := ∅
              iter := st.iter
              trace := tr3 ++ [Event.clone m, Event.tabu_clear]
              history := hist })
        else
          let p := st.p + 1
          if p ≥ patience then
            VLoopStep.stop
              { current_model := m
                best_model := st.best_model
                op_set := r.2
                local_validation := cache
                p := p
                validation_offset := st.validation_offset
                tabu_set := st.tabu_set
                iter := st.iter
                trace := tr3
                history := hist }
          else
            VLoopStep.next (validation_hc_tail W callback best_op
              { current_model := m
                best_model := st.best_model
                op_set := r.2
                local_validation := cache
                p := p
                validation_offset := st.validation_offset + validation_delta
                tabu_set := insert (W.opposite best_op) st.tabu_set
                iter := st.iter
                trace := tr3 ++ [Event.tabu_insert (W.opposite best_op)]
                history := hist })

/-- The loop `while (iter < max_iters)` of `estimate_validation_hc`: the final
state of the local variables and the exception, if one left the loop.  The
first argument bounds the number of iterations still allowed, as in `hc_loop`
(`validation_hc_loop_fuel`). -/
def validation_hc_loop (W : World) (callback : Bool) (max_iters : Int)
    (epsilon machine_tol : ℚ) (patience : Int) :
    Nat → VState W → Option HCError × VState W
  | 0, st => (none, st)
  | fuel + 1, st =>
    if st.iter < max_iters then
      match validation_hc_body W callback epsilon machine_tol patience st with
      | VLoopStep.next st' =>
        validation_hc_loop W callback max_iters epsilon machine_tol patience fuel st'
      | VLoopStep.stop st' => (none, st')
      | VLoopStep.raise e st' => (some e, st')
    else (none, st)

/-- The working model with which `estimate_validation_hc` starts its search
(lines 153-160), for a start model that passed `check_blacklist`. -/
def validation_hc_start (W : World) (start : W.Model) (arc_whitelist : Finset W.Arc)
    (type_whitelist : W.FactorStringTypeVector) : W.Model :=
  let current_model := W.force_whitelist start arc_whitelist
  if W.is_semiparametric current_model then
    W.force_type_whitelist current_model type_whitelist
  else current_model

/-- State of `estimate_validation_hc` when it reaches its loop (lines 153-183),
for a start model that passed `check_blacklist`. -/
def validation_hc_init (W : World) (op_set : W.OperatorSet) (start : W.Model)
    (arc_blacklist arc_whitelist : Finset W.Arc) (type_whitelist : W.FactorStringTypeVector)
    (callback : Bool) (max_indegree : Int) : VState W :=
  let current_model := validation_hc_start W start arc_whitelist type_whitelist
  let ops := W.set_arc_blacklist op_set arc_blacklist
  let ops := W.set_arc_whitelist ops arc_whitelist
  let ops := W.set_type_whitelist ops type_whitelist
  let ops := W.set_max_indegree ops max_indegree
  let best_model := start
  let local_validation := W.cache_vlocal_scores (W.new_cache current_model) current_model
  let ops := W.cache_scores ops current_model
  let tr := [Event.set_arc_blacklist arc_blacklist, Event.set_arc_whitelist arc_whitelist,
             Event.set_type_whitelist type_whitelist, Event.set_max_indegree max_indegree,
             Event.cache_vlocal_scores current_model, Event.cache_scores current_model]
  { current_model := current_model
    best_model := best_model
    op_set := ops
    local_validation := local_validation
    p := 0
    validation_offset := 0
    tabu_set := ∅
    iter := 0
    trace := call_callback callback current_model none 0 tr
    history := [] }

/-- What a caller of `estimate_validation_hc` observes: the returned model or
the exception, the operator set it passed by reference, the calls that were
made and the log of the acceptance tests. -/
structure VOutcome (W : World) where
  returned : Except HCError W.Model
  op_set : W.OperatorSet
  trace : List (Event W)
  history : List (VStep W)

/-- The function `estimate_validation_hc` (lines 135-223). -/
def estimate_validation_hc (W : World) (machine_tol : ℚ) (op_set : W.OperatorSet)
    (start : W.Model) (arc_blacklist arc_whitelist : Finset W.Arc)
    (type_whitelist : W.FactorStringTypeVector) (callback : Bool)
    (max_indegree max_iters : Int) (epsilon : ℚ) (patience : Int) : VOutcome W :=
  if W.check_blacklist start arc_blacklist then
    match validation_hc_loop W callback max_iters epsilon machine_tol patience max_iters.toNat
      (validation_hc_init W op_set start arc_blacklist arc_whitelist type_whitelist
        callback max_indegree) with
    | (none, st) =>
      { returned := Except.ok st.best_model
        op_set := st.op_set
        trace := call_callback callback st.current_model none st.iter st.trace
        history := st.history }
    | (some e, st) =>
      { returned := Except.error e
        op_set := st.op_set
        trace := st.trace
        history := st.history }
  else
    { returned := Except.error HCError.blacklist_violation
      op_set := op_set
      trace := []
      history := [] }

/-! ## A small concrete world

Used to run the search functions on explicit inputs: networks are finite sets
of arcs between named nodes, operators carry their own score delta and the
change they cause in the validated local score of their target, and the
operator set replays a fixed list of candidates. -/

/-- Operators of the concrete world. -/
structure ToyOperator where
  type : OperatorType
  source : String
  target : String
  /-- value returned by `delta()` -/
  delta : ℚ
  /-- change of the validated local score of `target` caused by the operator -/
  vgain : ℚ
  deriving DecidableEq

/-- Structural inverse of an operator of the concrete world. -/
def ToyOperator.opposite (o : ToyOperator) : ToyOperator :=
  match o.type with
  | OperatorType.ADD_ARC => { o with type := OperatorType.REMOVE_ARC, delta := -o.delta, vgain := -o.vgain }
  | OperatorType.REMOVE_ARC => { o with type := OperatorType.ADD_ARC, delta := -o.delta, vgain := -o.vgain }
  | OperatorType.FLIP_ARC =>
    { o with source := o.target, target := o.source, delta := -o.delta, vgain := -o.vgain }
  | _ => o

/-- Effect of an operator of the concrete world on the arc set. -/
def ToyOperator.run (o : ToyOperator) (m : Finset (String × String)) : Finset (String × String) :=
  match o.type with
  | OperatorType.ADD_ARC => insert (o.source, o.target) m
  | OperatorType.REMOVE_ARC => m.erase (o.source, o.target)
  | OperatorType.FLIP_ARC => insert (o.target, o.source) (m.erase (o.source, o.target))
  | _ => m

/-- First candidate of a replayed list that is not tabu, and the rest of the list. -/
def toy_find_max (script : List (Option ToyOperator)) (tabu : Finset ToyOperator) :
    Option ToyOperator × List (Option ToyOperator) :=
  match script with
  | [] => (none, [])
  | none :: rest => (none, rest)
  | some o :: rest => if o ∈ tabu then toy_find_max rest tabu else (some o, rest)

/-- The concrete world. -/
@[reducible] def toyWorld : World where
  Model := Finset (String × String)
  Operator := ToyOperator
  OperatorSet := List (Option ToyOperator)
  LocalScoreCache := String → ℚ
  Arc := String × String
  Node := String
  FactorStringTypeVector := Unit
  decEqOperator := inferInstance
  check_blacklist := fun m bl => decide (Disjoint m bl)
  force_whitelist := fun m wl => m ∪ wl
  is_semiparametric := fun _ => false
  force_type_whitelist := fun m _ => m
  has_arc := fun m a => decide (a ∈ m)
  set_arc_blacklist := fun s _ => s
  set_arc_whitelist := fun s _ => s
  set_type_whitelist := fun s _ => s
  set_max_indegree := fun s _ => s
  cache_scores := fun s _ => s
  find_max := fun s _ => toy_find_max s ∅
  find_max_tabu := fun s _ tabu => toy_find_max s tabu
  update_scores := fun s _ _ => s
  apply := ToyOperator.run
  delta := ToyOperator.delta
  opposite := ToyOperator.opposite
  type := ToyOperator.type
  source := ToyOperator.source
  target := ToyOperator.target
  node := ToyOperator.target
  new_cache := fun _ _ => 0
  cache_vlocal_scores := fun c _ => c
  local_score := fun c _ n => c n
  update_vlocal_score := fun c _ o n => if n = o.target then c n + o.vgain else c n

/-- The candidate "add arc `s -> t`" with the given deltas. -/
def toyAdd (s t : String) (delta vgain : ℚ) : ToyOperator :=
  { type := OperatorType.ADD_ARC, source := s, target := t, delta := delta, vgain := vgain }

/-! ## Observations on traces -/

/-- Operators passed to `apply`, in call order. -/
def applied_ops {W : World} (trace : List (Event W)) : List W.Operator :=
  trace.filterMap fun e => match e with
    | Event.apply op _ => some op
    | _ => none

/-- Values returned by the calls to `find_max`, in call order. -/
def find_max_results {W : World} (trace : List (Event W)) : List (Option W.Operator) :=
  trace.filterMap fun e => match e with
    | Event.find_max _ _ r => some r
    | _ => none

/-- The successive values of the working model: `m0` when the loop is entered,
then the model left by each call to `apply`. -/
def working_models {W : World} (m0 : W.Model) (trace : List (Event W)) : List W.Model :=
  m0 :: trace.filterMap fun e => match e with
    | Event.apply op m => some (W.apply op m)
    | _ => none

/-- The model obtained from `m` by applying the operators of `ops` in order. -/
def apply_ops (W : World) (ops : List W.Operator) (m : W.Model) : W.Model :=
  ops.foldl (fun acc op => W.apply op acc) m

/-! ## Concrete runs -/

/-- Value of `util::machine_tol` used in the concrete runs. -/
def toy_tol : ℚ := 1 / 1000000

/-- Candidates of the plain scenario: add `A -> B` (delta 2.0), add `B -> C`
(delta 1.5), then a candidate whose delta is not positive. -/
def toy_plain_script : List (Option ToyOperator) :=
  [some (toyAdd "A" "B" 2 0), some (toyAdd "B" "C" (3 / 2) 0), some (toyAdd "C" "A" 0 0)]

/-- Plain hill-climbing from the network without arcs over `A`, `B`, `C`, with
`epsilon = 0.01` and `max_iters = 10`. -/
def toy_plain_run : HCOutcome toyWorld :=
  estimate_hc toyWorld toy_tol toy_plain_script (∅ : Finset (String × String)) ∅ ∅ true 3 10
    (1 / 100)

/-- Candidates of the validated scenario: a first move whose validation delta is
+0.3, then moves whose validation delta is -0.1 each. -/
def toy_validated_script : List (Option ToyOperator) :=
  [some (toyAdd "A" "B" 2 (3 / 10)), some (toyAdd "B" "C" (3 / 2) (-1 / 10)),
   some (toyAdd "A" "C" 1 (-1 / 10)), some (toyAdd "C" "D" 1 (-1 / 10))]

/-- Validated hill-climbing from the network without arcs, with `patience = 2`,
`epsilon = 0.01` and `max_iters = 10`. -/
def toy_validated_run : VOutcome toyWorld :=
  estimate_validation_hc toyWorld toy_tol toy_validated_script (∅ : Finset (String × String))
    ∅ ∅ () true 3 10 (1 / 100) 2

/-- The tabu set that results from the `clear` and `insert` calls of a trace,
starting from the empty set of line 178. -/
def tabu_replay {W : World} (trace : List (Event W)) : Finset W.Operator :=
  trace.foldl (fun s e => match e with
    | Event.tabu_clear => ∅
    | Event.tabu_insert o => insert o s
    | _ => s) ∅

/-- A loop-head state of the validated scenario: the first move has been
accepted, the candidates with validation delta -0.1 are still to come. -/
def toy_validated_state : VState toyWorld :=
  { current_model := {("A", "B")}
    best_model := {("A", "B")}
    op_set := [some (toyAdd "B" "C" (3 / 2) (-1 / 10)), some (toyAdd "A" "C" 1 (-1 / 10))]
    local_validation := fun _ => 0
    p := 0
    validation_offset := 0
    tabu_set := ∅
    iter := 1
    trace := []
    history := [] }

/-- Every call to `find_max` of the trace received the tabu set that results
from the `clear` and `insert` calls made before it. -/
def tabu_passed {W : World} (trace : List (Event W)) : Prop :=
  ∀ t1 m tabu r t2, trace = t1 ++ Event.find_max m tabu r :: t2 →
    tabu = some (tabu_replay t1)

/-- The model `best` is the working model as it stood right after the most
recent accepted step of the log `h`, or `start` if `h` has no accepted step. -/
def best_spec {W : World} (start : W.Model) (h : List (VStep W)) (best : W.Model) : Prop :=
  (∀ pre r post, h = pre ++ r :: post → r.accepted = true →
    (∀ x ∈ post, x.accepted = false) → best = r.model_after) ∧
  ((∀ x ∈ h, x.accepted = false) → best = start)

/-- Number of consecutive tolerated steps at the end of a log of acceptance
tests (0 if the log is empty or ends with an accepted step). -/
def trailing_tolerated {W : World} (h : List (VStep W)) : Nat :=
  h.foldl (fun c r => if r.accepted then 0 else c + 1) 0

/-- No step is taken from a log that already ends with `patience` tolerated
steps. -/
def patient {W : World} (patience : Int) (h : List (VStep W)) : Prop :=
  ∀ pre suf, h = pre ++ suf → suf ≠ [] → (trailing_tolerated pre : Int) < patience

/-- First step of the validated scenario (validation delta +0.3, accepted). -/
def toy_step1 : VStep toyWorld :=
  { op := toyAdd "A" "B" 2 (3 / 10)
    model_before := ∅
    model_after := {("A", "B")}
    validation_delta := 3 / 10
    offset_before := 0 }

/-- Second step of the validated scenario (validation delta -0.1, tolerated). -/
def toy_step2 : VStep toyWorld :=
  { op := toyAdd "B" "C" (3 / 2) (-1 / 10)
    model_before := {("A", "B")}
    model_after := {("B", "C"), ("A", "B")}
    validation_delta := -1 / 10
    offset_before := 0 }

/-- Third step of the validated scenario (validation delta -0.1, tolerated). -/
def toy_step3 : VStep toyWorld :=
  { op := toyAdd "A" "C" 1 (-1 / 10)
    model_before := {("B", "C"), ("A", "B")}
    model_after := {("A", "C"), ("B", "C"), ("A", "B")}
    validation_delta := -1 / 10
    offset_before := -1 / 10 }

/-- A run of the validated search in which no step is accepted: the start model
has no arc, the arc `A -> B` is whitelisted, and the only candidate (add
`B -> C`) lowers the validated score by 0.1; `patience = 1`. -/
def toy_unaccepted_run : VOutcome toyWorld :=
  estimate_validation_hc toyWorld toy_tol [some (toyAdd "B" "C" 2 (-1 / 10))]
    (∅ : Finset (String × String)) ∅ {("A", "B")} () true 3 10 (1 / 100) 1

/-- A total validated score for `toy_unaccepted_run`: 1 for the arc `A -> B`,
-0.1 for the arc `B -> C`. -/
def toy_validated_score (m : Finset (String × String)) : ℚ :=
  (if ("A", "B") ∈ m then 1 else 0) + (if ("B", "C") ∈ m then -1 / 10 else 0)

/-- A run of the validated search in which no operator is applied: the start
model has no arc, the arc `A -> B` is whitelisted, and the operator set has no
candidate. -/
def toy_whitelist_run : VOutcome toyWorld :=
  estimate_validation_hc toyWorld toy_tol [] (∅ : Finset (String × String)) ∅ {("A", "B")} ()
    true 3 10 (1 / 100) 2

/-- The plain search on the inputs of `toy_whitelist_run`. -/
def toy_whitelist_plain_run : HCOutcome toyWorld :=
  estimate_hc toyWorld toy_tol [] (∅ : Finset (String × String)) ∅ {("A", "B")} true 3 10
    (1 / 100)

/-! ## Further observations and concrete runs -/

/-- An operator of the concrete world whose `type()` is none of the four kinds
handled by `validation_delta_score`. -/
def toyOther : ToyOperator :=
  { type := OperatorType.OTHER 7, source := "A", target := "B", delta := 2, vgain := 3 / 10 }

/-- Validated hill-climbing in which the operator set proposes `toyOther`. -/
def toy_other_run : VOutcome toyWorld :=
  estimate_validation_hc toyWorld toy_tol [some toyOther] (∅ : Finset (String × String))
    ∅ ∅ () true 3 10 (1 / 100) 2

/-- The states of the local variables of `estimate_validation_hc` at the
successive evaluations of the loop condition `iter < max_iters` (the heads of
the loop iterations), from the state `st` on: `st` itself, then the state left
by each full execution of the body.  The first argument bounds the number of
iterations followed, as in `validation_hc_loop`. -/
def validation_hc_heads (W : World) (callback : Bool) (max_iters : Int)
    (epsilon machine_tol : ℚ) (patience : Int) : Nat → VState W → List (VState W)
  | 0, st => [st]
  | fuel + 1, st =>
    st :: (if st.iter < max_iters then
      match validation_hc_body W callback epsilon machine_tol patience st with
      | VLoopStep.next st' =>
        validation_hc_heads W callback max_iters epsilon machine_tol patience fuel st'
      | VLoopStep.stop _ => []
      | VLoopStep.raise _ _ => []
    else [])

/-- Sum of the validation deltas of the tolerated steps at the end of a log of
acceptance tests (0 if the log is empty or ends with an accepted step). -/
def trailing_offset {W : World} (h : List (VStep W)) : ℚ :=
  h.foldl (fun s r => if r.accepted then 0 else s + r.validation_delta) 0

/-- The loop heads of the validated scenario. -/
def toy_validated_heads : List (VState toyWorld) :=
  validation_hc_heads toyWorld true 10 (1 / 100) toy_tol 2 10
    (validation_hc_init toyWorld toy_validated_script (∅ : Finset (String × String)) ∅ ∅ ()
      true 3)

/-- Arguments `(op, iter)` of the calls to the callback, in call order (`none`
is the null operator). -/
def callback_calls {W : World} (trace : List (Event W)) : List (Option W.Operator × Int) :=
  trace.filterMap fun e => match e with
    | Event.callback _ op i => some (op, i)
    | _ => none

/-- Operators passed to `update_scores`, in call order. -/
def updated_ops {W : World} (trace : List (Event W)) : List W.Operator :=
  trace.filterMap fun e => match e with
    | Event.update_scores _ op => some op
    | _ => none

/-- Operators passed to the callback, in call order. -/
def reported_ops {W : World} (trace : List (Event W)) : List W.Operator :=
  (callback_calls trace).filterMap Prod.fst

/-- The calls that concern an applied operator: `apply`, the callback with that
operator, `update_scores`. -/
inductive StepCall (W : World) where
  | applied (op : W.Operator)
  | reported (op : W.Operator)
  | updated (op : W.Operator)

/-- The calls of a trace that concern an applied operator, in call order. -/
def step_calls {W : World} (trace : List (Event W)) : List (StepCall W) :=
  trace.filterMap fun e => match e with
    | Event.apply op _ => some (StepCall.applied op)
    | Event.callback _ (some op) _ => some (StepCall.reported op)
    | Event.update_scores _ op => some (StepCall.updated op)
    | _ => none

/-- The calls of a step of the validated loop that runs to the end of the body:
`apply`, then the callback (when present), then `update_scores`. -/
def full_step {W : World} (callback : Bool) (op : W.Operator) : List (StepCall W) :=
  StepCall.applied op ::
    ((if callback then [StepCall.reported op] else []) ++ [StepCall.updated op])

/-- Whether the last step of a log of acceptance tests left the loop through the
`break` of line 203: it was tolerated and brought the number of consecutive
tolerated steps to `patience` or more. -/
def last_step_exhausts {W : World} (patience : Int) (h : List (VStep W)) : Bool :=
  match h.getLast? with
  | none => false
  | some r => !r.accepted && decide (patience ≤ (trailing_tolerated h : Int))

/-- Candidates of a scenario in which every step improves the validated score:
add `A -> B` (delta 2.0, validation delta +0.3), add `B -> C` (delta 1.5,
validation delta +0.1), then a candidate whose delta is not positive. -/
def toy_accepting_script : List (Option ToyOperator) :=
  [some (toyAdd "A" "B" 2 (3 / 10)), some (toyAdd "B" "C" (3 / 2) (1 / 10)),
   some (toyAdd "C" "A" 0 0)]

/-- Validated hill-climbing on `toy_accepting_script`, with `patience = 0`. -/
def toy_accepting_run : VOutcome toyWorld :=
  estimate_validation_hc toyWorld toy_tol toy_accepting_script (∅ : Finset (String × String))
    ∅ ∅ () true 3 10 (1 / 100) 0

/-- Plain hill-climbing on the inputs of `toy_accepting_run`. -/
def toy_accepting_plain_run : HCOutcome toyWorld :=
  estimate_hc toyWorld toy_tol toy_accepting_script (∅ : Finset (String × String)) ∅ ∅ true 3
    10 (1 / 100)

/-! ## The convergence test on `double` values

The test of line 78 compares `double` values, for which `<` is false as soon as
an operand is not-a-number.  The definitions of this section embed `estimate_hc`
with that comparison; `delta op` is the `double` returned by `op->delta()`.  On
numbers they coincide with `hc_body`, `hc_loop` and `estimate_hc`
(`estimate_hc_double_num`). -/

/-- A `double` as the arithmetic of line 78 sees it: not-a-number, an infinity or
a number.  Rounding is not modelled: the difference of two numbers is exact. -/
inductive Double where
  | nan
  | neg_inf
  | num (q : ℚ)
  | pos_inf
  deriving DecidableEq

/-- The test `std::isnan(x)`. -/
def Double.isnan : Double → Bool
  | Double.nan => true
  | _ => false

/-- The difference `x - y` of two `double` values. -/
def Double.sub : Double → Double → Double
  | Double.nan, _ => Double.nan
  | _, Double.nan => Double.nan
  | Double.pos_inf, Double.pos_inf => Double.nan
  | Double.neg_inf, Double.neg_inf => Double.nan
  | Double.pos_inf, _ => Double.pos_inf
  | Double.neg_inf, _ => Double.neg_inf
  | Double.num _, Double.pos_inf => Double.neg_inf
  | Double.num _, Double.neg_inf => Double.pos_inf
  | Double.num a, Double.num b => Double.num (a - b)

/-- The comparison `x < y` of two `double` values: false as soon as an operand
is not-a-number. -/
def Double.lt : Double → Double → Bool
  | Double.nan, _ => false
  | _, Double.nan => false
  | _, Double.neg_inf => false
  | Double.neg_inf, _ => true
  | Double.pos_inf, _ => false
  | Double.num _, Double.pos_inf => true
  | Double.num a, Double.num b => decide (a < b)

/-- The comparison `x >= y` of two `double` values: false as soon as an operand
is not-a-number. -/
def Double.ge : Double → Double → Bool
  | Double.nan, _ => false
  | _, Double.nan => false
  | Double.pos_inf, _ => true
  | _, Double.neg_inf => true
  | Double.neg_inf, _ => false
  | Double.num _, Double.pos_inf => false
  | Double.num a, Double.num b => decide (b ≤ a)

/-- Body of the `while` loop of `estimate_hc` (lines 77-90), the test of line 78
being evaluated on `double` values. -/
def hc_body_double (W : World) (delta : W.Operator → Double) (callback : Bool)
    (epsilon machine_tol : Double) (st : HCState W) : LoopStep (HCState W) :=
  let r := W.find_max st.op_set st.current_model
  let tr1 := st.trace ++ [Event.find_max st.current_model none r.1]
  match r.1 with
  | none => LoopStep.stop { st with op_set := r.2, trace := tr1 }
  | some best_op =>
    if Double.lt (Double.sub (delta best_op) epsilon) machine_tol then
      LoopStep.stop { st with op_set := r.2, trace := tr1 }
    else
      let m := W.apply best_op st.current_model
      let ops := W.update_scores r.2 m best_op
      let iter := st.iter + 1
      let tr2 := tr1 ++ [Event.apply best_op st.current_model, Event.update_scores m best_op]
      LoopStep.next
        { current_model := m
          op_set := ops
          iter := iter
          trace := call_callback callback m (some best_op) iter tr2 }

/-- The loop `while (iter < max_iters)` of `estimate_hc` around `hc_body_double`.
The first argument bounds the number of iterations still allowed;
`estimate_hc_double` starts it at `max_iters.toNat`, which the loop condition
never lets it exceed (`hc_loop_double_fuel`). -/
def hc_loop_double (W : World) (delta : W.Operator → Double) (callback : Bool)
    (max_iters : Int) (epsilon machine_tol : Double) : Nat → HCState W → HCState W
  | 0, st => st
  | fuel + 1, st =>
    if st.iter < max_iters then
      match hc_body_double W delta callback epsilon machine_tol st with
      | LoopStep.next st' =>
        hc_loop_double W delta callback max_iters epsilon machine_tol fuel st'
      | LoopStep.stop st' => st'
    else st

end HillClimbing

namespace Factors

/-! ## `SemiparametricCPD::__setstate__`

Embedding of `src/factors/continuous/SemiparametricCPD.cpp`, lines 63-81.  The
Python objects, the pybind11 casts and the decoders of the two alternatives of
the variant are declared outside that file and are taken as parameters. -/

/-- Collaborators of `SemiparametricCPD::__setstate__`. -/
structure Pickle where
  /-- Python objects (the elements of a `py::tuple`) -/
  Obj : Type
  /-- the class `LinearGaussianCPD` -/
  LinearGaussianCPD : Type
  /-- the class `CKDE` -/
  CKDE : Type
  /-- exceptions thrown by the casts and by the two decoders -/
  Err : Type
  /-- `obj.cast<size_t>()` -/
  cast_size_t : Obj → Except Err Nat
  /-- `obj.cast<py::tuple>()` -/
  cast_tuple : Obj → Except Err (List Obj)
  /-- `LinearGaussianCPD::__setstate__` -/
  lg_setstate : List Obj → Except Err LinearGaussianCPD
  /-- `CKDE::__setstate__` -/
  ckde_setstate : List Obj → Except Err CKDE

/-- Exceptions that leave `SemiparametricCPD::__setstate__`. -/
inductive SetstateError (Err : Type) where
  /-- `std::runtime_error("Not valid SemiparametricCPD.")` -/
  | runtime_error
  /-- an exception of a cast or of a decoder, passed on unchanged -/
  | other (e : Err)

/-- A decoded alternative converted to the variant, or the exception passed on. -/
def to_variant {Err α β : Type} (f : α → β) : Except Err α → Except (SetstateError Err) β
  | Except.ok a => Except.ok (f a)
  | Except.error e => Except.error (SetstateError.other e)

/-- The function `SemiparametricCPD::__setstate__` (lines 67-78); the returned
variant holds a `LinearGaussianCPD` (left) or a `CKDE` (right).  The pattern
`[t0, t1]` is the case `t.size() == 2`. -/
def SemiparametricCPD.__setstate__ (P : Pickle) (t : List P.Obj) :
    Except (SetstateError P.Err) (P.LinearGaussianCPD ⊕ P.CKDE) :=
  match t with
  | [t0, t1] =>
    match P.cast_size_t t0 with
    | Except.error e => Except.error (SetstateError.other e)
    | Except.ok index =>
      if index = 0 then
        match P.cast_tuple t1 with
        | Except.error e => Except.error (SetstateError.other e)
        | Except.ok state => to_variant Sum.inl (P.lg_setstate state)
      else
        match P.cast_tuple t1 with
        | Except.error e => Except.error (SetstateError.other e)
        | Except.ok state => to_variant Sum.inr (P.ckde_setstate state)
  | _ => Except.error SetstateError.runtime_error

/-- Python objects of a small concrete pickle world. -/
inductive ToyObj where
  | int (n : Int)
  | tuple (items : List Int)
  deriving DecidableEq

/-- A concrete pickle world: a state tuple is a list of integers, both decoders
keep the list, and the casts fail on objects of the wrong kind. -/
@[reducible] def toyPickle : Pickle where
  Obj := ToyObj
  LinearGaussianCPD := List Int
  CKDE := List Int
  Err := String
  cast_size_t := fun o => match o with
    | ToyObj.int n => if 0 ≤ n then Except.ok n.toNat else Except.error "cast"
    | ToyObj.tuple _ => Except.error "cast"
  cast_tuple := fun o => match o with
    | ToyObj.int _ => Except.error "cast"
    | ToyObj.tuple items => Except.ok (items.map ToyObj.int)
  lg_setstate := fun s => Except.ok (s.filterMap fun o => match o with
    | ToyObj.int n => some n
    | ToyObj.tuple _ => none)
  ckde_setstate := fun s => Except.ok (s.filterMap fun o => match o with
    | ToyObj.int n => some n
    | ToyObj.tuple _ => none)

end Factors

namespace HillClimbing

/-! ## The loop of `estimate_hc` -/

theorem call_callback_eq {W : World} (callback : Bool) (m : W.Model) (op : Option W.Operator)
    (iter : Int) (trace : List (Event W)) :
    call_callback callback m op iter trace =
      trace ++ (if callback then [Event.callback m op iter] else []) := by
  cases callback <;> simp [call_callback]

theorem applied_ops_append {W : World} (a b : List (Event W)) :
    applied_ops (a ++ b) = applied_ops a ++ applied_ops b := by
  simp [applied_ops, List.filterMap_append]

theorem find_max_results_append {W : World} (a b : List (Event W)) :
    find_max_results (a ++ b) = find_max_results a ++ find_max_results b := by
  simp [find_max_results, List.filterMap_append]

theorem working_models_append {W : World} (m0 : W.Model) (a b : List (Event W)) :
    working_models m0 (a ++ b) = working_models m0 a ++ (working_models m0 b).tail := by
  simp [working_models, List.filterMap_append]

theorem apply_ops_snoc (W : World) (ops : List W.Operator) (op : W.Operator) (m : W.Model) :
    apply_ops W (ops ++ [op]) m = W.apply op (apply_ops W ops m) := by
  simp [apply_ops, List.foldl_append]

/-- What a `break` of the body of `estimate_hc` leaves behind. -/
theorem hc_body_stop {W : World} {callback : Bool} {epsilon machine_tol : ℚ}
    {st st' : HCState W} (h : hc_body W callback epsilon machine_tol st = LoopStep.stop st') :
    st'.current_model = st.current_model ∧ st'.iter = st.iter ∧
    st'.op_set = (W.find_max st.op_set st.current_model).2 ∧
    st'.trace = st.trace ++
      [Event.find_max st.current_model none (W.find_max st.op_set st.current_model).1] ∧
    ((W.find_max st.op_set st.current_model).1 = none ∨
      ∃ op, (W.find_max st.op_set st.current_model).1 = some op ∧
        W.delta op - epsilon < machine_tol) := by
  unfold hc_body at h
  cases hr : (W.find_max st.op_set st.current_model).1 with
  | none =>
    simp only [hr] at h
    cases h
    simp [hr]
  | some op =>
    simp only [hr] at h
    by_cases hd : W.delta op - epsilon < machine_tol
    · simp only [hd, if_true] at h
      cases h
      simp [hr, hd]
    · simp only [hd, if_false] at h
      cases h

/-- What a full execution of the body of `estimate_hc` leaves behind. -/
theorem hc_body_next {W : World} {callback : Bool} {epsilon machine_tol : ℚ}
    {st st' : HCState W} (h : hc_body W callback epsilon machine_tol st = LoopStep.next st') :
    ∃ op, (W.find_max st.op_set st.current_model).1 = some op ∧
      ¬ (W.delta op - epsilon < machine_tol) ∧
      st'.current_model = W.apply op st.current_model ∧
      st'.iter = st.iter + 1 ∧
      st'.op_set = W.update_scores (W.find_max st.op_set st.current_model).2
        (W.apply op st.current_model) op ∧
      st'.trace = st.trace ++
        ([Event.find_max st.current_model none (some op), Event.apply op st.current_model,
          Event.update_scores (W.apply op st.current_model) op] ++
         (if callback then
            [Event.callback (W.apply op st.current_model) (some op) (st.iter + 1)]
          else [])) := by
  unfold hc_body at h
  cases hr : (W.find_max st.op_set st.current_model).1 with
  | none =>
    simp only [hr] at h
    cases h
  | some op =>
    simp only [hr] at h
    by_cases hd : W.delta op - epsilon < machine_tol
    · simp only [hd, if_true] at h
      cases h
    · simp only [hd, if_false] at h
      cases h
      exact ⟨op, rfl, hd, rfl, rfl, rfl, by simp [call_callback_eq]⟩

/-- Proof rule for the loop of `estimate_hc`: an invariant of the loop head that
the body preserves yields the postcondition, provided the iteration bound given
to `hc_loop` covers the distance of `iter` to `max_iters`. -/
theorem hc_loop_rule (W : World) (callback : Bool) (max_iters : Int) (epsilon machine_tol : ℚ)
    (Inv Post : HCState W → Prop)
    (hexit : ∀ st, Inv st → ¬ st.iter < max_iters → Post st)
    (hnext : ∀ st st', Inv st → st.iter < max_iters →
      hc_body W callback epsilon machine_tol st = LoopStep.next st' → Inv st')
    (hstop : ∀ st st', Inv st → st.iter < max_iters →
      hc_body W callback epsilon machine_tol st = LoopStep.stop st' → Post st') :
    ∀ (fuel : Nat) (st : HCState W), (max_iters - st.iter).toNat ≤ fuel → Inv st →
      Post (hc_loop W callback max_iters epsilon machine_tol fuel st) := by
  intro fuel
  induction fuel with
  | zero =>
    intro st hfuel hinv
    have hlt : ¬ st.iter < max_iters := by omega
    simpa [hc_loop] using hexit st hinv hlt
  | succ n ih =>
    intro st hfuel hinv
    by_cases hlt : st.iter < max_iters
    · cases hb : hc_body W callback epsilon machine_tol st with
      | next st' =>
        have hit := (hc_body_next hb).choose_spec.2.2.2.1
        have : hc_loop W callback max_iters epsilon machine_tol (n + 1) st =
            hc_loop W callback max_iters epsilon machine_tol n st' := by
          simp [hc_loop, hlt, hb]
        rw [this]
        exact ih st' (by omega) (hnext st st' hinv hlt hb)
      | stop st' =>
        have : hc_loop W callback max_iters epsilon machine_tol (n + 1) st = st' := by
          simp [hc_loop, hlt, hb]
        rw [this]
        exact hstop st st' hinv hlt hb
    · have : hc_loop W callback max_iters epsilon machine_tol (n + 1) st = st := by
        simp [hc_loop, hlt]
      rw [this]
      exact hexit st hinv hlt

/-- The iteration bound of `hc_loop` is never the reason why the loop ends:
every bound that covers the distance of `iter` to `max_iters` gives the same
final state. -/
theorem hc_loop_fuel (W : World) (callback : Bool) (max_iters : Int) (epsilon machine_tol : ℚ) :
    ∀ (fuel : Nat) (st : HCState W), (max_iters - st.iter).toNat ≤ fuel →
      hc_loop W callback max_iters epsilon machine_tol fuel st =
      hc_loop W callback max_iters epsilon machine_tol (max_iters - st.iter).toNat st := by
  intro fuel
  induction fuel with
  | zero =>
    intro st hfuel
    have h0 : (max_iters - st.iter).toNat = 0 := by omega
    rw [h0]
  | succ n ih =>
    intro st hfuel
    by_cases hlt : st.iter < max_iters
    · obtain ⟨k, hk⟩ : ∃ k, (max_iters - st.iter).toNat = k + 1 := ⟨(max_iters - st.iter).toNat - 1, by omega⟩
      rw [hk]
      cases hb : hc_body W callback epsilon machine_tol st with
      | next st' =>
        have hit := (hc_body_next hb).choose_spec.2.2.2.1
        have hk' : (max_iters - st'.iter).toNat = k := by omega
        simp only [hc_loop, hlt, if_true, hb]
        rw [ih st' (by omega), ← hk']
      | stop st' => simp [hc_loop, hlt, hb]
    · have h0 : (max_iters - st.iter).toNat = 0 := by omega
      rw [h0]
      simp [hc_loop, hlt]

/-! ## `estimate_hc`: claims -/

/-- C10. If the start model violates the arc blacklist (`check_blacklist`
throws), both `estimate_hc` and `estimate_validation_hc` fail with that error
before anything else happens: the operator set is left as it was passed (no
constraint is set on it), no call is made at all (in particular no
`cache_scores`, no `find_max`, no callback), and no model is returned. -/
theorem blacklist_violation_fails_fast (W : World) (machine_tol : ℚ) (op_set : W.OperatorSet)
    (start : W.Model) (arc_blacklist arc_whitelist : Finset W.Arc)
    (type_whitelist : W.FactorStringTypeVector) (callback : Bool)
    (max_indegree max_iters : Int) (epsilon : ℚ) (patience : Int)
    (h : W.check_blacklist start arc_blacklist = false) :
    estimate_hc W machine_tol op_set start arc_blacklist arc_whitelist callback max_indegree
        max_iters epsilon =
      { returned := Except.error HCError.blacklist_violation, op_set := op_set, trace := [] } ∧
    estimate_validation_hc W machine_tol op_set start arc_blacklist arc_whitelist type_whitelist
        callback max_indegree max_iters epsilon patience =
      { returned := Except.error HCError.blacklist_violation, op_set := op_set, trace := [],
        history := [] } := by
  simp [estimate_hc, estimate_validation_hc, h]

/-- Witness of C10: a start model with the arc `A -> B`, which is blacklisted. -/
theorem blacklist_violation_fails_fast_witness :
    toyWorld.check_blacklist ({("A", "B")} : Finset (String × String)) {("A", "B")} = false ∧
    (estimate_hc toyWorld toy_tol toy_plain_script ({("A", "B")} : Finset (String × String))
        {("A", "B")} ∅ true 3 10 (1 / 100) =
      { returned := Except.error HCError.blacklist_violation, op_set := toy_plain_script,
        trace := [] } ∧
    estimate_validation_hc toyWorld toy_tol toy_plain_script
        ({("A", "B")} : Finset (String × String)) {("A", "B")} ∅ () true 3 10 (1 / 100) 2 =
      { returned := Except.error HCError.blacklist_violation, op_set := toy_plain_script,
        trace := [], history := [] }) :=
  ⟨by decide,
   blacklist_violation_fails_fast toyWorld toy_tol toy_plain_script
     ({("A", "B")} : Finset (String × String)) {("A", "B")} ∅ () true 3 10 (1 / 100) 2
     (by decide)⟩

/-- C9. For a start model that passes `check_blacklist`, `estimate_hc` with
`max_iters = 0` never calls `find_max`, applies no operator, and returns the
clone of the start model after `force_whitelist(arc_whitelist)`. -/
theorem estimate_hc_zero_iters (W : World) (machine_tol : ℚ) (op_set : W.OperatorSet)
    (start : W.Model) (arc_blacklist arc_whitelist : Finset W.Arc) (callback : Bool)
    (max_indegree : Int) (epsilon : ℚ)
    (h : W.check_blacklist start arc_blacklist = true) :
    (estimate_hc W machine_tol op_set start arc_blacklist arc_whitelist callback max_indegree 0
        epsilon).returned = Except.ok (W.force_whitelist start arc_whitelist) ∧
    (∀ m tabu r, Event.find_max m tabu r ∉
      (estimate_hc W machine_tol op_set start arc_blacklist arc_whitelist callback max_indegree 0
        epsilon).trace) ∧
    (∀ op m, Event.apply op m ∉
      (estimate_hc W machine_tol op_set start arc_blacklist arc_whitelist callback max_indegree 0
        epsilon).trace) := by
  cases callback <;> simp [estimate_hc, h, hc_loop, hc_init, call_callback]

/-- Witness of C9: the network without arcs and the whitelist `A -> B`. -/
theorem estimate_hc_zero_iters_witness :
    toyWorld.check_blacklist (∅ : Finset (String × String)) ∅ = true ∧
    (estimate_hc toyWorld toy_tol toy_plain_script (∅ : Finset (String × String)) ∅
        {("A", "B")} true 3 0 (1 / 100)).returned =
      Except.ok (toyWorld.force_whitelist (∅ : Finset (String × String)) {("A", "B")}) ∧
    toyWorld.force_whitelist (∅ : Finset (String × String)) {("A", "B")} = {("A", "B")} :=
  ⟨by decide,
   (estimate_hc_zero_iters toyWorld toy_tol toy_plain_script (∅ : Finset (String × String)) ∅
     {("A", "B")} true 3 (1 / 100) (by decide)).1,
   by decide⟩

/-- Loop invariant behind C5. -/
theorem hc_loop_applied (W : World) (callback : Bool) (max_iters : Int) (epsilon machine_tol : ℚ)
    (m0 : W.Model) (st0 : HCState W)
    (h0 : st0.current_model = apply_ops W (applied_ops st0.trace) m0)
    (h1 : ∀ op ∈ applied_ops st0.trace, ¬ (W.delta op - epsilon < machine_tol))
    (h2 : find_max_results st0.trace = (applied_ops st0.trace).map some)
    (h3 : st0.iter = ((applied_ops st0.trace).length : Int))
    (h4 : (applied_ops st0.trace).length ≤ max_iters.toNat)
    (fuel : Nat) (hfuel : (max_iters - st0.iter).toNat ≤ fuel) :
    let st := hc_loop W callback max_iters epsilon machine_tol fuel st0
    st.current_model = apply_ops W (applied_ops st.trace) m0 ∧
    (∀ op ∈ applied_ops st.trace, ¬ (W.delta op - epsilon < machine_tol)) ∧
    ((find_max_results st.trace = (applied_ops st.trace).map some ∧
        (applied_ops st.trace).length = max_iters.toNat) ∨
      (∃ last, find_max_results st.trace = (applied_ops st.trace).map some ++ [last] ∧
        (applied_ops st.trace).length < max_iters.toNat ∧
        (last = none ∨ ∃ op, last = some op ∧ W.delta op - epsilon < machine_tol))) := by
  refine hc_loop_rule W callback max_iters epsilon machine_tol
    (fun st => st.current_model = apply_ops W (applied_ops st.trace) m0 ∧
      (∀ op ∈ applied_ops st.trace, ¬ (W.delta op - epsilon < machine_tol)) ∧
      find_max_results st.trace = (applied_ops st.trace).map some ∧
      st.iter = ((applied_ops st.trace).length : Int) ∧
      (applied_ops st.trace).length ≤ max_iters.toNat)
    (fun st => st.current_model = apply_ops W (applied_ops st.trace) m0 ∧
      (∀ op ∈ applied_ops st.trace, ¬ (W.delta op - epsilon < machine_tol)) ∧
      ((find_max_results st.trace = (applied_ops st.trace).map some ∧
          (applied_ops st.trace).length = max_iters.toNat) ∨
        (∃ last, find_max_results st.trace = (applied_ops st.trace).map some ++ [last] ∧
          (applied_ops st.trace).length < max_iters.toNat ∧
          (last = none ∨ ∃ op, last = some op ∧ W.delta op - epsilon < machine_tol))))
    ?_ ?_ ?_ fuel st0 hfuel ⟨h0, h1, h2, h3, h4⟩
  · rintro st ⟨i0, i1, i2, i3, i4⟩ hlt
    exact ⟨i0, i1, Or.inl ⟨i2, by omega⟩⟩
  · rintro st st' ⟨i0, i1, i2, i3, i4⟩ hlt hb
    obtain ⟨op, hr, hd, hm, hit, -, htr⟩ := hc_body_next hb
    have ha : applied_ops st'.trace = applied_ops st.trace ++ [op] := by
      rw [htr]; cases callback <;> simp [applied_ops, List.filterMap_append]
    have hf : find_max_results st'.trace = find_max_results st.trace ++ [some op] := by
      rw [htr]; cases callback <;> simp [find_max_results, List.filterMap_append]
    refine ⟨?_, ?_, ?_, ?_, ?_⟩
    · rw [ha, apply_ops_snoc, hm, i0]
    · intro o ho
      rw [ha, List.mem_append, List.mem_singleton] at ho
      rcases ho with ho | rfl
      · exact i1 o ho
      · exact hd
    · rw [hf, ha, i2]; simp
    · rw [hit, ha, i3]; simp
    · rw [ha]; simp only [List.length_append, List.length_singleton]; omega
  · rintro st st' ⟨i0, i1, i2, i3, i4⟩ hlt hb
    obtain ⟨hm, hit, -, htr, hlast⟩ := hc_body_stop hb
    have ha : applied_ops st'.trace = applied_ops st.trace := by
      rw [htr]; simp [applied_ops, List.filterMap_append]
    have hf : find_max_results st'.trace = find_max_results st.trace ++
        [(W.find_max st.op_set st.current_model).1] := by
      rw [htr]; simp [find_max_results, List.filterMap_append]
    refine ⟨by rw [ha, hm, i0], by rw [ha]; exact i1, Or.inr ⟨_, by rw [hf, ha, i2], ?_, hlast⟩⟩
    rw [ha]; omega

/-- C5. `estimate_hc` applies the candidates returned by the successive calls to
`find_max`, in order; it stops at the first call that returns no candidate or a
candidate with `delta - epsilon < machine_tol`, or after `max_iters` applied
operators, whichever comes first; the returned model is the start clone after
`force_whitelist` with exactly those operators applied. -/
theorem estimate_hc_applies_candidates (W : World) (machine_tol : ℚ) (op_set : W.OperatorSet)
    (start : W.Model) (arc_blacklist arc_whitelist : Finset W.Arc) (callback : Bool)
    (max_indegree max_iters : Int) (epsilon : ℚ)
    (h : W.check_blacklist start arc_blacklist = true) :
    let out := estimate_hc W machine_tol op_set start arc_blacklist arc_whitelist callback
      max_indegree max_iters epsilon
    out.returned =
      Except.ok (apply_ops W (applied_ops out.trace) (W.force_whitelist start arc_whitelist)) ∧
    (∀ op ∈ applied_ops out.trace, ¬ (W.delta op - epsilon < machine_tol)) ∧
    ((find_max_results out.trace = (applied_ops out.trace).map some ∧
        (applied_ops out.trace).length = max_iters.toNat) ∨
      (∃ last, find_max_results out.trace = (applied_ops out.trace).map some ++ [last] ∧
        (applied_ops out.trace).length < max_iters.toNat ∧
        (last = none ∨ ∃ op, last = some op ∧ W.delta op - epsilon < machine_tol))) := by
  have hinit_a : applied_ops (hc_init W op_set start arc_blacklist arc_whitelist callback
      max_indegree).trace = [] := by
    cases callback <;> simp [hc_init, call_callback, applied_ops]
  have hinit_f : find_max_results (hc_init W op_set start arc_blacklist arc_whitelist callback
      max_indegree).trace = [] := by
    cases callback <;> simp [hc_init, call_callback, find_max_results]
  have key := hc_loop_applied W callback max_iters epsilon machine_tol
    (W.force_whitelist start arc_whitelist)
    (hc_init W op_set start arc_blacklist arc_whitelist callback max_indegree)
    (by rw [hinit_a]; rfl) (by rw [hinit_a]; simp) (by rw [hinit_a, hinit_f]; rfl)
    (by rw [hinit_a]; rfl) (by rw [hinit_a]; simp) max_iters.toNat
    (by simp [hc_init])
  have ha : ∀ (st : HCState W),
      applied_ops (call_callback callback st.current_model none st.iter st.trace) =
        applied_ops st.trace := by
    intro st; cases callback <;> simp [call_callback, applied_ops, List.filterMap_append]
  have hf : ∀ (st : HCState W),
      find_max_results (call_callback callback st.current_model none st.iter st.trace) =
        find_max_results st.trace := by
    intro st; cases callback <;> simp [call_callback, find_max_results, List.filterMap_append]
  simp only [estimate_hc, h, if_true, ha, hf]
  refine ⟨?_, key.2.1, key.2.2⟩
  rw [key.1]

/-- Witness of C5: from the network without arcs over `A`, `B`, `C`, with
candidates add `A -> B` (delta 2.0), add `B -> C` (delta 1.5), then a candidate
whose delta is not positive, `epsilon = 0.01` and `max_iters = 10`, exactly the
two operators are applied and the final arc set is `A -> B`, `B -> C`. -/
theorem estimate_hc_applies_candidates_witness :
    toyWorld.check_blacklist (∅ : Finset (String × String)) ∅ = true ∧
    toy_plain_run.returned =
      Except.ok (apply_ops toyWorld (applied_ops toy_plain_run.trace)
        (toyWorld.force_whitelist (∅ : Finset (String × String)) ∅)) ∧
    applied_ops toy_plain_run.trace = [toyAdd "A" "B" 2 0, toyAdd "B" "C" (3 / 2) 0] ∧
    apply_ops toyWorld [toyAdd "A" "B" 2 0, toyAdd "B" "C" (3 / 2) 0]
        (toyWorld.force_whitelist (∅ : Finset (String × String)) ∅) =
      ({("A", "B"), ("B", "C")} : Finset (String × String)) ∧
    find_max_results toy_plain_run.trace =
      [some (toyAdd "A" "B" 2 0), some (toyAdd "B" "C" (3 / 2) 0), some (toyAdd "C" "A" 0 0)] :=
  ⟨by decide,
   (estimate_hc_applies_candidates toyWorld toy_tol toy_plain_script
     (∅ : Finset (String × String)) ∅ ∅ true 3 10 (1 / 100) (by decide)).1,
   by decide!, by decide!, by decide!⟩

theorem mem_apply_call_callback {W : World} (callback : Bool) (m' : W.Model)
    (o : Option W.Operator) (i : Int) (tr : List (Event W)) (op : W.Operator) (m : W.Model) :
    Event.apply op m ∈ call_callback callback m' o i tr ↔ Event.apply op m ∈ tr := by
  cases callback <;> simp [call_callback]

theorem working_models_call_callback {W : World} (callback : Bool) (m' : W.Model)
    (o : Option W.Operator) (i : Int) (tr : List (Event W)) (m0 : W.Model) :
    working_models m0 (call_callback callback m' o i tr) = working_models m0 tr := by
  cases callback <;> simp [call_callback, working_models, List.filterMap_append]

/-- A not-a-number operand makes the test of line 78 false. -/
theorem double_test_nan (d e tol : Double) (hn : (Double.sub d e).isnan = true) :
    Double.lt (Double.sub d e) tol = false ∧ Double.ge (Double.sub d e) tol = false := by
  cases d <;> cases e <;> cases tol <;>
    simp [Double.sub, Double.lt, Double.ge, Double.isnan] at hn ⊢

/-- What a full execution of the body leaves behind (test on `double` values). -/
theorem hc_body_double_next {W : World} {delta : W.Operator → Double} {callback : Bool}
    {epsilon machine_tol : Double} {st st' : HCState W}
    (h : hc_body_double W delta callback epsilon machine_tol st = LoopStep.next st') :
    ∃ op, (W.find_max st.op_set st.current_model).1 = some op ∧
      Double.lt (Double.sub (delta op) epsilon) machine_tol = false ∧
      st'.current_model = W.apply op st.current_model ∧
      st'.iter = st.iter + 1 ∧
      st'.op_set = W.update_scores (W.find_max st.op_set st.current_model).2
        (W.apply op st.current_model) op ∧
      st'.trace = st.trace ++
        ([Event.find_max st.current_model none (some op), Event.apply op st.current_model,
          Event.update_scores (W.apply op st.current_model) op] ++
         (if callback then
            [Event.callback (W.apply op st.current_model) (some op) (st.iter + 1)]
          else [])) := by
  unfold hc_body_double at h
  cases hr : (W.find_max st.op_set st.current_model).1 with
  | none =>
    simp only [hr] at h
    cases h
  | some op =>
    simp only [hr] at h
    cases hd : Double.lt (Double.sub (delta op) epsilon) machine_tol
    · simp only [hd] at h
      cases h
      exact ⟨op, rfl, hd, rfl, rfl, rfl, by simp [call_callback_eq]⟩
    · simp [hd] at h

/-- The iteration bound of `hc_loop_double` is never the reason why the loop
ends: every bound that covers the distance of `iter` to `max_iters` gives the
same final state. -/
theorem hc_loop_double_fuel (W : World) (delta : W.Operator → Double) (callback : Bool)
    (max_iters : Int) (epsilon machine_tol : Double) :
    ∀ (fuel : Nat) (st : HCState W), (max_iters - st.iter).toNat ≤ fuel →
      hc_loop_double W delta callback max_iters epsilon machine_tol fuel st =
      hc_loop_double W delta callback max_iters epsilon machine_tol
        (max_iters - st.iter).toNat st := by
  intro fuel
  induction fuel with
  | zero =>
    intro st hfuel
    have h0 : (max_iters - st.iter).toNat = 0 := by omega
    rw [h0]
  | succ n ih =>
    intro st hfuel
    by_cases hlt : st.iter < max_iters
    · obtain ⟨k, hk⟩ : ∃ k, (max_iters - st.iter).toNat = k + 1 :=
        ⟨(max_iters - st.iter).toNat - 1, by omega⟩
      rw [hk]
      cases hb : hc_body_double W delta callback epsilon machine_tol st with
      | next st' =>
        have hit := (hc_body_double_next hb).choose_spec.2.2.2.1
        have hk' : (max_iters - st'.iter).toNat = k := by omega
        simp only [hc_loop_double, hlt, if_true, hb]
        rw [ih st' (by omega), ← hk']
      | stop st' => simp [hc_loop_double, hlt, hb]
    · have h0 : (max_iters - st.iter).toNat = 0 := by omega
      rw [h0]
      simp [hc_loop_double, hlt]

/-- The five ways through the body of the validated loop: convergence `break`,
exception of `validation_delta_score`, accepted step, tolerated step that
exhausts patience (`break`), tolerated step that does not. -/
theorem validation_hc_body_cases (W : World) (callback : Bool) (epsilon machine_tol : ℚ)
    (patience : Int) (st : VState W) :
    ((W.find_max_tabu st.op_set st.current_model st.tabu_set).1 = none ∨
        ∃ op, (W.find_max_tabu st.op_set st.current_model st.tabu_set).1 = some op ∧
          W.delta op - epsilon < machine_tol) ∧
      validation_hc_body W callback epsilon machine_tol patience st =
        VLoopStep.stop { st with
          op_set := (W.find_max_tabu st.op_set st.current_model st.tabu_set).2
          trace := st.trace ++ [Event.find_max st.current_model (some st.tabu_set)
            (W.find_max_tabu st.op_set st.current_model st.tabu_set).1] }
    ∨
    (∃ op e, (W.find_max_tabu st.op_set st.current_model st.tabu_set).1 = some op ∧
      ¬ (W.delta op - epsilon < machine_tol) ∧
      validation_delta_score W (W.apply op st.current_model) op st.local_validation =
        Except.error e ∧
      validation_hc_body W callback epsilon machine_tol patience st =
        VLoopStep.raise e { st with
          current_model := W.apply op st.current_model
          op_set := (W.find_max_tabu st.op_set st.current_model st.tabu_set).2
          trace := st.trace ++ [Event.find_max st.current_model (some st.tabu_set) (some op),
            Event.apply op st.current_model] })
    ∨
    (∃ op vd cache, (W.find_max_tabu st.op_set st.current_model st.tabu_set).1 = some op ∧
      ¬ (W.delta op - epsilon < machine_tol) ∧
      validation_delta_score W (W.apply op st.current_model) op st.local_validation =
        Except.ok (vd, cache) ∧
      vd + st.validation_offset > 0 ∧
      validation_hc_body W callback epsilon machine_tol patience st =
        VLoopStep.next
          { current_model := W.apply op st.current_model
            best_model := W.apply op st.current_model
            op_set := W.update_scores
              (W.find_max_tabu st.op_set st.current_model st.tabu_set).2
              (W.apply op st.current_model) op
            local_validation := cache
            p := 0
            validation_offset := 0
            tabu_set := ∅
            iter := st.iter + 1
            trace := st.trace ++
              ([Event.find_max st.current_model (some st.tabu_set) (some op),
                Event.apply op st.current_model,
                Event.validation_delta_score (W.apply op st.current_model) op vd,
                Event.clone (W.apply op st.current_model), Event.tabu_clear] ++
               (if callback then
                  [Event.callback (W.apply op st.current_model) (some op) st.iter]
                else []) ++
               [Event.update_scores (W.apply op st.current_model) op])
            history := st.history ++
              [{ op := op, model_before := st.current_model,
                 model_after := W.apply op st.current_model,
                 validation_delta := vd, offset_before := st.validation_offset }] })
    ∨
    (∃ op vd cache, (W.find_max_tabu st.op_set st.current_model st.tabu_set).1 = some op ∧
      ¬ (W.delta op - epsilon < machine_tol) ∧
      validation_delta_score W (W.apply op st.current_model) op st.local_validation =
        Except.ok (vd, cache) ∧
      ¬ (vd + st.validation_offset > 0) ∧ st.p + 1 ≥ patience ∧
      validation_hc_body W callback epsilon machine_tol patience st =
        VLoopStep.stop
          { current_model := W.apply op st.current_model
            best_model := st.best_model
            op_set := (W.find_max_tabu st.op_set st.current_model st.tabu_set).2
            local_validation := cache
            p := st.p + 1
            validation_offset := st.validation_offset
            tabu_set := st.tabu_set
            iter := st.iter
            trace := st.trace ++
              [Event.find_max st.current_model (some st.tabu_set) (some op),
               Event.apply op st.current_model,
               Event.validation_delta_score (W.apply op st.current_model) op vd]
            history := st.history ++
              [{ op := op, model_before := st.current_model,
                 model_after := W.apply op st.current_model,
                 validation_delta := vd, offset_before := st.validation_offset }] })
    ∨
    (∃ op vd cache, (W.find_max_tabu st.op_set st.current_model st.tabu_set).1 = some op ∧
      ¬ (W.delta op - epsilon < machine_tol) ∧
      validation_delta_score W (W.apply op st.current_model) op st.local_validation =
        Except.ok (vd, cache) ∧
      ¬ (vd + st.validation_offset > 0) ∧ ¬ (st.p + 1 ≥ patience) ∧
      validation_hc_body W callback epsilon machine_tol patience st =
        VLoopStep.next
          { current_model := W.apply op st.current_model
            best_model := st.best_model
            op_set := W.update_scores
              (W.find_max_tabu st.op_set st.current_model st.tabu_set).2
              (W.apply op st.current_model) op
            local_validation := cache
            p := st.p + 1
            validation_offset := st.validation_offset + vd
            tabu_set := insert (W.opposite op) st.tabu_set
            iter := st.iter + 1
            trace := st.trace ++
              ([Event.find_max st.current_model (some st.tabu_set) (some op),
                Event.apply op st.current_model,
                Event.validation_delta_score (W.apply op st.current_model) op vd,
                Event.tabu_insert (W.opposite op)] ++
               (if callback then
                  [Event.callback (W.apply op st.current_model) (some op) st.iter]
                else []) ++
               [Event.update_scores (W.apply op st.current_model) op])
            history := st.history ++
              [{ op := op, model_before := st.current_model,
                 model_after := W.apply op st.current_model,
                 validation_delta := vd, offset_before := st.validation_offset }] }) := by
  unfold validation_hc_body
  cases hr : (W.find_max_tabu st.op_set st.current_model st.tabu_set).1 with
  | none => exact Or.inl ⟨Or.inl rfl, by simp [hr]⟩
  | some op =>
    by_cases hd : W.delta op - epsilon < machine_tol
    · exact Or.inl ⟨Or.inr ⟨op, rfl, hd⟩, by simp [hr, hd]⟩
    · right
      cases hv : validation_delta_score W (W.apply op st.current_model) op
          st.local_validation with
      | error e => exact Or.inl ⟨op, e, rfl, hd, hv, by simp [hr, hd, hv]⟩
      | ok res =>
        obtain ⟨vd, cache⟩ := res
        right
        by_cases hacc : vd + st.validation_offset > 0
        · refine Or.inl ⟨op, vd, cache, rfl, hd, hv, hacc, ?_⟩
          simp [hr, hd, hv, hacc, validation_hc_tail, call_callback_eq]
        · right
          by_cases hp : st.p + 1 ≥ patience
          · refine Or.inl ⟨op, vd, cache, rfl, hd, hv, hacc, hp, ?_⟩
            simp [hr, hd, hv, hacc, hp]
          · refine Or.inr ⟨op, vd, cache, rfl, hd, hv, hacc, hp, ?_⟩
            simp [hr, hd, hv, hacc, hp, validation_hc_tail, call_callback_eq]

/-- Each full execution of the body of the validated loop increments `iter`. -/
theorem validation_hc_body_next_iter {W : World} {callback : Bool} {epsilon machine_tol : ℚ}
    {patience : Int} {st st' : VState W}
    (h : validation_hc_body W callback epsilon machine_tol patience st = VLoopStep.next st') :
    st'.iter = st.iter + 1 := by
  rcases validation_hc_body_cases W callback epsilon machine_tol patience st with
    ⟨-, hb⟩ | ⟨_, _, -, -, -, hb⟩ | ⟨_, _, _, -, -, -, -, hb⟩ | ⟨_, _, _, -, -, -, -, -, hb⟩ |
    ⟨_, _, _, -, -, -, -, -, hb⟩ <;>
  · rw [hb] at h
    cases h
    try rfl

/-- Proof rule for the loop of `estimate_validation_hc`. -/
theorem validation_hc_loop_rule (W : World) (callback : Bool) (max_iters : Int)
    (epsilon machine_tol : ℚ) (patience : Int)
    (Inv : VState W → Prop) (Post : Option HCError → VState W → Prop)
    (hexit : ∀ st, Inv st → ¬ st.iter < max_iters → Post none st)
    (hnext : ∀ st st', Inv st → st.iter < max_iters →
      validation_hc_body W callback epsilon machine_tol patience st = VLoopStep.next st' →
      Inv st')
    (hstop : ∀ st st', Inv st → st.iter < max_iters →
      validation_hc_body W callback epsilon machine_tol patience st = VLoopStep.stop st' →
      Post none st')
    (hraise : ∀ st st' e, Inv st → st.iter < max_iters →
      validation_hc_body W callback epsilon machine_tol patience st = VLoopStep.raise e st' →
      Post (some e) st') :
    ∀ (fuel : Nat) (st : VState W), (max_iters - st.iter).toNat ≤ fuel → Inv st →
      Post (validation_hc_loop W callback max_iters epsilon machine_tol patience fuel st).1
        (validation_hc_loop W callback max_iters epsilon machine_tol patience fuel st).2 := by
  intro fuel
  induction fuel with
  | zero =>
    intro st hfuel hinv
    have hlt : ¬ st.iter < max_iters := by omega
    simpa [validation_hc_loop] using hexit st hinv hlt
  | succ n ih =>
    intro st hfuel hinv
    by_cases hlt : st.iter < max_iters
    · cases hb : validation_hc_body W callback epsilon machine_tol patience st with
      | next st' =>
        have hit := validation_hc_body_next_iter hb
        have : validation_hc_loop W callback max_iters epsilon machine_tol patience (n + 1) st =
            validation_hc_loop W callback max_iters epsilon machine_tol patience n st' := by
          simp [validation_hc_loop, hlt, hb]
        rw [this]
        exact ih st' (by omega) (hnext st st' hinv hlt hb)
      | stop st' =>
        have : validation_hc_loop W callback max_iters epsilon machine_tol patience (n + 1) st =
            (none, st') := by
          simp [validation_hc_loop, hlt, hb]
        rw [this]
        exact hstop st st' hinv hlt hb
      | raise e st' =>
        have : validation_hc_loop W callback max_iters epsilon machine_tol patience (n + 1) st =
            (some e, st') := by
          simp [validation_hc_loop, hlt, hb]
        rw [this]
        exact hraise st st' e hinv hlt hb
    · have : validation_hc_loop W callback max_iters epsilon machine_tol patience (n + 1) st =
          (none, st) := by
        simp [validation_hc_loop, hlt]
      rw [this]
      exact hexit st hinv hlt

/-- The iteration bound of `validation_hc_loop` is never the reason why the loop
ends: every bound that covers the distance of `iter` to `max_iters` gives the
same result. -/
theorem validation_hc_loop_fuel (W : World) (callback : Bool) (max_iters : Int)
    (epsilon machine_tol : ℚ) (patience : Int) :
    ∀ (fuel : Nat) (st : VState W), (max_iters - st.iter).toNat ≤ fuel →
      validation_hc_loop W callback max_iters epsilon machine_tol patience fuel st =
      validation_hc_loop W callback max_iters epsilon machine_tol patience
        (max_iters - st.iter).toNat st := by
  intro fuel
  induction fuel with
  | zero =>
    intro st hfuel
    have h0 : (max_iters - st.iter).toNat = 0 := by omega
    rw [h0]
  | succ n ih =>
    intro st hfuel
    by_cases hlt : st.iter < max_iters
    · obtain ⟨k, hk⟩ : ∃ k, (max_iters - st.iter).toNat = k + 1 :=
        ⟨(max_iters - st.iter).toNat - 1, by omega⟩
      rw [hk]
      cases hb : validation_hc_body W callback epsilon machine_tol patience st with
      | next st' =>
        have hit := validation_hc_body_next_iter hb
        have hk' : (max_iters - st'.iter).toNat = k := by omega
        simp only [validation_hc_loop, hlt, if_true, hb]
        rw [ih st' (by omega), ← hk']
      | stop st' => simp [validation_hc_loop, hlt, hb]
      | raise e st' => simp [validation_hc_loop, hlt, hb]
    · have h0 : (max_iters - st.iter).toNat = 0 := by omega
      rw [h0]
      simp [validation_hc_loop, hlt]

/-! ## `estimate_validation_hc`: one step -/

/-- C7. In one step of `estimate_validation_hc`, for every state at the loop head
and every applied candidate with `validation_delta + validation_offset > 0`, the
step is accepted: the body runs to its end and afterwards the patience counter
is 0, `validation_offset` is 0, `best_model` is a clone of the just-mutated
`current_model`, and the tabu set is empty. -/
theorem validation_hc_accepted_step (W : World) (callback : Bool) (epsilon machine_tol : ℚ)
    (patience : Int) (st : VState W) (op : W.Operator) (vd : ℚ) (cache : W.LocalScoreCache)
    (hfind : (W.find_max_tabu st.op_set st.current_model st.tabu_set).1 = some op)
    (hdelta : ¬ (W.delta op - epsilon < machine_tol))
    (hvd : validation_delta_score W (W.apply op st.current_model) op st.local_validation =
      Except.ok (vd, cache))
    (hacc : vd + st.validation_offset > 0) :
    ∃ st', validation_hc_body W callback epsilon machine_tol patience st = VLoopStep.next st' ∧
      st'.current_model = W.apply op st.current_model ∧
      st'.p = 0 ∧ st'.validation_offset = 0 ∧ st'.best_model = st'.current_model ∧
      st'.tabu_set = ∅ := by
  rcases validation_hc_body_cases W callback epsilon machine_tol patience st with
    ⟨hc, -⟩ | ⟨o, e, h1, -, h3, -⟩ | ⟨o, v, c, h1, -, h3, -, hb⟩ | ⟨o, v, c, h1, -, h3, h4, -⟩ |
    ⟨o, v, c, h1, -, h3, h4, -⟩
  · rcases hc with hc | ⟨o, ho, hlt⟩
    · rw [hfind] at hc; cases hc
    · rw [hfind] at ho; cases ho; exact absurd hlt hdelta
  · rw [hfind] at h1; cases h1; rw [hvd] at h3; cases h3
  · rw [hfind] at h1; cases h1
    exact ⟨_, hb, rfl, rfl, rfl, rfl, rfl⟩
  · rw [hfind] at h1; cases h1; rw [hvd] at h3; cases h3; exact absurd hacc h4
  · rw [hfind] at h1; cases h1; rw [hvd] at h3; cases h3; exact absurd hacc h4

/-- Witness of C7: first step of the validated scenario, whose validation delta
is +0.3. -/
theorem validation_hc_accepted_step_witness :
    ∃ st', validation_hc_body toyWorld true (1 / 100) toy_tol 2
        (validation_hc_init toyWorld toy_validated_script (∅ : Finset (String × String)) ∅ ∅ ()
          true 3) = VLoopStep.next st' ∧
      st'.current_model = toyWorld.apply (toyAdd "A" "B" 2 (3 / 10)) ∅ ∧
      st'.p = 0 ∧ st'.validation_offset = 0 ∧ st'.best_model = st'.current_model ∧
      st'.tabu_set = ∅ :=
  validation_hc_accepted_step toyWorld true (1 / 100) toy_tol 2
    (validation_hc_init toyWorld toy_validated_script (∅ : Finset (String × String)) ∅ ∅ ()
      true 3)
    (toyAdd "A" "B" 2 (3 / 10)) (3 / 10)
    (toyWorld.update_vlocal_score (fun _ => 0) {("A", "B")} (toyAdd "A" "B" 2 (3 / 10)))
    (by decide!) (by decide!)
    (by norm_num [validation_delta_score, validation_hc_init, validation_hc_start, toyAdd,
          ToyOperator.run])
    (by norm_num [validation_hc_init])

/-! ## Tabu set -/

theorem tabu_replay_append {W : World} (a b : List (Event W)) :
    tabu_replay (a ++ b) = b.foldl (fun s e => match e with
      | Event.tabu_clear => ∅
      | Event.tabu_insert o => insert o s
      | _ => s) (tabu_replay a) := by
  simp [tabu_replay, List.foldl_append]

theorem tabu_replay_snoc {W : World} (a : List (Event W)) (e : Event W) :
    tabu_replay (a ++ [e]) = (match e with
      | Event.tabu_clear => ∅
      | Event.tabu_insert o => insert o (tabu_replay a)
      | _ => tabu_replay a) := by
  rw [tabu_replay_append]
  cases e <;> rfl

/-- An operator inserted in the tabu set stays in it as long as the set is not
cleared. -/
theorem mem_tabu_replay_of_insert {W : World} (t1 : List (Event W)) (o : W.Operator) :
    ∀ t2 : List (Event W), Event.tabu_clear ∉ t2 →
      o ∈ tabu_replay (t1 ++ Event.tabu_insert o :: t2) := by
  intro t2
  induction t2 using List.reverseRecOn with
  | nil =>
    intro _
    have : t1 ++ [Event.tabu_insert o] = t1 ++ [Event.tabu_insert o] := rfl
    rw [tabu_replay_snoc]
    simp
  | append_singleton t2 e ih =>
    intro hclear
    have h2 : Event.tabu_clear ∉ t2 := fun h => hclear (by simp [h])
    have he : e ≠ Event.tabu_clear := fun h => hclear (by simp [h])
    have hassoc : t1 ++ Event.tabu_insert o :: (t2 ++ [e]) =
        (t1 ++ Event.tabu_insert o :: t2) ++ [e] := by simp
    rw [hassoc, tabu_replay_snoc]
    cases e with
    | tabu_clear => exact absurd rfl he
    | tabu_insert o' => exact Finset.mem_insert_of_mem (ih h2)
    | _ => exact ih h2

theorem tabu_passed_append {W : World} (tr s : List (Event W)) (h : tabu_passed tr)
    (hs : ∀ s1 m tabu r s2, s = s1 ++ Event.find_max m tabu r :: s2 →
      tabu = some (tabu_replay (tr ++ s1))) :
    tabu_passed (tr ++ s) := by
  intro t1 m tabu r t2 heq
  rcases List.append_eq_append_iff.1 heq with ⟨a', ha, hb⟩ | ⟨c', ha, hb⟩
  · rw [ha]
    exact hs a' m tabu r t2 hb
  · cases c' with
    | nil =>
      simp only [List.nil_append] at hb
      have := hs [] m tabu r t2 (by simpa using hb.symm)
      simpa [ha] using this
    | cons x c'' =>
      simp only [List.cons_append, List.cons.injEq] at hb
      obtain ⟨rfl, -⟩ := hb
      exact h t1 m tabu r c'' ha

/-- A block of calls without `find_max` keeps `tabu_passed`. -/
theorem tabu_passed_append_of_not_mem {W : World} (tr s : List (Event W)) (h : tabu_passed tr)
    (hs : ∀ m tabu r, Event.find_max m tabu r ∉ s) : tabu_passed (tr ++ s) := by
  refine tabu_passed_append tr s h ?_
  intro s1 m tabu r s2 heq
  exact absurd (by rw [heq]; simp) (hs m tabu r)

/-- A block of calls that starts with `find_max` on the current tabu set and
contains no other `find_max` keeps `tabu_passed`. -/
theorem tabu_passed_append_find_max {W : World} (tr rest : List (Event W)) (m : W.Model)
    (r : Option W.Operator) (h : tabu_passed tr)
    (hs : ∀ m tabu r, Event.find_max m tabu r ∉ rest) :
    tabu_passed (tr ++ Event.find_max m (some (tabu_replay tr)) r :: rest) := by
  refine tabu_passed_append tr _ h ?_
  intro s1 m' tabu r' s2 heq
  cases s1 with
  | nil =>
    simp only [List.nil_append, List.cons.injEq, Event.find_max.injEq] at heq
    rw [← heq.1.2.1]
    simp
  | cons x s1' =>
    simp only [List.cons_append, List.cons.injEq] at heq
    exact absurd (by rw [heq.2]; simp) (hs m' tabu r')

/-- Loop invariant behind the run-level part of C8. -/
theorem validation_hc_loop_tabu (W : World) (callback : Bool) (max_iters : Int)
    (epsilon machine_tol : ℚ) (patience : Int) (st0 : VState W)
    (h1 : st0.tabu_set = tabu_replay st0.trace) (h2 : tabu_passed st0.trace)
    (fuel : Nat) (hfuel : (max_iters - st0.iter).toNat ≤ fuel) :
    tabu_passed
      (validation_hc_loop W callback max_iters epsilon machine_tol patience fuel st0).2.trace := by
  refine validation_hc_loop_rule W callback max_iters epsilon machine_tol patience
    (fun st => st.tabu_set = tabu_replay st.trace ∧ tabu_passed st.trace)
    (fun _ st => tabu_passed st.trace) ?_ ?_ ?_ ?_ fuel st0 hfuel ⟨h1, h2⟩
  · intro st hinv _
    exact hinv.2
  · rintro st st' ⟨i1, i2⟩ hlt hb
    rcases validation_hc_body_cases W callback epsilon machine_tol patience st with
      ⟨-, hb'⟩ | ⟨_, _, -, -, -, hb'⟩ | ⟨op, vd, cache, -, -, -, -, hb'⟩ |
      ⟨_, _, _, -, -, -, -, -, hb'⟩ | ⟨op, vd, cache, -, -, -, -, -, hb'⟩ <;>
      rw [hb'] at hb <;> cases hb
    · refine ⟨?_, ?_⟩
      · simp only [tabu_replay_append]
        cases callback <;> simp
      · simp only [i1]
        exact tabu_passed_append_find_max _ _ _ _ i2 (by cases callback <;> simp)
    · refine ⟨?_, ?_⟩
      · simp only [tabu_replay_append, i1]
        cases callback <;> simp
      · simp only [i1]
        exact tabu_passed_append_find_max _ _ _ _ i2 (by cases callback <;> simp)
  · rintro st st' ⟨i1, i2⟩ hlt hb
    rcases validation_hc_body_cases W callback epsilon machine_tol patience st with
      ⟨-, hb'⟩ | ⟨_, _, -, -, -, hb'⟩ | ⟨op, vd, cache, -, -, -, -, hb'⟩ |
      ⟨_, _, _, -, -, -, -, -, hb'⟩ | ⟨op, vd, cache, -, -, -, -, -, hb'⟩ <;>
      rw [hb'] at hb <;> cases hb
    · simp only [i1]
      exact tabu_passed_append_find_max _ _ _ _ i2 (by simp)
    · simp only [i1]
      exact tabu_passed_append_find_max _ _ _ _ i2 (by simp)
  · rintro st st' e ⟨i1, i2⟩ hlt hb
    rcases validation_hc_body_cases W callback epsilon machine_tol patience st with
      ⟨-, hb'⟩ | ⟨_, _, -, -, -, hb'⟩ | ⟨op, vd, cache, -, -, -, -, hb'⟩ |
      ⟨_, _, _, -, -, -, -, -, hb'⟩ | ⟨op, vd, cache, -, -, -, -, -, hb'⟩ <;>
      rw [hb'] at hb <;> cases hb
    simp only [i1]
    exact tabu_passed_append_find_max _ _ _ _ i2 (by simp)

/-- Every `find_max` call of a run of `estimate_validation_hc` receives the tabu
set that results from the `clear` and `insert` calls made before it. -/
theorem estimate_validation_hc_tabu_passed (W : World) (machine_tol : ℚ)
    (op_set : W.OperatorSet) (start : W.Model) (arc_blacklist arc_whitelist : Finset W.Arc)
    (type_whitelist : W.FactorStringTypeVector) (callback : Bool)
    (max_indegree max_iters : Int) (epsilon : ℚ) (patience : Int) :
    tabu_passed (estimate_validation_hc W machine_tol op_set start arc_blacklist arc_whitelist
      type_whitelist callback max_indegree max_iters epsilon patience).trace := by
  by_cases h : W.check_blacklist start arc_blacklist = true
  · have key := validation_hc_loop_tabu W callback max_iters epsilon machine_tol patience
      (validation_hc_init W op_set start arc_blacklist arc_whitelist type_whitelist callback
        max_indegree)
      (by cases callback <;> simp [validation_hc_init, call_callback, tabu_replay])
      (by
        intro t1 m tabu r t2 heq
        have : Event.find_max m tabu r ∈ (validation_hc_init W op_set start arc_blacklist
            arc_whitelist type_whitelist callback max_indegree).trace := by
          rw [heq]; simp
        revert this
        cases callback <;> simp [validation_hc_init, call_callback])
      max_iters.toNat (by simp [validation_hc_init])
    simp only [estimate_validation_hc, h, if_true]
    revert key
    cases validation_hc_loop W callback max_iters epsilon machine_tol patience max_iters.toNat
      (validation_hc_init W op_set start arc_blacklist arc_whitelist type_whitelist callback
        max_indegree) with
    | mk err st =>
      intro key
      cases err with
      | none =>
        simp only [call_callback_eq]
        exact tabu_passed_append_of_not_mem _ _ key (by cases callback <;> simp)
      | some e => exact key
  · simp only [estimate_validation_hc, h]
    intro t1 m tabu r t2 heq
    simp at heq

/-- C8. A tolerated step of `estimate_validation_hc` that does not exhaust
patience adds exactly that step's `validation_delta` to `validation_offset`,
inserts exactly `opposite()` of the operator just applied into the tabu set, and
leaves `best_model` unchanged.  In every run, an operator inserted into the tabu
set belongs to the tabu set passed to every later `find_max` call, as long as
the set has not been cleared in between (which only an accepted step does). -/
theorem validation_hc_tolerated_step (W : World) (callback : Bool) (epsilon machine_tol : ℚ)
    (patience : Int) :
    (∀ (st : VState W) (op : W.Operator) (vd : ℚ) (cache : W.LocalScoreCache),
      (W.find_max_tabu st.op_set st.current_model st.tabu_set).1 = some op →
      ¬ (W.delta op - epsilon < machine_tol) →
      validation_delta_score W (W.apply op st.current_model) op st.local_validation =
        Except.ok (vd, cache) →
      ¬ (vd + st.validation_offset > 0) → ¬ (st.p + 1 ≥ patience) →
      ∃ st', validation_hc_body W callback epsilon machine_tol patience st =
          VLoopStep.next st' ∧
        st'.validation_offset = st.validation_offset + vd ∧
        st'.tabu_set = insert (W.opposite op) st.tabu_set ∧
        st'.best_model = st.best_model ∧
        tabu_replay st'.trace = insert (W.opposite op) (tabu_replay st.trace)) ∧
    (∀ (op_set : W.OperatorSet) (start : W.Model) (arc_blacklist arc_whitelist : Finset W.Arc)
      (type_whitelist : W.FactorStringTypeVector) (max_indegree max_iters : Int)
      (t1 t2 t3 : List (Event W)) (o : W.Operator) (m : W.Model)
      (tabu : Option (Finset W.Operator)) (r : Option W.Operator),
      (estimate_validation_hc W machine_tol op_set start arc_blacklist arc_whitelist
        type_whitelist callback max_indegree max_iters epsilon patience).trace =
        t1 ++ Event.tabu_insert o :: (t2 ++ Event.find_max m tabu r :: t3) →
      Event.tabu_clear ∉ t2 →
      ∃ s, tabu = some s ∧ o ∈ s) := by
  refine ⟨?_, ?_⟩
  · intro st op vd cache hfind hdelta hvd hacc hp
    rcases validation_hc_body_cases W callback epsilon machine_tol patience st with
      ⟨hc, -⟩ | ⟨o, e, h1, -, h3, -⟩ | ⟨o, v, c, h1, -, h3, h4, -⟩ |
      ⟨o, v, c, h1, -, h3, -, h5, -⟩ | ⟨o, v, c, h1, -, h3, -, -, hb⟩
    · rcases hc with hc | ⟨o, ho, hlt⟩
      · rw [hfind] at hc; cases hc
      · rw [hfind] at ho; cases ho; exact absurd hlt hdelta
    · rw [hfind] at h1; cases h1; rw [hvd] at h3; cases h3
    · rw [hfind] at h1; cases h1; rw [hvd] at h3; cases h3; exact absurd h4 hacc
    · rw [hfind] at h1; cases h1; rw [hvd] at h3; cases h3; exact absurd h5 hp
    · rw [hfind] at h1; cases h1; rw [hvd] at h3; cases h3
      refine ⟨_, hb, rfl, rfl, rfl, ?_⟩
      simp only [tabu_replay_append]
      cases callback <;> simp
  · intro op_set start arc_blacklist arc_whitelist type_whitelist max_indegree max_iters
      t1 t2 t3 o m tabu r htrace hclear
    have key := estimate_validation_hc_tabu_passed W machine_tol op_set start arc_blacklist
      arc_whitelist type_whitelist callback max_indegree max_iters epsilon patience
    have := key (t1 ++ Event.tabu_insert o :: t2) m tabu r t3 (by rw [htrace]; simp)
    exact ⟨_, this, mem_tabu_replay_of_insert t1 o t2 hclear⟩

/-! ## The returned model -/

theorem snoc_eq_append_cons {α : Type} {a pre post : List α} {x r : α}
    (h : a ++ [x] = pre ++ r :: post) :
    (post = [] ∧ pre = a ∧ r = x) ∨ (∃ post', post = post' ++ [x] ∧ a = pre ++ r :: post') := by
  rcases List.eq_nil_or_concat post with rfl | ⟨L, b, rfl⟩
  · left
    have h' : a ++ [x] = pre ++ [r] := h
    have := List.append_inj' h' rfl
    exact ⟨rfl, this.1.symm, by simpa using this.2.symm⟩
  · right
    have h' : a ++ [x] = (pre ++ r :: L) ++ [b] := by simpa using h
    have := List.append_inj' h' rfl
    have hb : x = b := by simpa using this.2
    exact ⟨L, by rw [hb, List.concat_eq_append], this.1⟩

theorem best_spec_nil {W : World} (start : W.Model) : best_spec start ([] : List (VStep W)) start := by
  refine ⟨?_, fun _ => rfl⟩
  intro pre r post h
  simp at h

theorem best_spec_accept {W : World} (start : W.Model) (h : List (VStep W)) (r : VStep W)
    (hr : r.accepted = true) : best_spec start (h ++ [r]) r.model_after := by
  refine ⟨?_, ?_⟩
  · intro pre r' post heq hacc hpost
    rcases snoc_eq_append_cons heq with ⟨-, -, rfl⟩ | ⟨post', rfl, -⟩
    · rfl
    · have := hpost r (by simp)
      rw [hr] at this
      cases this
  · intro hall
    have := hall r (by simp)
    rw [hr] at this
    cases this

theorem best_spec_tolerate {W : World} (start : W.Model) (h : List (VStep W)) (r : VStep W)
    (best : W.Model) (hr : r.accepted = false) (hb : best_spec start h best) :
    best_spec start (h ++ [r]) best := by
  refine ⟨?_, ?_⟩
  · intro pre r' post heq hacc hpost
    rcases snoc_eq_append_cons heq with ⟨-, -, rfl⟩ | ⟨post', rfl, hh⟩
    · rw [hr] at hacc
      cases hacc
    · exact hb.1 pre r' post' hh hacc (fun x hx => hpost x (by simp [hx]))
  · intro hall
    exact hb.2 (fun x hx => hall x (by simp [hx]))

/-- Loop invariant behind C1: `best_model` follows the log of acceptance tests,
and the log follows the calls to `apply`. -/
theorem validation_hc_loop_best (W : World) (callback : Bool) (max_iters : Int)
    (epsilon machine_tol : ℚ) (patience : Int) (start m0 : W.Model) (st0 : VState W)
    (h1 : best_spec start st0.history st0.best_model)
    (h2 : st0.history.map VStep.model_after = (working_models m0 st0.trace).tail)
    (h3 : ∀ r ∈ st0.history, r.model_after = W.apply r.op r.model_before)
    (fuel : Nat) (hfuel : (max_iters - st0.iter).toNat ≤ fuel) :
    let res := validation_hc_loop W callback max_iters epsilon machine_tol patience fuel st0
    res.1 = none →
      best_spec start res.2.history res.2.best_model ∧
      res.2.history.map VStep.model_after = (working_models m0 res.2.trace).tail ∧
      ∀ r ∈ res.2.history, r.model_after = W.apply r.op r.model_before := by
  refine validation_hc_loop_rule W callback max_iters epsilon machine_tol patience
    (fun st => best_spec start st.history st.best_model ∧
      st.history.map VStep.model_after = (working_models m0 st.trace).tail ∧
      ∀ r ∈ st.history, r.model_after = W.apply r.op r.model_before)
    (fun err st => err = none → best_spec start st.history st.best_model ∧
      st.history.map VStep.model_after = (working_models m0 st.trace).tail ∧
      ∀ r ∈ st.history, r.model_after = W.apply r.op r.model_before)
    ?_ ?_ ?_ ?_ fuel st0 hfuel ⟨h1, h2, h3⟩
  · intro st hinv _ _
    exact hinv
  · rintro st st' ⟨i1, i2, i3⟩ hlt hb
    rcases validation_hc_body_cases W callback epsilon machine_tol patience st with
      ⟨-, hb'⟩ | ⟨_, _, -, -, -, hb'⟩ | ⟨op, vd, cache, -, -, -, hacc, hb'⟩ |
      ⟨_, _, _, -, -, -, -, -, hb'⟩ | ⟨op, vd, cache, -, -, -, hacc, -, hb'⟩ <;>
      rw [hb'] at hb <;> cases hb
    · refine ⟨?_, ?_, ?_⟩
      · exact best_spec_accept start st.history
          { op := op, model_before := st.current_model,
            model_after := W.apply op st.current_model,
            validation_delta := vd, offset_before := st.validation_offset }
          (by simpa [VStep.accepted] using hacc)
      · simp only [List.map_append, i2]
        cases callback <;> simp [working_models, List.filterMap_append]
      · intro r hr
        simp only [List.mem_append, List.mem_singleton] at hr
        rcases hr with hr | rfl
        · exact i3 r hr
        · rfl
    · refine ⟨?_, ?_, ?_⟩
      · exact best_spec_tolerate start st.history
          { op := op, model_before := st.current_model,
            model_after := W.apply op st.current_model,
            validation_delta := vd, offset_before := st.validation_offset } _
          (by simpa [VStep.accepted] using hacc) i1
      · simp only [List.map_append, i2]
        cases callback <;> simp [working_models, List.filterMap_append]
      · intro r hr
        simp only [List.mem_append, List.mem_singleton] at hr
        rcases hr with hr | rfl
        · exact i3 r hr
        · rfl
  · rintro st st' ⟨i1, i2, i3⟩ hlt hb _
    rcases validation_hc_body_cases W callback epsilon machine_tol patience st with
      ⟨-, hb'⟩ | ⟨_, _, -, -, -, hb'⟩ | ⟨op, vd, cache, -, -, -, hacc, hb'⟩ |
      ⟨op, vd, cache, -, -, -, hacc, -, hb'⟩ | ⟨op, vd, cache, -, -, -, hacc, -, hb'⟩ <;>
      rw [hb'] at hb <;> cases hb
    · refine ⟨i1, ?_, i3⟩
      simp only [i2]
      simp [working_models, List.filterMap_append]
    · refine ⟨?_, ?_, ?_⟩
      · exact best_spec_tolerate start st.history
          { op := op, model_before := st.current_model,
            model_after := W.apply op st.current_model,
            validation_delta := vd, offset_before := st.validation_offset } _
          (by simpa [VStep.accepted] using hacc) i1
      · simp only [List.map_append, i2]
        simp [working_models, List.filterMap_append]
      · intro r hr
        simp only [List.mem_append, List.mem_singleton] at hr
        rcases hr with hr | rfl
        · exact i3 r hr
        · rfl
  · rintro st st' e _ _ _ he
    cases he

/-- What a normal return of `estimate_validation_hc` gives: the model returned is
`best_spec` of the log, and the log follows the calls to `apply`. -/
theorem estimate_validation_hc_best (W : World) (machine_tol : ℚ)
    (op_set : W.OperatorSet) (start : W.Model) (arc_blacklist arc_whitelist : Finset W.Arc)
    (type_whitelist : W.FactorStringTypeVector) (callback : Bool)
    (max_indegree max_iters : Int) (epsilon : ℚ) (patience : Int) (m : W.Model)
    (hret : (estimate_validation_hc W machine_tol op_set start arc_blacklist arc_whitelist
      type_whitelist callback max_indegree max_iters epsilon patience).returned = Except.ok m) :
    let out := estimate_validation_hc W machine_tol op_set start arc_blacklist arc_whitelist
      type_whitelist callback max_indegree max_iters epsilon patience
    best_spec start out.history m ∧
    out.history.map VStep.model_after =
      (working_models (validation_hc_start W start arc_whitelist type_whitelist)
        out.trace).tail ∧
    (∀ r ∈ out.history, r.model_after = W.apply r.op r.model_before) := by
  intro out
  by_cases h : W.check_blacklist start arc_blacklist = true
  · have key := validation_hc_loop_best W callback max_iters epsilon machine_tol patience start
      (validation_hc_start W start arc_whitelist type_whitelist)
      (validation_hc_init W op_set start arc_blacklist arc_whitelist type_whitelist callback
        max_indegree)
      (best_spec_nil start)
      (by cases callback <;>
            simp [validation_hc_init, call_callback, working_models, List.filterMap_append])
      (by simp [validation_hc_init])
      max_iters.toNat (by simp [validation_hc_init])
    simp only [out, estimate_validation_hc, h, if_true] at hret ⊢
    revert key hret
    cases validation_hc_loop W callback max_iters epsilon machine_tol patience max_iters.toNat
      (validation_hc_init W op_set start arc_blacklist arc_whitelist type_whitelist callback
        max_indegree) with
    | mk err st =>
      cases err with
      | none =>
        intro key hret
        simp only [Except.ok.injEq] at hret
        obtain ⟨k1, k3, k4⟩ := key rfl
        subst hret
        refine ⟨k1, ?_, k4⟩
        simp only [working_models_call_callback]
        exact k3
      | some e =>
        intro _ hret
        cases hret
  · simp [out, estimate_validation_hc, h] at hret

/-- C1. For every run of `estimate_validation_hc` that returns normally, the
returned model is the working model exactly as it stood immediately after the
most recent step whose `validation_delta + validation_offset` was `> 0`: if the
log of the steps splits as `pre ++ r :: post` with `r` accepted and every step of
`post` tolerated, the returned model is the model right after `r` was applied,
so the operators of `post` do not appear in it.  (When no step was accepted, the
returned model is the clone of `start` made at line 167.)  The logged models are
the successive working models produced by the calls to `apply`. -/
theorem estimate_validation_hc_returns_last_accepted (W : World) (machine_tol : ℚ)
    (op_set : W.OperatorSet) (start : W.Model) (arc_blacklist arc_whitelist : Finset W.Arc)
    (type_whitelist : W.FactorStringTypeVector) (callback : Bool)
    (max_indegree max_iters : Int) (epsilon : ℚ) (patience : Int) (m : W.Model)
    (hret : (estimate_validation_hc W machine_tol op_set start arc_blacklist arc_whitelist
      type_whitelist callback max_indegree max_iters epsilon patience).returned = Except.ok m) :
    let out := estimate_validation_hc W machine_tol op_set start arc_blacklist arc_whitelist
      type_whitelist callback max_indegree max_iters epsilon patience
    (∀ pre r post, out.history = pre ++ r :: post →
      r.validation_delta + r.offset_before > 0 →
      (∀ x ∈ post, ¬ (x.validation_delta + x.offset_before > 0)) →
      m = r.model_after) ∧
    ((∀ x ∈ out.history, ¬ (x.validation_delta + x.offset_before > 0)) → m = start) ∧
    out.history.map VStep.model_after =
      (working_models (validation_hc_start W start arc_whitelist type_whitelist)
        out.trace).tail ∧
    (∀ r ∈ out.history, r.model_after = W.apply r.op r.model_before) := by
  intro out
  obtain ⟨⟨k1, k2⟩, k3, k4⟩ := estimate_validation_hc_best W machine_tol op_set start
    arc_blacklist arc_whitelist type_whitelist callback max_indegree max_iters epsilon patience
    m hret
  refine ⟨?_, ?_, k3, k4⟩
  · intro pre r post hh hacc hpost
    exact k1 pre r post hh (by simpa [VStep.accepted] using hacc)
      (fun x hx => by simpa [VStep.accepted] using hpost x hx)
  · intro hall
    exact k2 (fun x hx => by simpa [VStep.accepted] using hall x hx)

/-! ## Patience -/

theorem trailing_tolerated_snoc {W : World} (h : List (VStep W)) (r : VStep W) :
    trailing_tolerated (h ++ [r]) = if r.accepted then 0 else trailing_tolerated h + 1 := by
  simp [trailing_tolerated, List.foldl_append]

theorem trailing_tolerated_append {W : World} (a : List (VStep W)) :
    ∀ b : List (VStep W), (∀ x ∈ b, x.accepted = false) →
      trailing_tolerated (a ++ b) = trailing_tolerated a + b.length := by
  intro b
  induction b using List.reverseRecOn with
  | nil => intro _; simp
  | append_singleton b x ih =>
    intro hb
    have hx : x.accepted = false := hb x (by simp)
    rw [← List.append_assoc, trailing_tolerated_snoc, hx,
      ih (fun y hy => hb y (by simp [hy]))]
    simp
    omega

theorem patient_snoc {W : World} (patience : Int) (h : List (VStep W)) (r : VStep W)
    (hp : patient patience h) (ht : (trailing_tolerated h : Int) < patience) :
    patient patience (h ++ [r]) := by
  intro pre suf heq hne
  rcases List.eq_nil_or_concat suf with rfl | ⟨L, b, rfl⟩
  · exact absurd rfl hne
  · rw [List.concat_eq_append, ← List.append_assoc] at heq
    have := List.append_inj' heq rfl
    by_cases hL : L = []
    · subst hL
      simp only [List.append_nil] at this
      rw [← this.1]
      exact ht
    · exact hp pre L this.1 hL

/-- Loop invariant behind C6. -/
theorem validation_hc_loop_patience (W : World) (callback : Bool) (max_iters : Int)
    (epsilon machine_tol : ℚ) (patience : Int) (hP : 1 ≤ patience) (st0 : VState W)
    (h1 : st0.p = (trailing_tolerated st0.history : Int)) (h2 : st0.p < patience)
    (h3 : patient patience st0.history)
    (h4 : (find_max_results st0.trace).length = st0.history.length)
    (h5 : applied_ops st0.trace = st0.history.map VStep.op)
    (fuel : Nat) (hfuel : (max_iters - st0.iter).toNat ≤ fuel) :
    let res := validation_hc_loop W callback max_iters epsilon machine_tol patience fuel st0
    patient patience res.2.history ∧
    (patience ≤ (trailing_tolerated res.2.history : Int) →
      res.1 = none ∧ (find_max_results res.2.trace).length = res.2.history.length ∧
      applied_ops res.2.trace = res.2.history.map VStep.op) := by
  refine validation_hc_loop_rule W callback max_iters epsilon machine_tol patience
    (fun st => st.p = (trailing_tolerated st.history : Int) ∧ st.p < patience ∧
      patient patience st.history ∧
      (find_max_results st.trace).length = st.history.length ∧
      applied_ops st.trace = st.history.map VStep.op)
    (fun err st => patient patience st.history ∧
      (patience ≤ (trailing_tolerated st.history : Int) →
        err = none ∧ (find_max_results st.trace).length = st.history.length ∧
        applied_ops st.trace = st.history.map VStep.op))
    ?_ ?_ ?_ ?_ fuel st0 hfuel ⟨h1, h2, h3, h4, h5⟩
  · rintro st ⟨i1, i2, i3, i4, i5⟩ _
    exact ⟨i3, fun hge => by omega⟩
  · rintro st st' ⟨i1, i2, i3, i4, i5⟩ hlt hb
    rcases validation_hc_body_cases W callback epsilon machine_tol patience st with
      ⟨-, hb'⟩ | ⟨_, _, -, -, -, hb'⟩ | ⟨op, vd, cache, -, -, -, hacc, hb'⟩ |
      ⟨_, _, _, -, -, -, -, -, hb'⟩ | ⟨op, vd, cache, -, -, -, hacc, hp, hb'⟩ <;>
      rw [hb'] at hb <;> cases hb
    · refine ⟨?_, by simp only; omega, patient_snoc patience _ _ i3 (by omega), ?_, ?_⟩
      · simp [trailing_tolerated_snoc, VStep.accepted, hacc]
      · cases callback <;> simp [find_max_results, List.filterMap_append] at i4 ⊢ <;> omega
      · cases callback <;> simp [applied_ops, List.filterMap_append] at i5 ⊢ <;> exact i5
    · refine ⟨?_, by simp only; omega, patient_snoc patience _ _ i3 (by omega), ?_, ?_⟩
      · simp [trailing_tolerated_snoc, VStep.accepted, hacc, i1]
      · cases callback <;> simp [find_max_results, List.filterMap_append] at i4 ⊢ <;> omega
      · cases callback <;> simp [applied_ops, List.filterMap_append] at i5 ⊢ <;> exact i5
  · rintro st st' ⟨i1, i2, i3, i4, i5⟩ hlt hb
    rcases validation_hc_body_cases W callback epsilon machine_tol patience st with
      ⟨-, hb'⟩ | ⟨_, _, -, -, -, hb'⟩ | ⟨op, vd, cache, -, -, -, hacc, hb'⟩ |
      ⟨op, vd, cache, -, -, -, hacc, hp, hb'⟩ | ⟨op, vd, cache, -, -, -, hacc, -, hb'⟩ <;>
      rw [hb'] at hb <;> cases hb
    · exact ⟨i3, fun hge => by simp only at hge; omega⟩
    · refine ⟨patient_snoc patience _ _ i3 (by omega), fun _ => ⟨rfl, ?_, ?_⟩⟩
      · simp [find_max_results, List.filterMap_append] at i4 ⊢; omega
      · simp [applied_ops, List.filterMap_append] at i5 ⊢; exact i5
  · rintro st st' e ⟨i1, i2, i3, i4, i5⟩ hlt hb
    rcases validation_hc_body_cases W callback epsilon machine_tol patience st with
      ⟨-, hb'⟩ | ⟨_, _, -, -, -, hb'⟩ | ⟨op, vd, cache, -, -, -, hacc, hb'⟩ |
      ⟨op, vd, cache, -, -, -, hacc, hp, hb'⟩ | ⟨op, vd, cache, -, -, -, hacc, -, hb'⟩ <;>
      rw [hb'] at hb <;> cases hb
    exact ⟨i3, fun hge => by simp only at hge; omega⟩

/-- C6. In `estimate_validation_hc` with `patience = P >= 1`, if after an accepted
step `r` the next `P` applied operators are all tolerated, the run terminates
immediately after the `P`-th of them: the log of steps ends there (no further
operator is applied), every `find_max` call of the run is one that selected a
logged step (no further `find_max` call is made), and the model produced by the
accepted step `r` is returned. -/
theorem estimate_validation_hc_patience_exhausted (W : World) (machine_tol : ℚ)
    (op_set : W.OperatorSet) (start : W.Model) (arc_blacklist arc_whitelist : Finset W.Arc)
    (type_whitelist : W.FactorStringTypeVector) (callback : Bool)
    (max_indegree max_iters : Int) (epsilon : ℚ) (patience : Int)
    (pre tol rest : List (VStep W)) (r : VStep W)
    (hP : 1 ≤ patience)
    (hhist : (estimate_validation_hc W machine_tol op_set start arc_blacklist arc_whitelist
      type_whitelist callback max_indegree max_iters epsilon patience).history =
        pre ++ r :: (tol ++ rest))
    (hacc : r.validation_delta + r.offset_before > 0)
    (htol : ∀ x ∈ tol, ¬ (x.validation_delta + x.offset_before > 0))
    (hlen : (tol.length : Int) = patience) :
    let out := estimate_validation_hc W machine_tol op_set start arc_blacklist arc_whitelist
      type_whitelist callback max_indegree max_iters epsilon patience
    rest = [] ∧
    out.returned = Except.ok r.model_after ∧
    (find_max_results out.trace).length = out.history.length ∧
    applied_ops out.trace = out.history.map VStep.op := by
  intro out
  have hacc' : r.accepted = true := by simpa [VStep.accepted] using hacc
  have htol' : ∀ x ∈ tol, x.accepted = false := fun x hx => by
    simpa [VStep.accepted] using htol x hx
  have htrail : trailing_tolerated (pre ++ r :: tol) = tol.length := by
    have : pre ++ r :: tol = (pre ++ [r]) ++ tol := by simp
    rw [this, trailing_tolerated_append _ _ htol', trailing_tolerated_snoc, hacc']
    simp
  by_cases h : W.check_blacklist start arc_blacklist = true
  · have key := validation_hc_loop_patience W callback max_iters epsilon machine_tol patience hP
      (validation_hc_init W op_set start arc_blacklist arc_whitelist type_whitelist callback
        max_indegree)
      (by simp [validation_hc_init, trailing_tolerated])
      (by simp only [validation_hc_init]; omega)
      (by
        intro pre' suf heq hne
        simp only [validation_hc_init] at heq
        have : pre' = [] := by
          cases pre' with
          | nil => rfl
          | cons a l => simp at heq
        subst this
        simp only [trailing_tolerated, List.foldl_nil]
        omega)
      (by cases callback <;> simp [validation_hc_init, call_callback, find_max_results])
      (by cases callback <;> simp [validation_hc_init, call_callback, applied_ops])
      max_iters.toNat (by simp [validation_hc_init])
    have hbest := estimate_validation_hc_best W machine_tol op_set start arc_blacklist
      arc_whitelist type_whitelist callback max_indegree max_iters epsilon patience
    have hf : ∀ (st : VState W),
        find_max_results (call_callback callback st.current_model none st.iter st.trace) =
          find_max_results st.trace := by
      intro st
      cases callback <;> simp [call_callback, find_max_results, List.filterMap_append]
    have ha : ∀ (st : VState W),
        applied_ops (call_callback callback st.current_model none st.iter st.trace) =
          applied_ops st.trace := by
      intro st
      cases callback <;> simp [call_callback, applied_ops, List.filterMap_append]
    simp only [out, estimate_validation_hc, h, if_true] at hhist hbest ⊢
    revert key hhist hbest
    cases validation_hc_loop W callback max_iters epsilon machine_tol patience max_iters.toNat
      (validation_hc_init W op_set start arc_blacklist arc_whitelist type_whitelist callback
        max_indegree) with
    | mk err st =>
      intro key hhist hbest
      obtain ⟨kp, kq⟩ := key
      simp only at kp kq
      have hsth : st.history = pre ++ r :: (tol ++ rest) := by
        cases err <;> exact hhist
      have hrest : rest = [] := by
        by_contra hne
        have := kp (pre ++ r :: tol) rest (by rw [hsth]; simp) hne
        rw [htrail] at this
        omega
      subst hrest
      have hge : patience ≤ (trailing_tolerated st.history : Int) := by
        rw [hsth, List.append_nil, htrail]
        omega
      obtain ⟨herr, k4, k5⟩ := kq hge
      subst herr
      simp only [hf, ha]
      refine ⟨trivial, ?_, k4, k5⟩
      have hb := (hbest st.best_model rfl).1.1 pre r tol (by simpa using hsth) hacc' htol'
      simp only at hb
      rw [hb]
  · simp [out, estimate_validation_hc, h] at hhist

/-! ## The validated scenario -/

/-- The calls made by the validated scenario. -/
theorem toy_validated_run_trace :
    toy_validated_run.trace =
      ([Event.set_arc_blacklist ∅, Event.set_arc_whitelist ∅, Event.set_type_whitelist (),
        Event.set_max_indegree 3, Event.cache_vlocal_scores ∅, Event.cache_scores ∅,
        Event.callback ∅ none 0,
        Event.find_max ∅ (some ∅) (some (toyAdd "A" "B" 2 (3 / 10))),
        Event.apply (toyAdd "A" "B" 2 (3 / 10)) ∅,
        Event.validation_delta_score {("A", "B")} (toyAdd "A" "B" 2 (3 / 10)) (3 / 10),
        Event.clone {("A", "B")}, Event.tabu_clear,
        Event.callback {("A", "B")} (some (toyAdd "A" "B" 2 (3 / 10))) 0,
        Event.update_scores {("A", "B")} (toyAdd "A" "B" 2 (3 / 10)),
        Event.find_max {("A", "B")} (some ∅) (some (toyAdd "B" "C" (3 / 2) (-1 / 10))),
        Event.apply (toyAdd "B" "C" (3 / 2) (-1 / 10)) {("A", "B")},
        Event.validation_delta_score {("B", "C"), ("A", "B")}
          (toyAdd "B" "C" (3 / 2) (-1 / 10)) (-1 / 10),
        Event.tabu_insert (ToyOperator.opposite (toyAdd "B" "C" (3 / 2) (-1 / 10))),
        Event.callback {("B", "C"), ("A", "B")} (some (toyAdd "B" "C" (3 / 2) (-1 / 10))) 1,
        Event.update_scores {("B", "C"), ("A", "B")} (toyAdd "B" "C" (3 / 2) (-1 / 10)),
        Event.find_max {("B", "C"), ("A", "B")}
          (some {ToyOperator.opposite (toyAdd "B" "C" (3 / 2) (-1 / 10))})
          (some (toyAdd "A" "C" 1 (-1 / 10))),
        Event.apply (toyAdd "A" "C" 1 (-1 / 10)) {("B", "C"), ("A", "B")},
        Event.validation_delta_score {("A", "C"), ("B", "C"), ("A", "B")}
          (toyAdd "A" "C" 1 (-1 / 10)) (-1 / 10),
        Event.callback {("A", "C"), ("B", "C"), ("A", "B")} none 2] :
        List (Event toyWorld)) := by
  norm_num [toy_validated_run, toy_validated_script, toy_tol, estimate_validation_hc,
    validation_hc_loop, validation_hc_body, validation_hc_init, validation_hc_start,
    validation_hc_tail, validation_delta_score, toy_find_max, toyAdd, call_callback,
    ToyOperator.run, ToyOperator.opposite]

/-- The acceptance tests made by the validated scenario. -/
theorem toy_validated_run_history :
    toy_validated_run.history = [toy_step1, toy_step2, toy_step3] := by
  norm_num [toy_validated_run, toy_validated_script, toy_tol, estimate_validation_hc,
    validation_hc_loop, validation_hc_body, validation_hc_init, validation_hc_start,
    validation_hc_tail, validation_delta_score, toy_find_max, toyAdd, call_callback,
    ToyOperator.run, ToyOperator.opposite, toy_step1, toy_step2, toy_step3]

/-- The model returned by the validated scenario. -/
theorem toy_validated_run_returned :
    toy_validated_run.returned = Except.ok ({("A", "B")} : Finset (String × String)) := by
  norm_num [toy_validated_run, toy_validated_script, toy_tol, estimate_validation_hc,
    validation_hc_loop, validation_hc_body, validation_hc_init, validation_hc_start,
    validation_hc_tail, validation_delta_score, toy_find_max, toyAdd, call_callback,
    ToyOperator.run, ToyOperator.opposite]

/-- Witness of C1: in the validated scenario the first step is accepted and the
next two are tolerated; the returned model is the one left by the first step. -/
theorem estimate_validation_hc_returns_last_accepted_witness :
    toy_validated_run.returned = Except.ok ({("A", "B")} : Finset (String × String)) ∧
    toy_validated_run.history = [] ++ toy_step1 :: [toy_step2, toy_step3] ∧
    toy_step1.validation_delta + toy_step1.offset_before > 0 ∧
    (∀ x ∈ [toy_step2, toy_step3], ¬ (x.validation_delta + x.offset_before > 0)) ∧
    ({("A", "B")} : Finset (String × String)) = toy_step1.model_after := by
  have h2 : ∀ x ∈ [toy_step2, toy_step3], ¬ (x.validation_delta + x.offset_before > 0) := by
    intro x hx
    simp only [List.mem_cons, List.mem_singleton, List.not_mem_nil, or_false] at hx
    rcases hx with rfl | rfl <;> norm_num [toy_step2, toy_step3]
  have h1 : toy_step1.validation_delta + toy_step1.offset_before > 0 := by
    norm_num [toy_step1]
  exact ⟨toy_validated_run_returned, toy_validated_run_history, h1, h2,
    (estimate_validation_hc_returns_last_accepted toyWorld toy_tol toy_validated_script
      (∅ : Finset (String × String)) ∅ ∅ () true 3 10 (1 / 100) 2 {("A", "B")}
      toy_validated_run_returned).1 [] toy_step1 [toy_step2, toy_step3]
      toy_validated_run_history h1 h2⟩

/-- Witness of C6: first move with validation delta +0.3, next two moves with
validation delta -0.1 each, `patience = 2`.  The run stops after the two
tolerated steps and returns the model produced by the first move, not the
further-mutated working model. -/
theorem estimate_validation_hc_patience_exhausted_witness :
    (1 : Int) ≤ 2 ∧
    toy_validated_run.history = [] ++ toy_step1 :: ([toy_step2, toy_step3] ++ []) ∧
    toy_validated_run.returned = Except.ok toy_step1.model_after ∧
    toy_step1.model_after = ({("A", "B")} : Finset (String × String)) ∧
    (find_max_results toy_validated_run.trace).length = 3 ∧
    applied_ops toy_validated_run.trace =
      [toyAdd "A" "B" 2 (3 / 10), toyAdd "B" "C" (3 / 2) (-1 / 10),
       toyAdd "A" "C" 1 (-1 / 10)] ∧
    (working_models (∅ : Finset (String × String)) toy_validated_run.trace).getLast? =
      some ({("A", "C"), ("B", "C"), ("A", "B")} : Finset (String × String)) := by
  have h2 : ∀ x ∈ [toy_step2, toy_step3], ¬ (x.validation_delta + x.offset_before > 0) := by
    intro x hx
    simp only [List.mem_cons, List.mem_singleton, List.not_mem_nil, or_false] at hx
    rcases hx with rfl | rfl <;> norm_num [toy_step2, toy_step3]
  have h1 : toy_step1.validation_delta + toy_step1.offset_before > 0 := by
    norm_num [toy_step1]
  have key := estimate_validation_hc_patience_exhausted toyWorld toy_tol toy_validated_script
    (∅ : Finset (String × String)) ∅ ∅ () true 3 10 (1 / 100) 2 [] [toy_step2, toy_step3] []
    toy_step1 (by decide) toy_validated_run_history h1 h2 (by decide)
  refine ⟨by decide, toy_validated_run_history, key.2.1, rfl, ?_, ?_, ?_⟩
  · decide!
  · decide!
  · decide!

/-- Witness of C8: from a state reached after an accepted step, the candidate
add `B -> C` with validation delta -0.1 is tolerated (`patience = 2`); in the
validated scenario its opposite is in the tabu set of the next `find_max`. -/
theorem validation_hc_tolerated_step_witness :
    (∃ st', validation_hc_body toyWorld true (1 / 100) toy_tol 2 toy_validated_state =
        VLoopStep.next st' ∧
      st'.validation_offset = toy_validated_state.validation_offset + (-1 / 10) ∧
      st'.tabu_set = insert (toyWorld.opposite (toyAdd "B" "C" (3 / 2) (-1 / 10)))
        toy_validated_state.tabu_set ∧
      st'.best_model = toy_validated_state.best_model ∧
      tabu_replay st'.trace = insert (toyWorld.opposite (toyAdd "B" "C" (3 / 2) (-1 / 10)))
        (tabu_replay toy_validated_state.trace)) ∧
    (∃ s : Finset ToyOperator,
      some ({ToyOperator.opposite (toyAdd "B" "C" (3 / 2) (-1 / 10))} : Finset ToyOperator) =
        some s ∧
      ToyOperator.opposite (toyAdd "B" "C" (3 / 2) (-1 / 10)) ∈ s) :=
  ⟨(validation_hc_tolerated_step toyWorld true (1 / 100) toy_tol 2).1 toy_validated_state
      (toyAdd "B" "C" (3 / 2) (-1 / 10)) (-1 / 10)
      (toyWorld.update_vlocal_score (fun _ => 0) {("B", "C"), ("A", "B")}
        (toyAdd "B" "C" (3 / 2) (-1 / 10)))
      (by decide!) (by decide!)
      (by norm_num [validation_delta_score, toy_validated_state, toyAdd, ToyOperator.run])
      (by norm_num [toy_validated_state]) (by decide),
   (validation_hc_tolerated_step toyWorld true (1 / 100) toy_tol 2).2 toy_validated_script
      (∅ : Finset (String × String)) ∅ ∅ () 3 10
      [Event.set_arc_blacklist ∅, Event.set_arc_whitelist ∅, Event.set_type_whitelist (),
        Event.set_max_indegree 3, Event.cache_vlocal_scores ∅, Event.cache_scores ∅,
        Event.callback ∅ none 0,
        Event.find_max ∅ (some ∅) (some (toyAdd "A" "B" 2 (3 / 10))),
        Event.apply (toyAdd "A" "B" 2 (3 / 10)) ∅,
        Event.validation_delta_score {("A", "B")} (toyAdd "A" "B" 2 (3 / 10)) (3 / 10),
        Event.clone {("A", "B")}, Event.tabu_clear,
        Event.callback {("A", "B")} (some (toyAdd "A" "B" 2 (3 / 10))) 0,
        Event.update_scores {("A", "B")} (toyAdd "A" "B" 2 (3 / 10)),
        Event.find_max {("A", "B")} (some ∅) (some (toyAdd "B" "C" (3 / 2) (-1 / 10))),
        Event.apply (toyAdd "B" "C" (3 / 2) (-1 / 10)) {("A", "B")},
        Event.validation_delta_score {("B", "C"), ("A", "B")}
          (toyAdd "B" "C" (3 / 2) (-1 / 10)) (-1 / 10)]
      [Event.callback {("B", "C"), ("A", "B")} (some (toyAdd "B" "C" (3 / 2) (-1 / 10))) 1,
        Event.update_scores {("B", "C"), ("A", "B")} (toyAdd "B" "C" (3 / 2) (-1 / 10))]
      [Event.apply (toyAdd "A" "C" 1 (-1 / 10)) {("B", "C"), ("A", "B")},
        Event.validation_delta_score {("A", "C"), ("B", "C"), ("A", "B")}
          (toyAdd "A" "C" 1 (-1 / 10)) (-1 / 10),
        Event.callback {("A", "C"), ("B", "C"), ("A", "B")} none 2]
      (ToyOperator.opposite (toyAdd "B" "C" (3 / 2) (-1 / 10)))
      {("B", "C"), ("A", "B")}
      (some {ToyOperator.opposite (toyAdd "B" "C" (3 / 2) (-1 / 10))})
      (some (toyAdd "A" "C" 1 (-1 / 10)))
      toy_validated_run_trace (by simp)⟩

/-! ## The start clone kept in `best_model` (line 167) -/

/-- C3, evaluation at a failing input.  Start model without arcs (it passes
`check_blacklist`), whitelist `A -> B`, an operator set without candidates:
`estimate_validation_hc` applies no operator, accepts no step and returns the
clone of `start` made at line 167, which does not contain the whitelisted arc,
whereas `estimate_hc` on the same inputs returns the model with `A -> B`. -/
theorem validated_no_step_drops_whitelist :
    toyWorld.check_blacklist (∅ : Finset (String × String)) ∅ = true ∧
    toy_whitelist_run.returned = Except.ok (∅ : Finset (String × String)) ∧
    applied_ops toy_whitelist_run.trace = [] ∧
    toy_whitelist_run.history = [] ∧
    (("A", "B") : String × String) ∈ ({("A", "B")} : Finset (String × String)) ∧
    toyWorld.has_arc (∅ : Finset (String × String)) ("A", "B") = false ∧
    toy_whitelist_plain_run.returned = Except.ok ({("A", "B")} : Finset (String × String)) ∧
    toyWorld.has_arc ({("A", "B")} : Finset (String × String)) ("A", "B") = true := by
  refine ⟨by decide, ?_, ?_, ?_, by decide, by decide, ?_, by decide⟩
  · norm_num [toy_whitelist_run, toy_tol, estimate_validation_hc, validation_hc_loop,
      validation_hc_body, validation_hc_init, validation_hc_start, toy_find_max, call_callback]
  · norm_num [toy_whitelist_run, toy_tol, estimate_validation_hc, validation_hc_loop,
      validation_hc_body, validation_hc_init, validation_hc_start, toy_find_max, call_callback,
      applied_ops]
  · norm_num [toy_whitelist_run, toy_tol, estimate_validation_hc, validation_hc_loop,
      validation_hc_body, validation_hc_init, validation_hc_start, toy_find_max, call_callback]
  · norm_num [toy_whitelist_plain_run, toy_tol, estimate_hc, hc_loop, hc_body, hc_init,
      toy_find_max, call_callback]

/-- C2, evaluation at a failing input.  Start model without arcs, whitelist
`A -> B`, one candidate (add `B -> C`) whose validation delta -0.1 is exactly
the change of the total validated score `toy_validated_score`, `patience = 1`:
the working model is first `A -> B` (score 1), then `A -> B, B -> C` (score 0.9),
no step is accepted, and the returned model is the clone of `start` made at
line 167, whose score 0 is below the score of both working models. -/
theorem validated_start_clone_scores_lower :
    toy_unaccepted_run.returned = Except.ok (∅ : Finset (String × String)) ∧
    toy_unaccepted_run.history =
      [{ op := toyAdd "B" "C" 2 (-1 / 10), model_before := {("A", "B")},
         model_after := {("B", "C"), ("A", "B")}, validation_delta := -1 / 10,
         offset_before := 0 }] ∧
    (∀ r ∈ toy_unaccepted_run.history,
      r.validation_delta = toy_validated_score r.model_after -
        toy_validated_score r.model_before) ∧
    validation_hc_start toyWorld (∅ : Finset (String × String)) {("A", "B")} () =
      ({("A", "B")} : Finset (String × String)) ∧
    toy_validated_score ∅ = 0 ∧
    toy_validated_score {("A", "B")} = 1 ∧
    toy_validated_score {("B", "C"), ("A", "B")} = 9 / 10 := by
  have hh : toy_unaccepted_run.history =
      [{ op := toyAdd "B" "C" 2 (-1 / 10), model_before := {("A", "B")},
         model_after := {("B", "C"), ("A", "B")}, validation_delta := -1 / 10,
         offset_before := 0 }] := by
    norm_num [toy_unaccepted_run, toy_tol, estimate_validation_hc, validation_hc_loop,
      validation_hc_body, validation_hc_init, validation_hc_start, validation_hc_tail,
      validation_delta_score, toy_find_max, toyAdd, call_callback, ToyOperator.run]
  refine ⟨?_, hh, ?_, by decide, by decide!, by decide!, by decide!⟩
  · norm_num [toy_unaccepted_run, toy_tol, estimate_validation_hc, validation_hc_loop,
      validation_hc_body, validation_hc_init, validation_hc_start, validation_hc_tail,
      validation_delta_score, toy_find_max, toyAdd, call_callback, ToyOperator.run]
  · intro r hr
    rw [hh] at hr
    simp only [List.mem_singleton] at hr
    subst hr
    decide!

/-! ## What holds around the start clone of line 167

The two evaluations above are the only way in which the claims on the whitelist
and on the validated score of the returned model fail: they hold for
`estimate_hc`, and for `estimate_validation_hc` as soon as one step is accepted
(or when the constraint adjustments leave the start model unchanged). -/

/-- A log with an accepted step splits at its last accepted step. -/
theorem exists_last_accepted {W : World} :
    ∀ h : List (VStep W), (∃ r ∈ h, r.accepted = true) →
      ∃ pre r post, h = pre ++ r :: post ∧ r.accepted = true ∧
        ∀ x ∈ post, x.accepted = false := by
  intro h
  induction h using List.reverseRecOn with
  | nil => rintro ⟨r, hr, -⟩; simp at hr
  | append_singleton h x ih =>
    rintro ⟨r, hr, hacc⟩
    by_cases hx : x.accepted = true
    · exact ⟨h, x, [], rfl, hx, by simp⟩
    · have hx' : x.accepted = false := by simpa using hx
      have hr' : r ∈ h := by
        rcases List.mem_append.1 hr with hr | hr
        · exact hr
        · simp only [List.mem_singleton] at hr
          rw [hr, hx'] at hacc
          cases hacc
      obtain ⟨pre, r', post, heq, hacc', hpost⟩ := ih ⟨r, hr', hacc⟩
      refine ⟨pre, r', post ++ [x], by rw [heq]; simp, hacc', ?_⟩
      intro y hy
      rcases List.mem_append.1 hy with hy | hy
      · exact hpost y hy
      · simp only [List.mem_singleton] at hy
        rw [hy]; exact hx'

/-- The model returned by `estimate_hc` contains every whitelisted arc, provided
`force_whitelist` puts them in and no applied operator removes one. -/
theorem estimate_hc_keeps_whitelist (W : World) (machine_tol : ℚ) (op_set : W.OperatorSet)
    (start : W.Model) (arc_blacklist arc_whitelist : Finset W.Arc) (callback : Bool)
    (max_indegree max_iters : Int) (epsilon : ℚ) (m : W.Model)
    (hforce : ∀ a ∈ arc_whitelist, W.has_arc (W.force_whitelist start arc_whitelist) a = true)
    (hops : ∀ op m', Event.apply op m' ∈ (estimate_hc W machine_tol op_set start arc_blacklist
        arc_whitelist callback max_indegree max_iters epsilon).trace →
      ∀ a ∈ arc_whitelist, W.has_arc m' a = true → W.has_arc (W.apply op m') a = true)
    (hret : (estimate_hc W machine_tol op_set start arc_blacklist arc_whitelist callback
      max_indegree max_iters epsilon).returned = Except.ok m) :
    ∀ a ∈ arc_whitelist, W.has_arc m a = true := by
  by_cases h : W.check_blacklist start arc_blacklist = true
  · have key := hc_loop_rule W callback max_iters epsilon machine_tol
      (fun st => (∀ op m', Event.apply op m' ∈ st.trace →
          ∀ a ∈ arc_whitelist, W.has_arc m' a = true → W.has_arc (W.apply op m') a = true) →
        ∀ a ∈ arc_whitelist, W.has_arc st.current_model a = true)
      (fun st => (∀ op m', Event.apply op m' ∈ st.trace →
          ∀ a ∈ arc_whitelist, W.has_arc m' a = true → W.has_arc (W.apply op m') a = true) →
        ∀ a ∈ arc_whitelist, W.has_arc st.current_model a = true)
      (fun st hinv _ => hinv)
      (by
        intro st st' hinv _ hb hyp
        obtain ⟨op, -, -, hm, -, -, htr⟩ := hc_body_next hb
        have hin : Event.apply op st.current_model ∈ st'.trace := by rw [htr]; simp
        have hsub : ∀ o m', Event.apply o m' ∈ st.trace → Event.apply o m' ∈ st'.trace := by
          intro o m' ho; rw [htr]; simp [ho]
        intro a ha
        rw [hm]
        exact hyp op st.current_model hin a ha
          (hinv (fun o m' ho => hyp o m' (hsub o m' ho)) a ha))
      (by
        intro st st' hinv _ hb hyp
        obtain ⟨hm, -, -, htr, -⟩ := hc_body_stop hb
        have hsub : ∀ o m', Event.apply o m' ∈ st.trace → Event.apply o m' ∈ st'.trace := by
          intro o m' ho; rw [htr]; simp [ho]
        intro a ha
        rw [hm]
        exact hinv (fun o m' ho => hyp o m' (hsub o m' ho)) a ha)
      max_iters.toNat
      (hc_init W op_set start arc_blacklist arc_whitelist callback max_indegree)
      (by simp [hc_init])
      (by intro _; simpa [hc_init] using hforce)
    simp only [estimate_hc, h, if_true, mem_apply_call_callback, Except.ok.injEq] at hops hret
    rw [← hret]
    exact key hops
  · simp [estimate_hc, h] at hret

/-- Loop invariant: every logged working model contains the whitelist. -/
theorem validation_hc_loop_whitelist (W : World) (callback : Bool) (max_iters : Int)
    (epsilon machine_tol : ℚ) (patience : Int) (arc_whitelist : Finset W.Arc) (st0 : VState W)
    (h1 : ∀ a ∈ arc_whitelist, W.has_arc st0.current_model a = true)
    (h2 : ∀ r ∈ st0.history, ∀ a ∈ arc_whitelist, W.has_arc r.model_after a = true)
    (fuel : Nat) (hfuel : (max_iters - st0.iter).toNat ≤ fuel) :
    let res := validation_hc_loop W callback max_iters epsilon machine_tol patience fuel st0
    (∀ r ∈ res.2.history, ∀ a ∈ arc_whitelist,
      W.has_arc r.model_before a = true → W.has_arc r.model_after a = true) →
    ∀ r ∈ res.2.history, ∀ a ∈ arc_whitelist, W.has_arc r.model_after a = true := by
  refine validation_hc_loop_rule W callback max_iters epsilon machine_tol patience
    (fun st => (∀ r ∈ st.history, ∀ a ∈ arc_whitelist,
        W.has_arc r.model_before a = true → W.has_arc r.model_after a = true) →
      (∀ a ∈ arc_whitelist, W.has_arc st.current_model a = true) ∧
      ∀ r ∈ st.history, ∀ a ∈ arc_whitelist, W.has_arc r.model_after a = true)
    (fun _ st => (∀ r ∈ st.history, ∀ a ∈ arc_whitelist,
        W.has_arc r.model_before a = true → W.has_arc r.model_after a = true) →
      ∀ r ∈ st.history, ∀ a ∈ arc_whitelist, W.has_arc r.model_after a = true)
    ?_ ?_ ?_ ?_ fuel st0 hfuel (fun _ => ⟨h1, h2⟩)
  · intro st hinv _ hyp
    exact (hinv hyp).2
  · intro st st' hinv hlt hb hyp
    rcases validation_hc_body_cases W callback epsilon machine_tol patience st with
      ⟨-, hb'⟩ | ⟨_, _, -, -, -, hb'⟩ | ⟨op, vd, cache, -, -, -, -, hb'⟩ |
      ⟨_, _, _, -, -, -, -, -, hb'⟩ | ⟨op, vd, cache, -, -, -, -, -, hb'⟩ <;>
      rw [hb'] at hb <;> cases hb <;>
    · simp only at hyp ⊢
      obtain ⟨c1, c2⟩ := hinv (fun r hr => hyp r (by simp [hr]))
      have hnew := hyp _ (List.mem_append_right _ (List.mem_singleton_self _))
      simp only at hnew
      refine ⟨fun a ha => hnew a ha (c1 a ha), ?_⟩
      intro r hr a ha
      simp only [List.mem_append, List.mem_singleton] at hr
      rcases hr with hr | rfl
      · exact c2 r hr a ha
      · exact hnew a ha (c1 a ha)
  · intro st st' hinv hlt hb hyp
    rcases validation_hc_body_cases W callback epsilon machine_tol patience st with
      ⟨-, hb'⟩ | ⟨_, _, -, -, -, hb'⟩ | ⟨op, vd, cache, -, -, -, -, hb'⟩ |
      ⟨op, vd, cache, -, -, -, -, -, hb'⟩ | ⟨op, vd, cache, -, -, -, -, -, hb'⟩ <;>
      rw [hb'] at hb <;> cases hb
    · exact (hinv hyp).2
    · simp only at hyp ⊢
      obtain ⟨c1, c2⟩ := hinv (fun r hr => hyp r (by simp [hr]))
      have hnew := hyp _ (List.mem_append_right _ (List.mem_singleton_self _))
      simp only at hnew
      intro r hr a ha
      simp only [List.mem_append, List.mem_singleton] at hr
      rcases hr with hr | rfl
      · exact c2 r hr a ha
      · exact hnew a ha (c1 a ha)
  · intro st st' e hinv hlt hb hyp
    rcases validation_hc_body_cases W callback epsilon machine_tol patience st with
      ⟨-, hb'⟩ | ⟨_, _, -, -, -, hb'⟩ | ⟨op, vd, cache, -, -, -, -, hb'⟩ |
      ⟨op, vd, cache, -, -, -, -, -, hb'⟩ | ⟨op, vd, cache, -, -, -, -, -, hb'⟩ <;>
      rw [hb'] at hb <;> cases hb
    exact (hinv hyp).2

/-- The model returned by `estimate_validation_hc` contains every whitelisted arc
as soon as one step was accepted, provided the constraint-adjusted start clone
contains them and no applied operator removes one. -/
theorem estimate_validation_hc_keeps_whitelist (W : World) (machine_tol : ℚ)
    (op_set : W.OperatorSet) (start : W.Model) (arc_blacklist arc_whitelist : Finset W.Arc)
    (type_whitelist : W.FactorStringTypeVector) (callback : Bool)
    (max_indegree max_iters : Int) (epsilon : ℚ) (patience : Int) (m : W.Model)
    (hforce : ∀ a ∈ arc_whitelist,
      W.has_arc (validation_hc_start W start arc_whitelist type_whitelist) a = true)
    (hops : ∀ r ∈ (estimate_validation_hc W machine_tol op_set start arc_blacklist
        arc_whitelist type_whitelist callback max_indegree max_iters epsilon patience).history,
      ∀ a ∈ arc_whitelist, W.has_arc r.model_before a = true →
        W.has_arc r.model_after a = true)
    (hret : (estimate_validation_hc W machine_tol op_set start arc_blacklist arc_whitelist
      type_whitelist callback max_indegree max_iters epsilon patience).returned = Except.ok m)
    (hacc : ∃ r ∈ (estimate_validation_hc W machine_tol op_set start arc_blacklist
        arc_whitelist type_whitelist callback max_indegree max_iters epsilon patience).history,
      r.accepted = true) :
    ∀ a ∈ arc_whitelist, W.has_arc m a = true := by
  have hbest := (estimate_validation_hc_best W machine_tol op_set start arc_blacklist
    arc_whitelist type_whitelist callback max_indegree max_iters epsilon patience m hret).1
  obtain ⟨pre, r, post, heq, hr, hpost⟩ := exists_last_accepted _ hacc
  have hm : m = r.model_after := hbest.1 pre r post heq hr hpost
  have hall : ∀ r ∈ (estimate_validation_hc W machine_tol op_set start arc_blacklist
      arc_whitelist type_whitelist callback max_indegree max_iters epsilon patience).history,
      ∀ a ∈ arc_whitelist, W.has_arc r.model_after a = true := by
    by_cases h : W.check_blacklist start arc_blacklist = true
    · have key := validation_hc_loop_whitelist W callback max_iters epsilon machine_tol patience
        arc_whitelist
        (validation_hc_init W op_set start arc_blacklist arc_whitelist type_whitelist callback
          max_indegree)
        (by simpa [validation_hc_init] using hforce)
        (by simp [validation_hc_init])
        max_iters.toNat (by simp [validation_hc_init])
      simp only [estimate_validation_hc, h, if_true] at hops ⊢
      revert key hops
      cases validation_hc_loop W callback max_iters epsilon machine_tol patience
        max_iters.toNat
        (validation_hc_init W op_set start arc_blacklist arc_whitelist type_whitelist callback
          max_indegree) with
      | mk err st =>
        cases err <;> exact fun key hops => key hops
    · simp [estimate_validation_hc, h]
  rw [hm]
  exact hall r (by rw [heq]; simp)

/-- Loop invariant on validated scores: when each logged `validation_delta` is
the change of the total validated score `V`, some value `B` (the score of the
last accepted model, or of the model `m0` the loop started from) bounds the
score of every logged working model. -/
theorem validation_hc_loop_score (W : World) (callback : Bool) (max_iters : Int)
    (epsilon machine_tol : ℚ) (patience : Int) (V : W.Model → ℚ) (m0 : W.Model)
    (st0 : VState W) (h1 : st0.current_model = m0) (h2 : st0.validation_offset = 0)
    (h3 : st0.history = [])
    (fuel : Nat) (hfuel : (max_iters - st0.iter).toNat ≤ fuel) :
    let res := validation_hc_loop W callback max_iters epsilon machine_tol patience fuel st0
    (∀ r ∈ res.2.history, r.validation_delta = V r.model_after - V r.model_before) →
    ∃ B : ℚ, V m0 ≤ B ∧ (∀ r ∈ res.2.history, V r.model_after ≤ B) ∧
      ((∃ r ∈ res.2.history, r.accepted = true) → V res.2.best_model = B) ∧
      ((∀ r ∈ res.2.history, r.accepted = false) → B = V m0) := by
  refine validation_hc_loop_rule W callback max_iters epsilon machine_tol patience
    (fun st => (∀ r ∈ st.history, r.validation_delta = V r.model_after - V r.model_before) →
      ∃ B : ℚ, V st.current_model = B + st.validation_offset ∧ st.validation_offset ≤ 0 ∧
        V m0 ≤ B ∧ (∀ r ∈ st.history, V r.model_after ≤ B) ∧
        ((∃ r ∈ st.history, r.accepted = true) → V st.best_model = B) ∧
        ((∀ r ∈ st.history, r.accepted = false) → B = V m0))
    (fun _ st => (∀ r ∈ st.history, r.validation_delta = V r.model_after - V r.model_before) →
      ∃ B : ℚ, V m0 ≤ B ∧ (∀ r ∈ st.history, V r.model_after ≤ B) ∧
        ((∃ r ∈ st.history, r.accepted = true) → V st.best_model = B) ∧
        ((∀ r ∈ st.history, r.accepted = false) → B = V m0))
    ?_ ?_ ?_ ?_ fuel st0 hfuel ?_
  · intro st hinv _ hyp
    obtain ⟨B, -, -, b1, b2, b3, b4⟩ := hinv hyp
    exact ⟨B, b1, b2, b3, b4⟩
  · intro st st' hinv hlt hb hyp
    rcases validation_hc_body_cases W callback epsilon machine_tol patience st with
      ⟨-, hb'⟩ | ⟨_, _, -, -, -, hb'⟩ | ⟨op, vd, cache, -, -, -, hacc, hb'⟩ |
      ⟨_, _, _, -, -, -, -, -, hb'⟩ | ⟨op, vd, cache, -, -, -, hacc, -, hb'⟩ <;>
      rw [hb'] at hb <;> cases hb
    · simp only at hyp ⊢
      obtain ⟨B, a1, a2, b1, b2, b3, b4⟩ := hinv (fun r hr => hyp r (by simp [hr]))
      have hnew := hyp _ (List.mem_append_right _ (List.mem_singleton_self _))
      simp only at hnew
      have hgt : B < V (W.apply op st.current_model) := by linarith
      refine ⟨V (W.apply op st.current_model), by simp, le_refl _, by linarith, ?_,
        fun _ => rfl, ?_⟩
      · intro r hr
        simp only [List.mem_append, List.mem_singleton] at hr
        rcases hr with hr | rfl
        · exact le_of_lt (lt_of_le_of_lt (b2 r hr) hgt)
        · exact le_refl _
      · intro hall
        have := hall _ (List.mem_append_right _ (List.mem_singleton_self _))
        simp [VStep.accepted, hacc] at this
    · simp only at hyp ⊢
      obtain ⟨B, a1, a2, b1, b2, b3, b4⟩ := hinv (fun r hr => hyp r (by simp [hr]))
      have hnew := hyp _ (List.mem_append_right _ (List.mem_singleton_self _))
      simp only at hnew
      have hle : V (W.apply op st.current_model) ≤ B := by linarith
      refine ⟨B, by linarith, by linarith, b1, ?_, ?_, ?_⟩
      · intro r hr
        simp only [List.mem_append, List.mem_singleton] at hr
        rcases hr with hr | rfl
        · exact b2 r hr
        · exact hle
      · rintro ⟨r, hr, hra⟩
        simp only [List.mem_append, List.mem_singleton] at hr
        rcases hr with hr | rfl
        · exact b3 ⟨r, hr, hra⟩
        · simp [VStep.accepted, hacc] at hra
      · intro hall
        exact b4 (fun r hr => hall r (by simp [hr]))
  · intro st st' hinv hlt hb hyp
    rcases validation_hc_body_cases W callback epsilon machine_tol patience st with
      ⟨-, hb'⟩ | ⟨_, _, -, -, -, hb'⟩ | ⟨op, vd, cache, -, -, -, hacc, hb'⟩ |
      ⟨op, vd, cache, -, -, -, hacc, -, hb'⟩ | ⟨op, vd, cache, -, -, -, hacc, -, hb'⟩ <;>
      rw [hb'] at hb <;> cases hb
    · obtain ⟨B, -, -, b1, b2, b3, b4⟩ := hinv hyp
      exact ⟨B, b1, b2, b3, b4⟩
    · simp only at hyp ⊢
      obtain ⟨B, a1, a2, b1, b2, b3, b4⟩ := hinv (fun r hr => hyp r (by simp [hr]))
      have hnew := hyp _ (List.mem_append_right _ (List.mem_singleton_self _))
      simp only at hnew
      have hle : V (W.apply op st.current_model) ≤ B := by linarith
      refine ⟨B, b1, ?_, ?_, ?_⟩
      · intro r hr
        simp only [List.mem_append, List.mem_singleton] at hr
        rcases hr with hr | rfl
        · exact b2 r hr
        · exact hle
      · rintro ⟨r, hr, hra⟩
        simp only [List.mem_append, List.mem_singleton] at hr
        rcases hr with hr | rfl
        · exact b3 ⟨r, hr, hra⟩
        · simp [VStep.accepted, hacc] at hra
      · intro hall
        exact b4 (fun r hr => hall r (by simp [hr]))
  · intro st st' e hinv hlt hb hyp
    rcases validation_hc_body_cases W callback epsilon machine_tol patience st with
      ⟨-, hb'⟩ | ⟨_, _, -, -, -, hb'⟩ | ⟨op, vd, cache, -, -, -, hacc, hb'⟩ |
      ⟨op, vd, cache, -, -, -, hacc, -, hb'⟩ | ⟨op, vd, cache, -, -, -, hacc, -, hb'⟩ <;>
      rw [hb'] at hb <;> cases hb
    obtain ⟨B, -, -, b1, b2, b3, b4⟩ := hinv hyp
    exact ⟨B, b1, b2, b3, b4⟩
  · intro _
    refine ⟨V m0, by rw [h1, h2]; simp, by rw [h2], le_refl _, ?_, ?_, fun _ => rfl⟩
    · intro r hr; rw [h3] at hr; simp at hr
    · rintro ⟨r, hr, -⟩; rw [h3] at hr; simp at hr

/-- When each logged `validation_delta` is the change of the total validated
score `V`, the model returned by `estimate_validation_hc` scores at least as
much as every working model of the run, including the constraint-adjusted start
clone, as soon as one step was accepted or the constraint adjustments left the
start model unchanged. -/
theorem estimate_validation_hc_best_score (W : World) (machine_tol : ℚ)
    (op_set : W.OperatorSet) (start : W.Model) (arc_blacklist arc_whitelist : Finset W.Arc)
    (type_whitelist : W.FactorStringTypeVector) (callback : Bool)
    (max_indegree max_iters : Int) (epsilon : ℚ) (patience : Int) (V : W.Model → ℚ)
    (m : W.Model)
    (hret : (estimate_validation_hc W machine_tol op_set start arc_blacklist arc_whitelist
      type_whitelist callback max_indegree max_iters epsilon patience).returned = Except.ok m)
    (hexact : ∀ r ∈ (estimate_validation_hc W machine_tol op_set start arc_blacklist
        arc_whitelist type_whitelist callback max_indegree max_iters epsilon patience).history,
      r.validation_delta = V r.model_after - V r.model_before)
    (hseed : (∃ r ∈ (estimate_validation_hc W machine_tol op_set start arc_blacklist
        arc_whitelist type_whitelist callback max_indegree max_iters epsilon patience).history,
        r.accepted = true) ∨
      validation_hc_start W start arc_whitelist type_whitelist = start) :
    ∀ x ∈ working_models (validation_hc_start W start arc_whitelist type_whitelist)
      (estimate_validation_hc W machine_tol op_set start arc_blacklist arc_whitelist
        type_whitelist callback max_indegree max_iters epsilon patience).trace,
      V x ≤ V m := by
  obtain ⟨hbest, hlog, -⟩ := estimate_validation_hc_best W machine_tol op_set start
    arc_blacklist arc_whitelist type_whitelist callback max_indegree max_iters epsilon patience
    m hret
  have hB : ∃ B : ℚ, V (validation_hc_start W start arc_whitelist type_whitelist) ≤ B ∧
      (∀ r ∈ (estimate_validation_hc W machine_tol op_set start arc_blacklist
        arc_whitelist type_whitelist callback max_indegree max_iters epsilon patience).history,
        V r.model_after ≤ B) ∧
      ((∃ r ∈ (estimate_validation_hc W machine_tol op_set start arc_blacklist
        arc_whitelist type_whitelist callback max_indegree max_iters epsilon patience).history,
        r.accepted = true) → V m = B) ∧
      ((∀ r ∈ (estimate_validation_hc W machine_tol op_set start arc_blacklist
        arc_whitelist type_whitelist callback max_indegree max_iters epsilon patience).history,
        r.accepted = false) →
        B = V (validation_hc_start W start arc_whitelist type_whitelist)) := by
    by_cases h : W.check_blacklist start arc_blacklist = true
    · have key := validation_hc_loop_score W callback max_iters epsilon machine_tol patience V
        (validation_hc_start W start arc_whitelist type_whitelist)
        (validation_hc_init W op_set start arc_blacklist arc_whitelist type_whitelist callback
          max_indegree)
        (by simp [validation_hc_init]) (by simp [validation_hc_init])
        (by simp [validation_hc_init])
        max_iters.toNat (by simp [validation_hc_init])
      simp only [estimate_validation_hc, h, if_true] at hexact hret ⊢
      revert key hexact hret
      cases validation_hc_loop W callback max_iters epsilon machine_tol patience
        max_iters.toNat
        (validation_hc_init W op_set start arc_blacklist arc_whitelist type_whitelist callback
          max_indegree) with
      | mk err st =>
        cases err with
        | none =>
          intro key hexact hret
          simp only [Except.ok.injEq] at hret
          subst hret
          exact key hexact
        | some e =>
          intro _ _ hret
          cases hret
    · simp [estimate_validation_hc, h] at hret
  obtain ⟨B, b1, b2, b3, b4⟩ := hB
  have hVm : V m = B := by
    by_cases hacc : ∃ r ∈ (estimate_validation_hc W machine_tol op_set start arc_blacklist
        arc_whitelist type_whitelist callback max_indegree max_iters epsilon patience).history,
        r.accepted = true
    · exact b3 hacc
    · have hnone : ∀ r ∈ (estimate_validation_hc W machine_tol op_set start arc_blacklist
          arc_whitelist type_whitelist callback max_indegree max_iters epsilon
          patience).history, r.accepted = false := by
        intro r hr
        by_contra hra
        exact hacc ⟨r, hr, by simpa using hra⟩
      rcases hseed with hs | hs
      · exact absurd hs hacc
      · rw [hbest.2 hnone, b4 hnone, hs]
  intro x hx
  rw [hVm]
  have hx' : x = validation_hc_start W start arc_whitelist type_whitelist ∨
      x ∈ (working_models (validation_hc_start W start arc_whitelist type_whitelist)
        (estimate_validation_hc W machine_tol op_set start arc_blacklist arc_whitelist
          type_whitelist callback max_indegree max_iters epsilon patience).trace).tail := by
    simpa [working_models] using hx
  rcases hx' with rfl | hx'
  · exact b1
  · rw [← hlog, List.mem_map] at hx'
    obtain ⟨r, hr, rfl⟩ := hx'
    exact b2 r hr

/-! ## `validation_delta_score`: claims -/

/-- C11. `validation_delta_score` returns, for an `ADD_ARC` or `REMOVE_ARC`
operator, the refreshed cached local score of the operator's target minus the
value cached for the target before the call; for a `FLIP_ARC` operator, the sum
of the refreshed scores of source and target minus the sum of their previously
cached scores; for a `CHANGE_NODE_TYPE` operator, the refreshed score of the node
minus its previously cached value.  In each case the cache left by the call is
the one obtained by a single `update_vlocal_score` for that operator. -/
theorem validation_delta_score_value (W : World) (model : W.Model) (op : W.Operator)
    (cache : W.LocalScoreCache) :
    ((W.type op = OperatorType.ADD_ARC ∨ W.type op = OperatorType.REMOVE_ARC) →
      validation_delta_score W model op cache =
        Except.ok (W.local_score (W.update_vlocal_score cache model op) model (W.target op) -
            W.local_score cache model (W.target op),
          W.update_vlocal_score cache model op)) ∧
    (W.type op = OperatorType.FLIP_ARC →
      validation_delta_score W model op cache =
        Except.ok ((W.local_score (W.update_vlocal_score cache model op) model (W.source op) +
              W.local_score (W.update_vlocal_score cache model op) model (W.target op)) -
            (W.local_score cache model (W.source op) +
              W.local_score cache model (W.target op)),
          W.update_vlocal_score cache model op)) ∧
    (W.type op = OperatorType.CHANGE_NODE_TYPE →
      validation_delta_score W model op cache =
        Except.ok (W.local_score (W.update_vlocal_score cache model op) model (W.node op) -
            W.local_score cache model (W.node op),
          W.update_vlocal_score cache model op)) := by
  refine ⟨?_, ?_, ?_⟩
  · rintro (h | h) <;> simp [validation_delta_score, h]
  · intro h
    simp [validation_delta_score, h]
  · intro h
    simp [validation_delta_score, h]

/-- Witness of C11: adding `B -> C` lowers the cached validated score of `C` from
0 to -0.1. -/
theorem validation_delta_score_value_witness :
    (toyWorld.type (toyAdd "B" "C" (3 / 2) (-1 / 10)) = OperatorType.ADD_ARC ∨
      toyWorld.type (toyAdd "B" "C" (3 / 2) (-1 / 10)) = OperatorType.REMOVE_ARC) ∧
    validation_delta_score toyWorld ({("B", "C"), ("A", "B")} : Finset (String × String))
        (toyAdd "B" "C" (3 / 2) (-1 / 10)) (fun _ => 0) =
      Except.ok
        (toyWorld.local_score
            (toyWorld.update_vlocal_score (fun _ => 0)
              ({("B", "C"), ("A", "B")} : Finset (String × String))
              (toyAdd "B" "C" (3 / 2) (-1 / 10)))
            ({("B", "C"), ("A", "B")} : Finset (String × String)) "C" -
          toyWorld.local_score (fun _ => 0)
            ({("B", "C"), ("A", "B")} : Finset (String × String)) "C",
         toyWorld.update_vlocal_score (fun _ => 0)
           ({("B", "C"), ("A", "B")} : Finset (String × String))
           (toyAdd "B" "C" (3 / 2) (-1 / 10))) ∧
    toyWorld.local_score
        (toyWorld.update_vlocal_score (fun _ => 0)
          ({("B", "C"), ("A", "B")} : Finset (String × String))
          (toyAdd "B" "C" (3 / 2) (-1 / 10)))
        ({("B", "C"), ("A", "B")} : Finset (String × String)) "C" -
      toyWorld.local_score (fun _ => 0)
        ({("B", "C"), ("A", "B")} : Finset (String × String)) "C" = -1 / 10 :=
  ⟨Or.inl rfl,
   (validation_delta_score_value toyWorld ({("B", "C"), ("A", "B")} : Finset (String × String))
     (toyAdd "B" "C" (3 / 2) (-1 / 10)) (fun _ => 0)).1 (Or.inl rfl),
   by decide!⟩

/-- The only exception of `validation_delta_score` is `invalid_argument`, and it
is thrown exactly for the operator kinds outside the four cases of the switch. -/
theorem validation_delta_score_error_iff (W : World) (model : W.Model) (op : W.Operator)
    (cache : W.LocalScoreCache) (e : HCError) :
    validation_delta_score W model op cache = Except.error e ↔
      (e = HCError.invalid_argument ∧ ∃ k, W.type op = OperatorType.OTHER k) := by
  unfold validation_delta_score
  cases h : W.type op <;> simp
  exact eq_comm

/-- Loop invariant behind C12: an exception that leaves the loop is
`invalid_argument`, and without one every applied operator has one of the four
kinds. -/
theorem validation_hc_loop_other (W : World) (callback : Bool) (max_iters : Int)
    (epsilon machine_tol : ℚ) (patience : Int) (st0 : VState W)
    (h0 : ∀ op m, Event.apply op m ∈ st0.trace → ∀ k, W.type op ≠ OperatorType.OTHER k)
    (fuel : Nat) (hfuel : (max_iters - st0.iter).toNat ≤ fuel) :
    let res := validation_hc_loop W callback max_iters epsilon machine_tol patience fuel st0
    (res.1 = none →
      ∀ op m, Event.apply op m ∈ res.2.trace → ∀ k, W.type op ≠ OperatorType.OTHER k) ∧
    (∀ e, res.1 = some e → e = HCError.invalid_argument) := by
  refine validation_hc_loop_rule W callback max_iters epsilon machine_tol patience
    (fun st => ∀ op m, Event.apply op m ∈ st.trace → ∀ k, W.type op ≠ OperatorType.OTHER k)
    (fun err st =>
      (err = none →
        ∀ op m, Event.apply op m ∈ st.trace → ∀ k, W.type op ≠ OperatorType.OTHER k) ∧
      (∀ e, err = some e → e = HCError.invalid_argument))
    ?_ ?_ ?_ ?_ fuel st0 hfuel h0
  · intro st hinv _
    exact ⟨fun _ => hinv, fun e he => by cases he⟩
  · intro st st' hinv hlt hb
    rcases validation_hc_body_cases W callback epsilon machine_tol patience st with
      ⟨-, hb'⟩ | ⟨_, _, -, -, -, hb'⟩ | ⟨op, vd, cache, -, -, hv, -, hb'⟩ |
      ⟨_, _, _, -, -, -, -, -, hb'⟩ | ⟨op, vd, cache, -, -, hv, -, -, hb'⟩ <;>
      rw [hb'] at hb <;> cases hb <;>
    · intro o m hmem k hk
      have hmem' : Event.apply o m ∈ st.trace ∨ (o = op ∧ m = st.current_model) := by
        revert hmem
        cases callback <;> simp
      rcases hmem' with hmem' | ⟨rfl, rfl⟩
      · exact hinv o m hmem' k hk
      · have := (validation_delta_score_error_iff W (W.apply o st.current_model) o
          st.local_validation HCError.invalid_argument).2 ⟨rfl, k, hk⟩
        rw [hv] at this
        cases this
  · intro st st' hinv hlt hb
    refine ⟨fun _ => ?_, fun e he => by cases he⟩
    rcases validation_hc_body_cases W callback epsilon machine_tol patience st with
      ⟨-, hb'⟩ | ⟨_, _, -, -, -, hb'⟩ | ⟨op, vd, cache, -, -, hv, -, hb'⟩ |
      ⟨op, vd, cache, -, -, hv, -, -, hb'⟩ | ⟨op, vd, cache, -, -, hv, -, -, hb'⟩ <;>
      rw [hb'] at hb <;> cases hb
    · intro o m hmem k hk
      have hmem' : Event.apply o m ∈ st.trace := by
        revert hmem
        simp
      exact hinv o m hmem' k hk
    · intro o m hmem k hk
      have hmem' : Event.apply o m ∈ st.trace ∨ (o = op ∧ m = st.current_model) := by
        revert hmem
        simp
      rcases hmem' with hmem' | ⟨rfl, rfl⟩
      · exact hinv o m hmem' k hk
      · have := (validation_delta_score_error_iff W (W.apply o st.current_model) o
          st.local_validation HCError.invalid_argument).2 ⟨rfl, k, hk⟩
        rw [hv] at this
        cases this
  · intro st st' e hinv hlt hb
    refine ⟨fun he => (by cases he), ?_⟩
    rcases validation_hc_body_cases W callback epsilon machine_tol patience st with
      ⟨-, hb'⟩ | ⟨op, e', -, -, hv, hb'⟩ | ⟨op, vd, cache, -, -, hv, -, hb'⟩ |
      ⟨op, vd, cache, -, -, hv, -, -, hb'⟩ | ⟨op, vd, cache, -, -, hv, -, -, hb'⟩ <;>
      rw [hb'] at hb <;> cases hb
    intro e'' he''
    cases he''
    exact ((validation_delta_score_error_iff W _ _ _ _).1 hv).1

/-- C12. For every operator whose type is none of `ADD_ARC`, `REMOVE_ARC`,
`FLIP_ARC`, `CHANGE_NODE_TYPE`, `validation_delta_score` fails with
`invalid_argument`; for the four listed types it returns a value.  When the loop
body of `estimate_validation_hc` applies such an operator, the exception leaves
the body with the local score cache (and `best_model`) as they were, and it
leaves `estimate_validation_hc`: a run that applied such an operator ends with
`invalid_argument` and returns no model. -/
theorem validation_delta_score_wrong_operator (W : World) :
    (∀ (model : W.Model) (op : W.Operator) (cache : W.LocalScoreCache),
      (W.type op ≠ OperatorType.ADD_ARC ∧ W.type op ≠ OperatorType.REMOVE_ARC ∧
        W.type op ≠ OperatorType.FLIP_ARC ∧ W.type op ≠ OperatorType.CHANGE_NODE_TYPE →
        validation_delta_score W model op cache = Except.error HCError.invalid_argument) ∧
      (W.type op = OperatorType.ADD_ARC ∨ W.type op = OperatorType.REMOVE_ARC ∨
        W.type op = OperatorType.FLIP_ARC ∨ W.type op = OperatorType.CHANGE_NODE_TYPE →
        ∃ v, validation_delta_score W model op cache =
          Except.ok (v, W.update_vlocal_score cache model op))) ∧
    (∀ (callback : Bool) (epsilon machine_tol : ℚ) (patience : Int) (st : VState W)
      (op : W.Operator),
      (W.find_max_tabu st.op_set st.current_model st.tabu_set).1 = some op →
      ¬ (W.delta op - epsilon < machine_tol) →
      (W.type op ≠ OperatorType.ADD_ARC ∧ W.type op ≠ OperatorType.REMOVE_ARC ∧
        W.type op ≠ OperatorType.FLIP_ARC ∧ W.type op ≠ OperatorType.CHANGE_NODE_TYPE) →
      ∃ st', validation_hc_body W callback epsilon machine_tol patience st =
          VLoopStep.raise HCError.invalid_argument st' ∧
        st'.local_validation = st.local_validation ∧ st'.best_model = st.best_model) ∧
    (∀ (machine_tol : ℚ) (op_set : W.OperatorSet) (start : W.Model)
      (arc_blacklist arc_whitelist : Finset W.Arc) (type_whitelist : W.FactorStringTypeVector)
      (callback : Bool) (max_indegree max_iters : Int) (epsilon : ℚ) (patience : Int)
      (op : W.Operator) (m : W.Model),
      Event.apply op m ∈ (estimate_validation_hc W machine_tol op_set start arc_blacklist
        arc_whitelist type_whitelist callback max_indegree max_iters epsilon patience).trace →
      (W.type op ≠ OperatorType.ADD_ARC ∧ W.type op ≠ OperatorType.REMOVE_ARC ∧
        W.type op ≠ OperatorType.FLIP_ARC ∧ W.type op ≠ OperatorType.CHANGE_NODE_TYPE) →
      (estimate_validation_hc W machine_tol op_set start arc_blacklist arc_whitelist
        type_whitelist callback max_indegree max_iters epsilon patience).returned =
        Except.error HCError.invalid_argument) := by
  have hother : ∀ op : W.Operator,
      (W.type op ≠ OperatorType.ADD_ARC ∧ W.type op ≠ OperatorType.REMOVE_ARC ∧
        W.type op ≠ OperatorType.FLIP_ARC ∧ W.type op ≠ OperatorType.CHANGE_NODE_TYPE) →
      ∃ k, W.type op = OperatorType.OTHER k := by
    intro op h
    cases ht : W.type op with
    | OTHER k => exact ⟨k, rfl⟩
    | _ => simp [ht] at h
  refine ⟨?_, ?_, ?_⟩
  · intro model op cache
    refine ⟨?_, ?_⟩
    · intro h
      exact (validation_delta_score_error_iff W model op cache _).2 ⟨rfl, hother op h⟩
    · rintro (h | h | h | h) <;> simp [validation_delta_score, h]
  · intro callback epsilon machine_tol patience st op hfind hdelta hty
    have herr := (validation_delta_score_error_iff W (W.apply op st.current_model) op
      st.local_validation _).2 ⟨rfl, hother op hty⟩
    rcases validation_hc_body_cases W callback epsilon machine_tol patience st with
      ⟨hc, -⟩ | ⟨o, e, h1, -, h3, hb⟩ | ⟨o, v, c, h1, -, h3, -, -⟩ |
      ⟨o, v, c, h1, -, h3, -, -, -⟩ | ⟨o, v, c, h1, -, h3, -, -, -⟩
    · rcases hc with hc | ⟨o, ho, hlt⟩
      · rw [hfind] at hc; cases hc
      · rw [hfind] at ho; cases ho; exact absurd hlt hdelta
    · rw [hfind] at h1; cases h1
      rw [herr] at h3; cases h3
      exact ⟨_, hb, rfl, rfl⟩
    · rw [hfind] at h1; cases h1; rw [herr] at h3; cases h3
    · rw [hfind] at h1; cases h1; rw [herr] at h3; cases h3
    · rw [hfind] at h1; cases h1; rw [herr] at h3; cases h3
  · intro machine_tol op_set start arc_blacklist arc_whitelist type_whitelist callback
      max_indegree max_iters epsilon patience op m hmem hty
    obtain ⟨k, hk⟩ := hother op hty
    by_cases h : W.check_blacklist start arc_blacklist = true
    · have key := validation_hc_loop_other W callback max_iters epsilon machine_tol patience
        (validation_hc_init W op_set start arc_blacklist arc_whitelist type_whitelist callback
          max_indegree)
        (by
          intro o m' ho
          revert ho
          cases callback <;> simp [validation_hc_init, call_callback])
        max_iters.toNat (by simp [validation_hc_init])
      simp only [estimate_validation_hc, h, if_true] at hmem ⊢
      revert key hmem
      cases validation_hc_loop W callback max_iters epsilon machine_tol patience
        max_iters.toNat
        (validation_hc_init W op_set start arc_blacklist arc_whitelist type_whitelist callback
          max_indegree) with
      | mk err st =>
        cases err with
        | none =>
          intro key hmem
          simp only [mem_apply_call_callback] at hmem
          exact absurd hk (key.1 rfl op m hmem k)
        | some e =>
          intro key _
          simp only
          rw [key.2 e rfl]
    · simp [estimate_validation_hc, h] at hmem

/-- Witness of C12: a run whose operator set proposes an operator of another kind
ends with `invalid_argument`. -/
theorem validation_delta_score_wrong_operator_witness :
    Event.apply toyOther (∅ : Finset (String × String)) ∈ toy_other_run.trace ∧
    (toyWorld.type toyOther ≠ OperatorType.ADD_ARC ∧
      toyWorld.type toyOther ≠ OperatorType.REMOVE_ARC ∧
      toyWorld.type toyOther ≠ OperatorType.FLIP_ARC ∧
      toyWorld.type toyOther ≠ OperatorType.CHANGE_NODE_TYPE) ∧
    toy_other_run.returned = Except.error HCError.invalid_argument := by
  have hmem : Event.apply toyOther (∅ : Finset (String × String)) ∈ toy_other_run.trace := by
    norm_num [toy_other_run, toyOther, toy_tol, estimate_validation_hc, validation_hc_loop,
      validation_hc_body, validation_hc_init, validation_hc_start, validation_delta_score,
      toy_find_max, call_callback, ToyOperator.run]
  have hty : toyWorld.type toyOther ≠ OperatorType.ADD_ARC ∧
      toyWorld.type toyOther ≠ OperatorType.REMOVE_ARC ∧
      toyWorld.type toyOther ≠ OperatorType.FLIP_ARC ∧
      toyWorld.type toyOther ≠ OperatorType.CHANGE_NODE_TYPE := by
    decide
  exact ⟨hmem, hty,
    (validation_delta_score_wrong_operator toyWorld).2.2 toy_tol [some toyOther]
      (∅ : Finset (String × String)) ∅ ∅ () true 3 10 (1 / 100) 2 toyOther ∅ hmem hty⟩

/-! ## Invariants at the loop head of `estimate_validation_hc` -/

/-- Proof rule for the loop heads: a property of the first state that full
executions of the body preserve holds at every loop head. -/
theorem validation_hc_heads_rule (W : World) (callback : Bool) (max_iters : Int)
    (epsilon machine_tol : ℚ) (patience : Int) (Inv : VState W → Prop)
    (hnext : ∀ st st', Inv st → st.iter < max_iters →
      validation_hc_body W callback epsilon machine_tol patience st = VLoopStep.next st' →
      Inv st') :
    ∀ (fuel : Nat) (st0 : VState W), Inv st0 →
      ∀ st ∈ validation_hc_heads W callback max_iters epsilon machine_tol patience fuel st0,
        Inv st := by
  intro fuel
  induction fuel with
  | zero =>
    intro st0 h0 st hst
    simp only [validation_hc_heads, List.mem_singleton] at hst
    rw [hst]; exact h0
  | succ n ih =>
    intro st0 h0 st hst
    simp only [validation_hc_heads, List.mem_cons] at hst
    rcases hst with rfl | hst
    · exact h0
    · by_cases hlt : st0.iter < max_iters
      · simp only [hlt, if_true] at hst
        cases hb : validation_hc_body W callback epsilon machine_tol patience st0 with
        | next st' =>
          rw [hb] at hst
          exact ih st' (hnext st0 st' h0 hlt hb) st hst
        | stop st' => rw [hb] at hst; simp at hst
        | raise e st' => rw [hb] at hst; simp at hst
      · simp [hlt] at hst

/-- The loop ends from its last head: the result of `validation_hc_loop` is the
last loop head if the loop condition fails there, and otherwise what the `break`
or the exception of the body leaves from it. -/
theorem validation_hc_loop_last_head (W : World) (callback : Bool) (max_iters : Int)
    (epsilon machine_tol : ℚ) (patience : Int) :
    ∀ (fuel : Nat) (st0 : VState W), (max_iters - st0.iter).toNat ≤ fuel →
      ∃ st ∈ validation_hc_heads W callback max_iters epsilon machine_tol patience fuel st0,
        (¬ st.iter < max_iters ∧
          validation_hc_loop W callback max_iters epsilon machine_tol patience fuel st0 =
            (none, st)) ∨
        (st.iter < max_iters ∧ ∃ st',
          validation_hc_body W callback epsilon machine_tol patience st = VLoopStep.stop st' ∧
          validation_hc_loop W callback max_iters epsilon machine_tol patience fuel st0 =
            (none, st')) ∨
        (st.iter < max_iters ∧ ∃ e st',
          validation_hc_body W callback epsilon machine_tol patience st =
            VLoopStep.raise e st' ∧
          validation_hc_loop W callback max_iters epsilon machine_tol patience fuel st0 =
            (some e, st')) := by
  intro fuel
  induction fuel with
  | zero =>
    intro st0 hfuel
    refine ⟨st0, by simp [validation_hc_heads], Or.inl ⟨by omega, rfl⟩⟩
  | succ n ih =>
    intro st0 hfuel
    by_cases hlt : st0.iter < max_iters
    · cases hb : validation_hc_body W callback epsilon machine_tol patience st0 with
      | next st' =>
        have hit := validation_hc_body_next_iter hb
        obtain ⟨st, hst, hcase⟩ := ih st' (by omega)
        refine ⟨st, by simp [validation_hc_heads, hlt, hb, hst], ?_⟩
        simpa [validation_hc_loop, hlt, hb] using hcase
      | stop st' =>
        refine ⟨st0, by simp [validation_hc_heads], Or.inr (Or.inl ⟨hlt, st', hb, ?_⟩)⟩
        simp [validation_hc_loop, hlt, hb]
      | raise e st' =>
        refine ⟨st0, by simp [validation_hc_heads], Or.inr (Or.inr ⟨hlt, e, st', hb, ?_⟩)⟩
        simp [validation_hc_loop, hlt, hb]
    · refine ⟨st0, by simp [validation_hc_heads], Or.inl ⟨hlt, ?_⟩⟩
      simp [validation_hc_loop, hlt]

theorem trailing_offset_snoc {W : World} (h : List (VStep W)) (r : VStep W) :
    trailing_offset (h ++ [r]) =
      if r.accepted then 0 else trailing_offset h + r.validation_delta := by
  simp [trailing_offset, List.foldl_append]

/-- `trailing_offset` is the sum of the deltas of the tolerated steps that follow
the last accepted step. -/
theorem trailing_offset_split {W : World} (pre : List (VStep W))
    (hpre : ∀ r ∈ pre.getLast?, r.accepted = true) :
    ∀ tol : List (VStep W), (∀ x ∈ tol, x.accepted = false) →
      trailing_offset (pre ++ tol) = (tol.map VStep.validation_delta).sum := by
  intro tol
  induction tol using List.reverseRecOn with
  | nil =>
    intro _
    simp only [List.append_nil, List.map_nil, List.sum_nil]
    rcases List.eq_nil_or_concat pre with rfl | ⟨L, b, rfl⟩
    · rfl
    · rw [List.concat_eq_append] at hpre ⊢
      have hb : b.accepted = true := hpre b (by simp)
      rw [trailing_offset_snoc, hb]
      simp
  | append_singleton tol x ih =>
    intro htol
    have hx : x.accepted = false := htol x (by simp)
    rw [← List.append_assoc, trailing_offset_snoc, hx,
      ih (fun y hy => htol y (by simp [hy]))]
    simp

/-- `trailing_tolerated` is the number of tolerated steps that follow the last
accepted step. -/
theorem trailing_tolerated_split {W : World} (pre : List (VStep W))
    (hpre : ∀ r ∈ pre.getLast?, r.accepted = true) :
    ∀ tol : List (VStep W), (∀ x ∈ tol, x.accepted = false) →
      trailing_tolerated (pre ++ tol) = tol.length := by
  intro tol htol
  rw [trailing_tolerated_append pre tol htol]
  rcases List.eq_nil_or_concat pre with rfl | ⟨L, b, rfl⟩
  · simp [trailing_tolerated]
  · rw [List.concat_eq_append] at hpre ⊢
    have hb : b.accepted = true := hpre b (by simp)
    rw [trailing_tolerated_snoc, hb]
    simp

/-- Invariant of the loop head of `estimate_validation_hc`. -/
theorem validation_hc_heads_inv (W : World) (callback : Bool) (max_iters : Int)
    (epsilon machine_tol : ℚ) (patience : Int) (st0 : VState W)
    (h1 : st0.p = 0) (h2 : st0.validation_offset = 0) (h3 : st0.tabu_set = ∅)
    (h4 : st0.history = []) (fuel : Nat) :
    ∀ st ∈ validation_hc_heads W callback max_iters epsilon machine_tol patience fuel st0,
      st.p = (trailing_tolerated st.history : Int) ∧
      st.validation_offset = trailing_offset st.history ∧
      st.validation_offset ≤ 0 ∧
      (st.p = 0 → st.validation_offset = 0 ∧ st.tabu_set = ∅) ∧
      (st.tabu_set.card : Int) ≤ st.p ∧
      (1 ≤ patience → st.p < patience) := by
  refine validation_hc_heads_rule W callback max_iters epsilon machine_tol patience
    (fun st => st.p = (trailing_tolerated st.history : Int) ∧
      st.validation_offset = trailing_offset st.history ∧
      st.validation_offset ≤ 0 ∧
      (st.p = 0 → st.validation_offset = 0 ∧ st.tabu_set = ∅) ∧
      (st.tabu_set.card : Int) ≤ st.p ∧
      (1 ≤ patience → st.p < patience))
    ?_ fuel st0 ?_
  · rintro st st' ⟨i1, i2, i3, i4, i5, i6⟩ hlt hb
    rcases validation_hc_body_cases W callback epsilon machine_tol patience st with
      ⟨-, hb'⟩ | ⟨_, _, -, -, -, hb'⟩ | ⟨op, vd, cache, -, -, -, hacc, hb'⟩ |
      ⟨_, _, _, -, -, -, -, -, hb'⟩ | ⟨op, vd, cache, -, -, -, hacc, hp, hb'⟩ <;>
      rw [hb'] at hb <;> cases hb
    · refine ⟨?_, ?_, le_refl _, fun _ => ⟨rfl, rfl⟩, by simp, fun h => by simp only; omega⟩
      · simp [trailing_tolerated_snoc, VStep.accepted, hacc]
      · simp [trailing_offset_snoc, VStep.accepted, hacc]
    · have hle : vd + st.validation_offset ≤ 0 := not_lt.1 hacc
      refine ⟨?_, ?_, ?_, ?_, ?_, fun _ => by simp only; omega⟩
      · simp [trailing_tolerated_snoc, VStep.accepted, hacc, i1]
      · have hacc' : ¬ (0 < vd + trailing_offset st.history) := by rw [← i2]; exact hacc
        simp [trailing_offset_snoc, VStep.accepted, hacc', i2]
      · simp only; linarith
      · intro h0
        simp only at h0
        have : (0 : Int) ≤ (trailing_tolerated st.history : Int) := Int.natCast_nonneg _
        omega
      · simp only
        have := Finset.card_insert_le (W.opposite op) st.tabu_set
        omega
  · exact ⟨by rw [h1, h4]; simp [trailing_tolerated], by rw [h2, h4]; simp [trailing_offset],
      by rw [h2], fun _ => ⟨h2, h3⟩, by rw [h3, h1]; simp, fun h => by rw [h1]; omega⟩

/-- C14. In `estimate_validation_hc` (exact arithmetic), `validation_offset` is
`<= 0` at the head of every loop iteration, whatever the validation deltas are,
and it equals the sum of the validation deltas of the tolerated steps taken
since the last accepted step: if the log of steps splits as `pre ++ tol` with
`pre` empty or ending with an accepted step and every step of `tol` tolerated,
the offset is the sum of the deltas of `tol` (0 when `tol` is empty). -/
theorem validation_offset_at_loop_head (W : World) (op_set : W.OperatorSet) (start : W.Model)
    (arc_blacklist arc_whitelist : Finset W.Arc) (type_whitelist : W.FactorStringTypeVector)
    (callback : Bool) (max_indegree max_iters : Int) (epsilon machine_tol : ℚ)
    (patience : Int) (fuel : Nat) (st : VState W)
    (hst : st ∈ validation_hc_heads W callback max_iters epsilon machine_tol patience fuel
      (validation_hc_init W op_set start arc_blacklist arc_whitelist type_whitelist callback
        max_indegree)) :
    st.validation_offset ≤ 0 ∧
    ∀ pre tol, st.history = pre ++ tol →
      (∀ r ∈ pre.getLast?, r.validation_delta + r.offset_before > 0) →
      (∀ x ∈ tol, ¬ (x.validation_delta + x.offset_before > 0)) →
      st.validation_offset = (tol.map VStep.validation_delta).sum := by
  obtain ⟨-, i2, i3, -⟩ := validation_hc_heads_inv W callback max_iters epsilon machine_tol
    patience _ (by simp [validation_hc_init]) (by simp [validation_hc_init])
    (by simp [validation_hc_init]) (by simp [validation_hc_init]) fuel st hst
  refine ⟨i3, ?_⟩
  intro pre tol hsplit hpre htol
  rw [i2, hsplit]
  exact trailing_offset_split pre (fun r hr => by simpa [VStep.accepted] using hpre r hr) tol
    (fun x hx => by simpa [VStep.accepted] using htol x hx)

/-- C15. In `estimate_validation_hc`, at the head of every loop iteration the
patience counter `p` is the number of consecutive tolerated steps since the last
accepted step (or since the start); `p = 0` implies that `validation_offset` is 0
and the tabu set is empty; the tabu set holds at most `p` operators; and
whenever `patience >= 1`, `p < patience`. -/
theorem patience_counter_at_loop_head (W : World) (op_set : W.OperatorSet) (start : W.Model)
    (arc_blacklist arc_whitelist : Finset W.Arc) (type_whitelist : W.FactorStringTypeVector)
    (callback : Bool) (max_indegree max_iters : Int) (epsilon machine_tol : ℚ)
    (patience : Int) (fuel : Nat) (st : VState W)
    (hst : st ∈ validation_hc_heads W callback max_iters epsilon machine_tol patience fuel
      (validation_hc_init W op_set start arc_blacklist arc_whitelist type_whitelist callback
        max_indegree)) :
    (∀ pre tol, st.history = pre ++ tol →
      (∀ r ∈ pre.getLast?, r.validation_delta + r.offset_before > 0) →
      (∀ x ∈ tol, ¬ (x.validation_delta + x.offset_before > 0)) →
      st.p = (tol.length : Int)) ∧
    (st.p = 0 → st.validation_offset = 0 ∧ st.tabu_set = ∅) ∧
    (st.tabu_set.card : Int) ≤ st.p ∧
    (1 ≤ patience → st.p < patience) := by
  obtain ⟨i1, -, -, i4, i5, i6⟩ := validation_hc_heads_inv W callback max_iters epsilon
    machine_tol patience _ (by simp [validation_hc_init]) (by simp [validation_hc_init])
    (by simp [validation_hc_init]) (by simp [validation_hc_init]) fuel st hst
  refine ⟨?_, i4, i5, i6⟩
  intro pre tol hsplit hpre htol
  rw [i1, hsplit,
    trailing_tolerated_split pre (fun r hr => by simpa [VStep.accepted] using hpre r hr) tol
      (fun x hx => by simpa [VStep.accepted] using htol x hx)]

/-- The last loop head of the validated scenario: one accepted step, then one
tolerated step with validation delta -0.1. -/
theorem toy_validated_last_head :
    ∃ st ∈ toy_validated_heads,
      st.history = [toy_step1] ++ [toy_step2] ∧ st.validation_offset = -1 / 10 ∧ st.p = 1 ∧
      st.tabu_set = {ToyOperator.opposite (toyAdd "B" "C" (3 / 2) (-1 / 10))} := by
  have hlast : ∃ st, toy_validated_heads.getLast? = some st := by
    cases h : toy_validated_heads.getLast? with
    | none =>
      have : toy_validated_heads.getLast?.isSome = true := by decide!
      rw [h] at this
      cases this
    | some st => exact ⟨st, rfl⟩
  obtain ⟨st, hst⟩ := hlast
  refine ⟨st, List.mem_of_getLast?_eq_some hst, ?_, ?_, ?_, ?_⟩
  · have h1 : toy_validated_heads.getLast?.map (fun s => s.history) =
        some ([toy_step1] ++ [toy_step2]) := by
      norm_num [toy_validated_heads, validation_hc_heads, toy_validated_script, toy_tol,
        validation_hc_body, validation_hc_init, validation_hc_start, validation_hc_tail,
        validation_delta_score, toy_find_max, toyAdd, call_callback, ToyOperator.run,
        ToyOperator.opposite, toy_step1, toy_step2]
    rw [hst] at h1
    simpa using h1
  · have : toy_validated_heads.getLast?.map (fun s => s.validation_offset) =
        some (-1 / 10) := by decide!
    rw [hst] at this
    simpa using this
  · have : toy_validated_heads.getLast?.map (fun s => s.p) = some 1 := by decide!
    rw [hst] at this
    simpa using this
  · have : toy_validated_heads.getLast?.map (fun s => s.tabu_set) =
        some {ToyOperator.opposite (toyAdd "B" "C" (3 / 2) (-1 / 10))} := by decide!
    rw [hst] at this
    simpa using this

/-- Witness of C14: at the last loop head of the validated scenario the log is
one accepted step followed by one tolerated step of delta -0.1, and the offset
is -0.1. -/
theorem validation_offset_at_loop_head_witness :
    ∃ st ∈ toy_validated_heads,
      st.history = [toy_step1] ++ [toy_step2] ∧
      st.validation_offset ≤ 0 ∧
      st.validation_offset = ([toy_step2].map VStep.validation_delta).sum ∧
      st.validation_offset = -1 / 10 := by
  obtain ⟨st, hmem, hh, ho, -, -⟩ := toy_validated_last_head
  have key := validation_offset_at_loop_head toyWorld toy_validated_script
    (∅ : Finset (String × String)) ∅ ∅ () true 3 10 (1 / 100) toy_tol 2 10 st hmem
  refine ⟨st, hmem, hh, key.1, key.2 [toy_step1] [toy_step2] hh ?_ ?_, ho⟩
  · intro r hr
    simp only [List.getLast?_singleton, Option.mem_def, Option.some.injEq] at hr
    subst hr
    norm_num [toy_step1]
  · intro x hx
    simp only [List.mem_singleton] at hx
    subst hx
    norm_num [toy_step2]

/-- Witness of C15: at the last loop head of the validated scenario (`patience =
2`) one tolerated step follows the accepted one: `p = 1`, the tabu set holds one
operator, and `p < patience`. -/
theorem patience_counter_at_loop_head_witness :
    ∃ st ∈ toy_validated_heads,
      st.history = [toy_step1] ++ [toy_step2] ∧
      st.p = (([toy_step2] : List (VStep toyWorld)).length : Int) ∧
      (st.tabu_set.card : Int) ≤ st.p ∧
      st.p < 2 := by
  obtain ⟨st, hmem, hh, -, -, -⟩ := toy_validated_last_head
  have key := patience_counter_at_loop_head toyWorld toy_validated_script
    (∅ : Finset (String × String)) ∅ ∅ () true 3 10 (1 / 100) toy_tol 2 10 st hmem
  refine ⟨st, hmem, hh, key.1 [toy_step1] [toy_step2] hh ?_ ?_, key.2.2.1,
    key.2.2.2 (by decide)⟩
  · intro r hr
    simp only [List.getLast?_singleton, Option.mem_def, Option.some.injEq] at hr
    subst hr
    norm_num [toy_step1]
  · intro x hx
    simp only [List.mem_singleton] at hx
    subst hx
    norm_num [toy_step2]

/-! ## Termination and iteration budget -/

/-- Loop invariant behind C16 for the validated loop: at most one operator is
applied per iteration, and at most `max_iters` iterations are started. -/
theorem validation_hc_loop_budget (W : World) (callback : Bool) (max_iters : Int)
    (epsilon machine_tol : ℚ) (patience : Int) (st0 : VState W)
    (h1 : st0.iter = ((applied_ops st0.trace).length : Int))
    (h2 : (find_max_results st0.trace).length = (applied_ops st0.trace).length)
    (h3 : (applied_ops st0.trace).length ≤ max_iters.toNat)
    (fuel : Nat) (hfuel : (max_iters - st0.iter).toNat ≤ fuel) :
    let res := validation_hc_loop W callback max_iters epsilon machine_tol patience fuel st0
    (applied_ops res.2.trace).length ≤ max_iters.toNat ∧
    (find_max_results res.2.trace).length ≤ max_iters.toNat := by
  refine validation_hc_loop_rule W callback max_iters epsilon machine_tol patience
    (fun st => st.iter = ((applied_ops st.trace).length : Int) ∧
      (find_max_results st.trace).length = (applied_ops st.trace).length ∧
      (applied_ops st.trace).length ≤ max_iters.toNat)
    (fun _ st => (applied_ops st.trace).length ≤ max_iters.toNat ∧
      (find_max_results st.trace).length ≤ max_iters.toNat)
    ?_ ?_ ?_ ?_ fuel st0 hfuel ⟨h1, h2, h3⟩
  · rintro st ⟨i1, i2, i3⟩ _
    exact ⟨i3, by omega⟩
  · rintro st st' ⟨i1, i2, i3⟩ hlt hb
    rcases validation_hc_body_cases W callback epsilon machine_tol patience st with
      ⟨-, hb'⟩ | ⟨_, _, -, -, -, hb'⟩ | ⟨op, vd, cache, -, -, -, -, hb'⟩ |
      ⟨_, _, _, -, -, -, -, -, hb'⟩ | ⟨op, vd, cache, -, -, -, -, -, hb'⟩ <;>
      rw [hb'] at hb <;> cases hb <;>
    · refine ⟨?_, ?_, ?_⟩
      · cases callback <;> simp [applied_ops, List.filterMap_append] at i1 ⊢ <;> omega
      · cases callback <;>
          simp [applied_ops, find_max_results, List.filterMap_append] at i2 ⊢ <;> omega
      · cases callback <;> simp [applied_ops, List.filterMap_append] at i1 i3 ⊢ <;> omega
  · rintro st st' ⟨i1, i2, i3⟩ hlt hb
    rcases validation_hc_body_cases W callback epsilon machine_tol patience st with
      ⟨-, hb'⟩ | ⟨_, _, -, -, -, hb'⟩ | ⟨op, vd, cache, -, -, -, -, hb'⟩ |
      ⟨op, vd, cache, -, -, -, -, -, hb'⟩ | ⟨op, vd, cache, -, -, -, -, -, hb'⟩ <;>
      rw [hb'] at hb <;> cases hb
    · simp only [applied_ops_append, find_max_results_append, List.length_append]
      simp only [applied_ops, find_max_results, List.filterMap_cons, List.filterMap_nil,
        List.length_nil, List.length_cons]
      simp only [applied_ops, find_max_results] at i1 i2 i3
      omega
    · simp only [applied_ops_append, find_max_results_append, List.length_append]
      simp only [applied_ops, find_max_results, List.filterMap_cons, List.filterMap_nil,
        List.length_nil, List.length_cons]
      simp only [applied_ops, find_max_results] at i1 i2 i3
      omega
  · rintro st st' e ⟨i1, i2, i3⟩ hlt hb
    rcases validation_hc_body_cases W callback epsilon machine_tol patience st with
      ⟨-, hb'⟩ | ⟨_, _, -, -, -, hb'⟩ | ⟨op, vd, cache, -, -, -, -, hb'⟩ |
      ⟨op, vd, cache, -, -, -, -, -, hb'⟩ | ⟨op, vd, cache, -, -, -, -, -, hb'⟩ <;>
      rw [hb'] at hb <;> cases hb
    simp only [applied_ops_append, find_max_results_append, List.length_append]
    simp only [applied_ops, find_max_results, List.filterMap_cons, List.filterMap_nil,
      List.length_nil, List.length_cons]
    simp only [applied_ops, find_max_results] at i1 i2 i3
    omega

/-- C16. For every `max_iters` and every behaviour of the operator set and the
score, the loops of `estimate_hc` and `estimate_validation_hc` terminate: they
are over after at most `max(max_iters, 0)` iterations (any larger iteration
bound gives the same final state), and the number of operators applied to the
working model is at most `max(max_iters, 0)` in both variants (in the validated
variant the operator applied in the step that exhausts patience is counted),
as is the number of `find_max` calls. -/
theorem loops_terminate_within_budget (W : World) (machine_tol : ℚ) (op_set : W.OperatorSet)
    (start : W.Model) (arc_blacklist arc_whitelist : Finset W.Arc)
    (type_whitelist : W.FactorStringTypeVector) (callback : Bool)
    (max_indegree max_iters : Int) (epsilon : ℚ) (patience : Int) :
    (∀ fuel, max_iters.toNat ≤ fuel →
      hc_loop W callback max_iters epsilon machine_tol fuel
          (hc_init W op_set start arc_blacklist arc_whitelist callback max_indegree) =
        hc_loop W callback max_iters epsilon machine_tol max_iters.toNat
          (hc_init W op_set start arc_blacklist arc_whitelist callback max_indegree)) ∧
    (∀ fuel, max_iters.toNat ≤ fuel →
      validation_hc_loop W callback max_iters epsilon machine_tol patience fuel
          (validation_hc_init W op_set start arc_blacklist arc_whitelist type_whitelist
            callback max_indegree) =
        validation_hc_loop W callback max_iters epsilon machine_tol patience max_iters.toNat
          (validation_hc_init W op_set start arc_blacklist arc_whitelist type_whitelist
            callback max_indegree)) ∧
    (((applied_ops (estimate_hc W machine_tol op_set start arc_blacklist arc_whitelist
        callback max_indegree max_iters epsilon).trace).length : Int) ≤ max max_iters 0 ∧
      ((find_max_results (estimate_hc W machine_tol op_set start arc_blacklist arc_whitelist
        callback max_indegree max_iters epsilon).trace).length : Int) ≤ max max_iters 0) ∧
    (((applied_ops (estimate_validation_hc W machine_tol op_set start arc_blacklist
        arc_whitelist type_whitelist callback max_indegree max_iters epsilon
        patience).trace).length : Int) ≤ max max_iters 0 ∧
      ((find_max_results (estimate_validation_hc W machine_tol op_set start arc_blacklist
        arc_whitelist type_whitelist callback max_indegree max_iters epsilon
        patience).trace).length : Int) ≤ max max_iters 0) := by
  have hmax : ∀ n : Nat, n ≤ max_iters.toNat → (n : Int) ≤ max max_iters 0 := by
    intro n hn
    have : ((max_iters.toNat : Nat) : Int) = max max_iters 0 := Int.toNat_eq_max max_iters
    omega
  refine ⟨?_, ?_, ?_, ?_⟩
  · intro fuel hfuel
    have h0 : (max_iters - (hc_init W op_set start arc_blacklist arc_whitelist callback
        max_indegree).iter).toNat = max_iters.toNat := by simp [hc_init]
    have := hc_loop_fuel W callback max_iters epsilon machine_tol fuel
      (hc_init W op_set start arc_blacklist arc_whitelist callback max_indegree)
      (by rw [h0]; exact hfuel)
    rw [this, h0]
  · intro fuel hfuel
    have h0 : (max_iters - (validation_hc_init W op_set start arc_blacklist arc_whitelist
        type_whitelist callback max_indegree).iter).toNat = max_iters.toNat := by
      simp [validation_hc_init]
    have := validation_hc_loop_fuel W callback max_iters epsilon machine_tol patience fuel
      (validation_hc_init W op_set start arc_blacklist arc_whitelist type_whitelist callback
        max_indegree)
      (by rw [h0]; exact hfuel)
    rw [this, h0]
  · by_cases h : W.check_blacklist start arc_blacklist = true
    · have hinit_a : applied_ops (hc_init W op_set start arc_blacklist arc_whitelist callback
          max_indegree).trace = [] := by
        cases callback <;> simp [hc_init, call_callback, applied_ops]
      have hinit_f : find_max_results (hc_init W op_set start arc_blacklist arc_whitelist
          callback max_indegree).trace = [] := by
        cases callback <;> simp [hc_init, call_callback, find_max_results]
      have key := hc_loop_applied W callback max_iters epsilon machine_tol
        (W.force_whitelist start arc_whitelist)
        (hc_init W op_set start arc_blacklist arc_whitelist callback max_indegree)
        (by rw [hinit_a]; rfl) (by rw [hinit_a]; simp) (by rw [hinit_a, hinit_f]; rfl)
        (by rw [hinit_a]; rfl) (by rw [hinit_a]; simp) max_iters.toNat
        (by simp [hc_init])
      have ha : ∀ (st : HCState W),
          applied_ops (call_callback callback st.current_model none st.iter st.trace) =
            applied_ops st.trace := by
        intro st; cases callback <;> simp [call_callback, applied_ops, List.filterMap_append]
      have hf : ∀ (st : HCState W),
          find_max_results (call_callback callback st.current_model none st.iter st.trace) =
            find_max_results st.trace := by
        intro st
        cases callback <;> simp [call_callback, find_max_results, List.filterMap_append]
      simp only [estimate_hc, h, if_true, ha, hf]
      rcases key.2.2 with ⟨k1, k2⟩ | ⟨last, k1, k2, -⟩
      · refine ⟨hmax _ (by omega), hmax _ ?_⟩
        rw [k1, List.length_map]; omega
      · refine ⟨hmax _ (by omega), hmax _ ?_⟩
        rw [k1, List.length_append, List.length_map, List.length_singleton]; omega
    · simp [estimate_hc, h, applied_ops, find_max_results]
  · by_cases h : W.check_blacklist start arc_blacklist = true
    · have key := validation_hc_loop_budget W callback max_iters epsilon machine_tol patience
        (validation_hc_init W op_set start arc_blacklist arc_whitelist type_whitelist callback
          max_indegree)
        (by cases callback <;> simp [validation_hc_init, call_callback, applied_ops])
        (by cases callback <;>
              simp [validation_hc_init, call_callback, applied_ops, find_max_results])
        (by cases callback <;> simp [validation_hc_init, call_callback, applied_ops])
        max_iters.toNat (by simp [validation_hc_init])
      have ha : ∀ (st : VState W),
          applied_ops (call_callback callback st.current_model none st.iter st.trace) =
            applied_ops st.trace := by
        intro st; cases callback <;> simp [call_callback, applied_ops, List.filterMap_append]
      have hf : ∀ (st : VState W),
          find_max_results (call_callback callback st.current_model none st.iter st.trace) =
            find_max_results st.trace := by
        intro st
        cases callback <;> simp [call_callback, find_max_results, List.filterMap_append]
      simp only [estimate_validation_hc, h, if_true]
      revert key
      cases validation_hc_loop W callback max_iters epsilon machine_tol patience
        max_iters.toNat
        (validation_hc_init W op_set start arc_blacklist arc_whitelist type_whitelist callback
          max_indegree) with
      | mk err st =>
        intro key
        cases err with
        | none =>
          simp only [ha, hf]
          exact ⟨hmax _ key.1, hmax _ key.2⟩
        | some e => exact ⟨hmax _ key.1, hmax _ key.2⟩
    · simp [estimate_validation_hc, h, applied_ops, find_max_results]

/-- Witness of C16: in the validated scenario (`max_iters = 10`) three operators
are applied, the last one in the step that exhausts patience; with
`max_iters = 2` on the same inputs, two. -/
theorem loops_terminate_within_budget_witness :
    (10 : Int).toNat ≤ 25 ∧
    validation_hc_loop toyWorld true 10 (1 / 100) toy_tol 2 25
        (validation_hc_init toyWorld toy_validated_script (∅ : Finset (String × String))
          ∅ ∅ () true 3) =
      validation_hc_loop toyWorld true 10 (1 / 100) toy_tol 2 (10 : Int).toNat
        (validation_hc_init toyWorld toy_validated_script (∅ : Finset (String × String))
          ∅ ∅ () true 3) ∧
    ((applied_ops toy_validated_run.trace).length : Int) ≤ max 10 0 ∧
    (applied_ops toy_validated_run.trace).length = 3 ∧
    (applied_ops (estimate_validation_hc toyWorld toy_tol toy_validated_script
      (∅ : Finset (String × String)) ∅ ∅ () true 3 2 (1 / 100) 2).trace).length = 2 :=
  ⟨by decide,
   (loops_terminate_within_budget toyWorld toy_tol toy_validated_script
     (∅ : Finset (String × String)) ∅ ∅ () true 3 10 (1 / 100) 2).2.1 25 (by decide),
   (loops_terminate_within_budget toyWorld toy_tol toy_validated_script
     (∅ : Finset (String × String)) ∅ ∅ () true 3 10 (1 / 100) 2).2.2.2.1,
   by decide!, by decide!⟩

/-! ## Patience at most 1 -/

/-- With the counter at 0, the loop body behaves for every `patience <= 1` as it
does for `patience = 1`: the test `++p >= patience` succeeds. -/
theorem validation_hc_body_patience_le_one (W : World) (callback : Bool)
    (epsilon machine_tol : ℚ) (p0 : Int) (hp0 : p0 ≤ 1) (st : VState W) (hp : st.p = 0) :
    validation_hc_body W callback epsilon machine_tol p0 st =
      validation_hc_body W callback epsilon machine_tol 1 st := by
  have h1 : st.p + 1 ≥ p0 := by omega
  have h2 : st.p + 1 ≥ 1 := by omega
  unfold validation_hc_body
  simp only [h1, h2, if_true]

/-- A full execution of the body with `patience = 1` leaves the counter at 0. -/
theorem validation_hc_body_patience_one_next (W : World) (callback : Bool)
    (epsilon machine_tol : ℚ) (st st' : VState W) (hp : st.p = 0)
    (hb : validation_hc_body W callback epsilon machine_tol 1 st = VLoopStep.next st') :
    st'.p = 0 := by
  rcases validation_hc_body_cases W callback epsilon machine_tol 1 st with
    ⟨-, hb'⟩ | ⟨_, _, -, -, -, hb'⟩ | ⟨op, vd, cache, -, -, -, -, hb'⟩ |
    ⟨_, _, _, -, -, -, -, -, hb'⟩ | ⟨op, vd, cache, -, -, -, -, hpat, hb'⟩ <;>
    rw [hb'] at hb <;> cases hb
  · rfl
  · exact absurd (by omega) hpat

theorem validation_hc_loop_patience_le_one (W : World) (callback : Bool) (max_iters : Int)
    (epsilon machine_tol : ℚ) (p0 : Int) (hp0 : p0 ≤ 1) :
    ∀ (fuel : Nat) (st : VState W), st.p = 0 →
      validation_hc_loop W callback max_iters epsilon machine_tol p0 fuel st =
        validation_hc_loop W callback max_iters epsilon machine_tol 1 fuel st := by
  intro fuel
  induction fuel with
  | zero => intro st _; rfl
  | succ n ih =>
    intro st hp
    simp only [validation_hc_loop]
    by_cases hlt : st.iter < max_iters
    · simp only [hlt, if_true,
        validation_hc_body_patience_le_one W callback epsilon machine_tol p0 hp0 st hp]
      cases hb : validation_hc_body W callback epsilon machine_tol 1 st with
      | next st' =>
        exact ih st' (validation_hc_body_patience_one_next W callback epsilon machine_tol
          st st' hp hb)
      | stop st' => rfl
      | raise e st' => rfl
    · simp only [hlt, if_false]

/-- C19. For every input, `estimate_validation_hc` with `patience = p0`, for any
`p0 <= 1` (0 and negative values included), returns the same model as with
`patience = 1` (the whole outcome is the same: returned model or exception,
operator set, calls made, log of steps), and the run stops at the first
tolerated step: a tolerated step is the last step of the log. -/
theorem patience_at_most_one (W : World) (machine_tol : ℚ) (op_set : W.OperatorSet)
    (start : W.Model) (arc_blacklist arc_whitelist : Finset W.Arc)
    (type_whitelist : W.FactorStringTypeVector) (callback : Bool)
    (max_indegree max_iters : Int) (epsilon : ℚ) (p0 : Int) (hp0 : p0 ≤ 1) :
    estimate_validation_hc W machine_tol op_set start arc_blacklist arc_whitelist
        type_whitelist callback max_indegree max_iters epsilon p0 =
      estimate_validation_hc W machine_tol op_set start arc_blacklist arc_whitelist
        type_whitelist callback max_indegree max_iters epsilon 1 ∧
    ∀ pre r post,
      (estimate_validation_hc W machine_tol op_set start arc_blacklist arc_whitelist
        type_whitelist callback max_indegree max_iters epsilon p0).history =
          pre ++ r :: post →
      ¬ (r.validation_delta + r.offset_before > 0) → post = [] := by
  have heq : estimate_validation_hc W machine_tol op_set start arc_blacklist arc_whitelist
        type_whitelist callback max_indegree max_iters epsilon p0 =
      estimate_validation_hc W machine_tol op_set start arc_blacklist arc_whitelist
        type_whitelist callback max_indegree max_iters epsilon 1 := by
    simp only [estimate_validation_hc]
    rw [validation_hc_loop_patience_le_one W callback max_iters epsilon machine_tol p0 hp0
      max_iters.toNat _ (by simp [validation_hc_init])]
  refine ⟨heq, ?_⟩
  rw [heq]
  intro pre r post hh hr
  by_cases h : W.check_blacklist start arc_blacklist = true
  · have key := validation_hc_loop_patience W callback max_iters epsilon machine_tol 1
      (le_refl 1)
      (validation_hc_init W op_set start arc_blacklist arc_whitelist type_whitelist callback
        max_indegree)
      (by simp [validation_hc_init, trailing_tolerated])
      (by simp [validation_hc_init])
      (by
        intro pre' suf heq' hne
        simp only [validation_hc_init] at heq'
        have : pre' = [] := by
          cases pre' with
          | nil => rfl
          | cons a l => simp at heq'
        subst this
        simp [trailing_tolerated])
      (by cases callback <;> simp [validation_hc_init, call_callback, find_max_results])
      (by cases callback <;> simp [validation_hc_init, call_callback, applied_ops])
      max_iters.toNat (by simp [validation_hc_init])
    simp only [estimate_validation_hc, h, if_true] at hh
    revert key hh
    cases validation_hc_loop W callback max_iters epsilon machine_tol 1 max_iters.toNat
      (validation_hc_init W op_set start arc_blacklist arc_whitelist type_whitelist callback
        max_indegree) with
    | mk err st =>
      intro key hh
      have hsth : st.history = pre ++ r :: post := by
        cases err <;> exact hh
      by_contra hne
      have hpat := key.1 (pre ++ [r]) post (by rw [hsth]; simp) hne
      rw [trailing_tolerated_snoc] at hpat
      have hr' : r.accepted = false := by simpa [VStep.accepted] using hr
      rw [hr'] at hpat
      simp at hpat
      omega
  · simp [estimate_validation_hc, h] at hh

/-- Witness of C19: the validated scenario run with `patience = -3` and with
`patience = 1` stops at the first tolerated step and returns the model of the
accepted step. -/
theorem patience_at_most_one_witness :
    (-3 : Int) ≤ 1 ∧
    estimate_validation_hc toyWorld toy_tol toy_validated_script
        (∅ : Finset (String × String)) ∅ ∅ () true 3 10 (1 / 100) (-3) =
      estimate_validation_hc toyWorld toy_tol toy_validated_script
        (∅ : Finset (String × String)) ∅ ∅ () true 3 10 (1 / 100) 1 ∧
    (estimate_validation_hc toyWorld toy_tol toy_validated_script
        (∅ : Finset (String × String)) ∅ ∅ () true 3 10 (1 / 100) (-3)).returned.toOption =
      some ({("A", "B")} : Finset (String × String)) ∧
    (applied_ops (estimate_validation_hc toyWorld toy_tol toy_validated_script
        (∅ : Finset (String × String)) ∅ ∅ () true 3 10 (1 / 100) (-3)).trace).length = 2 :=
  ⟨by decide,
   (patience_at_most_one toyWorld toy_tol toy_validated_script
     (∅ : Finset (String × String)) ∅ ∅ () true 3 10 (1 / 100) (-3) (by decide)).1,
   by decide!, by decide!⟩

/-! ## Callback and `update_scores` -/

theorem last_step_exhausts_snoc {W : World} (patience : Int) (h : List (VStep W))
    (r : VStep W) :
    last_step_exhausts patience (h ++ [r]) =
      (!r.accepted && decide (patience ≤ (trailing_tolerated (h ++ [r]) : Int))) := by
  simp [last_step_exhausts]

theorem step_calls_append {W : World} (a b : List (Event W)) :
    step_calls (a ++ b) = step_calls a ++ step_calls b := by
  simp [step_calls, List.filterMap_append]

theorem callback_calls_append {W : World} (a b : List (Event W)) :
    callback_calls (a ++ b) = callback_calls a ++ callback_calls b := by
  simp [callback_calls, List.filterMap_append]

theorem updated_ops_append {W : World} (a b : List (Event W)) :
    updated_ops (a ++ b) = updated_ops a ++ updated_ops b := by
  simp [updated_ops, List.filterMap_append]

theorem reported_ops_append {W : World} (a b : List (Event W)) :
    reported_ops (a ++ b) = reported_ops a ++ reported_ops b := by
  simp [reported_ops, callback_calls_append, List.filterMap_append]

/-- Loop invariant behind C13. -/
theorem validation_hc_loop_step_calls (W : World) (callback : Bool) (max_iters : Int)
    (epsilon machine_tol : ℚ) (patience : Int) (st0 : VState W)
    (h1 : step_calls st0.trace = (st0.history.map VStep.op).flatMap (full_step callback))
    (h2 : last_step_exhausts patience st0.history = false)
    (h3 : st0.p = (trailing_tolerated st0.history : Int))
    (h4 : (callback_calls st0.trace).map Prod.fst =
      if callback then none :: (reported_ops st0.trace).map some else [])
    (fuel : Nat) (hfuel : (max_iters - st0.iter).toNat ≤ fuel) :
    let res := validation_hc_loop W callback max_iters epsilon machine_tol patience fuel st0
    res.1 = none →
      (last_step_exhausts patience res.2.history = false →
        step_calls res.2.trace = (res.2.history.map VStep.op).flatMap (full_step callback)) ∧
      (last_step_exhausts patience res.2.history = true →
        ∃ pre r, res.2.history = pre ++ [r] ∧
          step_calls res.2.trace =
            (pre.map VStep.op).flatMap (full_step callback) ++ [StepCall.applied r.op]) ∧
      (callback_calls res.2.trace).map Prod.fst =
        if callback then none :: (reported_ops res.2.trace).map some else [] := by
  refine validation_hc_loop_rule W callback max_iters epsilon machine_tol patience
    (fun st => step_calls st.trace = (st.history.map VStep.op).flatMap (full_step callback) ∧
      last_step_exhausts patience st.history = false ∧
      st.p = (trailing_tolerated st.history : Int) ∧
      (callback_calls st.trace).map Prod.fst =
        if callback then none :: (reported_ops st.trace).map some else [])
    (fun err st => err = none →
      (last_step_exhausts patience st.history = false →
        step_calls st.trace = (st.history.map VStep.op).flatMap (full_step callback)) ∧
      (last_step_exhausts patience st.history = true →
        ∃ pre r, st.history = pre ++ [r] ∧
          step_calls st.trace =
            (pre.map VStep.op).flatMap (full_step callback) ++ [StepCall.applied r.op]) ∧
      (callback_calls st.trace).map Prod.fst =
        if callback then none :: (reported_ops st.trace).map some else [])
    ?_ ?_ ?_ ?_ fuel st0 hfuel ⟨h1, h2, h3, h4⟩
  · rintro st ⟨i1, i2, i3, i4⟩ _ _
    exact ⟨fun _ => i1, fun h => (by rw [i2] at h; cases h), i4⟩
  · rintro st st' ⟨i1, i2, i3, i4⟩ hlt hb
    rcases validation_hc_body_cases W callback epsilon machine_tol patience st with
      ⟨-, hb'⟩ | ⟨_, _, -, -, -, hb'⟩ | ⟨op, vd, cache, -, -, -, hacc, hb'⟩ |
      ⟨_, _, _, -, -, -, -, -, hb'⟩ | ⟨op, vd, cache, -, -, -, hacc, hp, hb'⟩ <;>
      rw [hb'] at hb <;> cases hb
    · refine ⟨?_, ?_, ?_, ?_⟩
      · simp only [step_calls_append, i1, List.map_append, List.flatMap_append]
        cases callback <;> simp [step_calls, full_step]
      · simp [last_step_exhausts_snoc, VStep.accepted, hacc]
      · simp [trailing_tolerated_snoc, VStep.accepted, hacc]
      · simp only [callback_calls_append, reported_ops_append, List.map_append, i4]
        cases callback <;> simp [callback_calls, reported_ops]
    · refine ⟨?_, ?_, ?_, ?_⟩
      · simp only [step_calls_append, i1, List.map_append, List.flatMap_append]
        cases callback <;> simp [step_calls, full_step]
      · simp only [last_step_exhausts_snoc, trailing_tolerated_snoc]
        simp only [VStep.accepted, hacc, decide_False, Bool.not_false, Bool.true_and,
          decide_eq_false_iff_not, Bool.false_eq_true, if_false]
        push_cast
        omega
      · simp [trailing_tolerated_snoc, VStep.accepted, hacc, i3]
      · simp only [callback_calls_append, reported_ops_append, List.map_append, i4]
        cases callback <;> simp [callback_calls, reported_ops]
  · rintro st st' ⟨i1, i2, i3, i4⟩ hlt hb _
    rcases validation_hc_body_cases W callback epsilon machine_tol patience st with
      ⟨-, hb'⟩ | ⟨_, _, -, -, -, hb'⟩ | ⟨op, vd, cache, -, -, -, hacc, hb'⟩ |
      ⟨op, vd, cache, -, -, -, hacc, hp, hb'⟩ | ⟨op, vd, cache, -, -, -, hacc, -, hb'⟩ <;>
      rw [hb'] at hb <;> cases hb
    · refine ⟨fun _ => ?_, fun h => ?_, ?_⟩
      · simp only [step_calls_append, i1]
        simp [step_calls]
      · simp only at h
        rw [i2] at h; cases h
      · simp only [callback_calls_append, reported_ops_append, List.map_append, i4]
        cases callback <;> simp [callback_calls, reported_ops]
    · have hexh : last_step_exhausts patience (st.history ++
          [{ op := op, model_before := st.current_model,
             model_after := W.apply op st.current_model,
             validation_delta := vd, offset_before := st.validation_offset }]) = true := by
        simp only [last_step_exhausts_snoc, trailing_tolerated_snoc]
        simp only [VStep.accepted, hacc, decide_False, Bool.not_false, Bool.true_and,
          decide_eq_true_eq, Bool.false_eq_true, if_false]
        push_cast
        omega
      refine ⟨fun h => ?_, fun _ => ⟨st.history, _, rfl, ?_⟩, ?_⟩
      · simp only at h
        rw [hexh] at h; cases h
      · simp only [step_calls_append, i1]
        simp [step_calls]
      · simp only [callback_calls_append, reported_ops_append, List.map_append, i4]
        cases callback <;> simp [callback_calls, reported_ops]
  · rintro st st' e _ _ _ he
    cases he

/-- C13, as amended.  In a run of `estimate_validation_hc` that returns
normally, every operator applied to the working model in a step that does not
exhaust patience (an accepted step, or a tolerated step that leaves the counter
below `patience`) is followed by the callback (when present) invoked with that
operator and then by `update_scores` for that operator; for the operator applied
in the tolerated step at which patience reaches its limit, neither call is made.
In addition the callback, when present, is invoked with a null operator once
before all these calls and once after them. -/
theorem validation_hc_step_calls (W : World) (machine_tol : ℚ)
    (op_set : W.OperatorSet) (start : W.Model) (arc_blacklist arc_whitelist : Finset W.Arc)
    (type_whitelist : W.FactorStringTypeVector) (callback : Bool)
    (max_indegree max_iters : Int) (epsilon : ℚ) (patience : Int) (m : W.Model)
    (hret : (estimate_validation_hc W machine_tol op_set start arc_blacklist arc_whitelist
      type_whitelist callback max_indegree max_iters epsilon patience).returned = Except.ok m) :
    let out := estimate_validation_hc W machine_tol op_set start arc_blacklist arc_whitelist
      type_whitelist callback max_indegree max_iters epsilon patience
    (last_step_exhausts patience out.history = false →
      step_calls out.trace = (out.history.map VStep.op).flatMap (full_step callback)) ∧
    (last_step_exhausts patience out.history = true →
      ∃ pre r, out.history = pre ++ [r] ∧
        step_calls out.trace =
          (pre.map VStep.op).flatMap (full_step callback) ++ [StepCall.applied r.op]) ∧
    (callback_calls out.trace).map Prod.fst =
      if callback then none :: (reported_ops out.trace).map some ++ [none] else [] := by
  intro out
  by_cases h : W.check_blacklist start arc_blacklist = true
  · have key := validation_hc_loop_step_calls W callback max_iters epsilon machine_tol patience
      (validation_hc_init W op_set start arc_blacklist arc_whitelist type_whitelist callback
        max_indegree)
      (by cases callback <;> simp [validation_hc_init, call_callback, step_calls])
      (by simp [validation_hc_init, last_step_exhausts])
      (by simp [validation_hc_init, trailing_tolerated])
      (by cases callback <;>
            simp [validation_hc_init, call_callback, callback_calls, reported_ops])
      max_iters.toNat (by simp [validation_hc_init])
    have hs : ∀ (st : VState W),
        step_calls (call_callback callback st.current_model none st.iter st.trace) =
          step_calls st.trace := by
      intro st; cases callback <;> simp [call_callback, step_calls, List.filterMap_append]
    simp only [out, estimate_validation_hc, h, if_true] at hret ⊢
    revert key hret
    cases validation_hc_loop W callback max_iters epsilon machine_tol patience max_iters.toNat
      (validation_hc_init W op_set start arc_blacklist arc_whitelist type_whitelist callback
        max_indegree) with
    | mk err st =>
      cases err with
      | none =>
        intro key _
        obtain ⟨k1, k2, k3⟩ := key rfl
        simp only [hs]
        refine ⟨k1, k2, ?_⟩
        cases callback with
        | false => simpa [call_callback] using k3
        | true =>
          have e1 : callback_calls [Event.callback st.current_model none st.iter] =
              [((none : Option W.Operator), st.iter)] := rfl
          have e2 : reported_ops [Event.callback st.current_model none st.iter] = [] := rfl
          simp only [if_true] at k3
          simp only [call_callback, if_true, callback_calls_append, reported_ops_append,
            List.map_append, e1, e2, k3]
          simp
      | some e =>
        intro _ hret
        cases hret
  · simp [out, estimate_validation_hc, h] at hret

/-- C13, counterexample.  In the validated scenario the operator add `A -> C` is
applied to the working model (in the tolerated step at which patience reaches
its limit), but `update_scores` is never called for it and the callback is never
invoked with it. -/
theorem validation_hc_exhausting_step_not_reported :
    toyAdd "A" "C" 1 (-1 / 10) ∈ applied_ops toy_validated_run.trace ∧
    toyAdd "A" "C" 1 (-1 / 10) ∉ updated_ops toy_validated_run.trace ∧
    toyAdd "A" "C" 1 (-1 / 10) ∉ reported_ops toy_validated_run.trace := by
  refine ⟨?_, ?_, ?_⟩ <;> decide!

/-- Witness of C13 as amended: in the validated scenario the third step exhausts
patience; the calls for the first two operators are complete, the third operator
is only applied. -/
theorem validation_hc_step_calls_witness :
    toy_validated_run.returned = Except.ok ({("A", "B")} : Finset (String × String)) ∧
    last_step_exhausts 2 toy_validated_run.history = true ∧
    (∃ pre r, toy_validated_run.history = pre ++ [r] ∧
      step_calls toy_validated_run.trace =
        (pre.map VStep.op).flatMap (full_step true) ++ [StepCall.applied r.op]) ∧
    applied_ops toy_validated_run.trace =
      [toyAdd "A" "B" 2 (3 / 10), toyAdd "B" "C" (3 / 2) (-1 / 10),
       toyAdd "A" "C" 1 (-1 / 10)] ∧
    updated_ops toy_validated_run.trace =
      [toyAdd "A" "B" 2 (3 / 10), toyAdd "B" "C" (3 / 2) (-1 / 10)] ∧
    (callback_calls toy_validated_run.trace).map Prod.fst =
      [none, some (toyAdd "A" "B" 2 (3 / 10)), some (toyAdd "B" "C" (3 / 2) (-1 / 10)),
       none] := by
  have hexh : last_step_exhausts 2 toy_validated_run.history = true := by
    rw [toy_validated_run_history]
    decide!
  exact ⟨toy_validated_run_returned, hexh,
    (validation_hc_step_calls toyWorld toy_tol toy_validated_script
      (∅ : Finset (String × String)) ∅ ∅ () true 3 10 (1 / 100) 2 {("A", "B")}
      toy_validated_run_returned).2.1 hexh,
    by decide!, by decide!, by decide!⟩

/-! ## Iteration indices passed to the callback -/

/-- Loop invariant behind C18 for `estimate_hc`. -/
theorem hc_loop_callback_calls (W : World) (max_iters : Int) (epsilon machine_tol : ℚ)
    (st0 : HCState W)
    (h1 : callback_calls st0.trace = (none, 0) ::
      ((applied_ops st0.trace).enumFrom 1).map (fun x => (some x.2, (x.1 : Int))))
    (h2 : st0.iter = ((applied_ops st0.trace).length : Int))
    (fuel : Nat) (hfuel : (max_iters - st0.iter).toNat ≤ fuel) :
    let st := hc_loop W true max_iters epsilon machine_tol fuel st0
    callback_calls st.trace = (none, 0) ::
      ((applied_ops st.trace).enumFrom 1).map (fun x => (some x.2, (x.1 : Int))) ∧
    st.iter = ((applied_ops st.trace).length : Int) := by
  refine hc_loop_rule W true max_iters epsilon machine_tol
    (fun st => callback_calls st.trace = (none, 0) ::
        ((applied_ops st.trace).enumFrom 1).map (fun x => (some x.2, (x.1 : Int))) ∧
      st.iter = ((applied_ops st.trace).length : Int))
    (fun st => callback_calls st.trace = (none, 0) ::
        ((applied_ops st.trace).enumFrom 1).map (fun x => (some x.2, (x.1 : Int))) ∧
      st.iter = ((applied_ops st.trace).length : Int))
    ?_ ?_ ?_ fuel st0 hfuel ⟨h1, h2⟩
  · intro st hinv _
    exact hinv
  · rintro st st' ⟨i1, i2⟩ hlt hb
    obtain ⟨op, -, -, -, hit, -, htr⟩ := hc_body_next hb
    have ha : applied_ops st'.trace = applied_ops st.trace ++ [op] := by
      rw [htr]; simp [applied_ops, List.filterMap_append]
    have hc : callback_calls st'.trace = callback_calls st.trace ++
        [(some op, st.iter + 1)] := by
      rw [htr]; simp [callback_calls, List.filterMap_append]
    refine ⟨?_, ?_⟩
    · rw [hc, ha, i1, List.enumFrom_append, List.map_append, List.enumFrom_singleton, i2]
      simp
      omega
    · rw [hit, ha, i2]; simp
  · rintro st st' ⟨i1, i2⟩ hlt hb
    obtain ⟨-, hit, -, htr, -⟩ := hc_body_stop hb
    have ha : applied_ops st'.trace = applied_ops st.trace := by
      rw [htr]; simp [applied_ops, List.filterMap_append]
    have hc : callback_calls st'.trace = callback_calls st.trace := by
      rw [htr]; simp [callback_calls, List.filterMap_append]
    exact ⟨by rw [hc, ha, i1], by rw [hit, ha, i2]⟩

/-- Loop invariant behind C18 for `estimate_validation_hc`. -/
theorem validation_hc_loop_callback_calls (W : World) (max_iters : Int)
    (epsilon machine_tol : ℚ) (patience : Int) (st0 : VState W)
    (h1 : callback_calls st0.trace = (none, 0) ::
      ((updated_ops st0.trace).enumFrom 0).map (fun x => (some x.2, (x.1 : Int))))
    (h2 : st0.iter = ((updated_ops st0.trace).length : Int))
    (h3 : applied_ops st0.trace = updated_ops st0.trace)
    (fuel : Nat) (hfuel : (max_iters - st0.iter).toNat ≤ fuel) :
    let res := validation_hc_loop W true max_iters epsilon machine_tol patience fuel st0
    callback_calls res.2.trace = (none, 0) ::
      ((updated_ops res.2.trace).enumFrom 0).map (fun x => (some x.2, (x.1 : Int))) ∧
    res.2.iter = ((updated_ops res.2.trace).length : Int) ∧
    ∃ rest, applied_ops res.2.trace = updated_ops res.2.trace ++ rest ∧ rest.length ≤ 1 := by
  refine validation_hc_loop_rule W true max_iters epsilon machine_tol patience
    (fun st => callback_calls st.trace = (none, 0) ::
        ((updated_ops st.trace).enumFrom 0).map (fun x => (some x.2, (x.1 : Int))) ∧
      st.iter = ((updated_ops st.trace).length : Int) ∧
      applied_ops st.trace = updated_ops st.trace)
    (fun _ st => callback_calls st.trace = (none, 0) ::
        ((updated_ops st.trace).enumFrom 0).map (fun x => (some x.2, (x.1 : Int))) ∧
      st.iter = ((updated_ops st.trace).length : Int) ∧
      ∃ rest, applied_ops st.trace = updated_ops st.trace ++ rest ∧ rest.length ≤ 1)
    ?_ ?_ ?_ ?_ fuel st0 hfuel ⟨h1, h2, h3⟩
  · rintro st ⟨i1, i2, i3⟩ _
    exact ⟨i1, i2, [], by simpa using i3, by simp⟩
  · rintro st st' ⟨i1, i2, i3⟩ hlt hb
    rcases validation_hc_body_cases W true epsilon machine_tol patience st with
      ⟨-, hb'⟩ | ⟨_, _, -, -, -, hb'⟩ | ⟨op, vd, cache, -, -, -, -, hb'⟩ |
      ⟨_, _, _, -, -, -, -, -, hb'⟩ | ⟨op, vd, cache, -, -, -, -, -, hb'⟩ <;>
      rw [hb'] at hb <;> cases hb <;>
    · simp only [callback_calls_append, updated_ops_append, applied_ops_append, i1, i3,
        List.enumFrom_append, List.map_append]
      refine ⟨?_, ?_, ?_⟩
      · simp [callback_calls, updated_ops, i2]
      · simp [updated_ops, i2]
      · simp [applied_ops, updated_ops]
  · rintro st st' ⟨i1, i2, i3⟩ hlt hb
    rcases validation_hc_body_cases W true epsilon machine_tol patience st with
      ⟨-, hb'⟩ | ⟨_, _, -, -, -, hb'⟩ | ⟨op, vd, cache, -, -, -, -, hb'⟩ |
      ⟨op, vd, cache, -, -, -, -, -, hb'⟩ | ⟨op, vd, cache, -, -, -, -, -, hb'⟩ <;>
      rw [hb'] at hb <;> cases hb
    · simp only [callback_calls_append, updated_ops_append, applied_ops_append, i1, i3]
      refine ⟨by simp [callback_calls, updated_ops], by simp [updated_ops, i2], [], ?_, by simp⟩
      simp [applied_ops, updated_ops]
    · simp only [callback_calls_append, updated_ops_append, applied_ops_append, i1, i3]
      refine ⟨by simp [callback_calls, updated_ops], by simp [updated_ops, i2], [op], ?_,
        by simp⟩
      simp [applied_ops, updated_ops]
  · rintro st st' e ⟨i1, i2, i3⟩ hlt hb
    rcases validation_hc_body_cases W true epsilon machine_tol patience st with
      ⟨-, hb'⟩ | ⟨op, _, -, -, -, hb'⟩ | ⟨op, vd, cache, -, -, -, -, hb'⟩ |
      ⟨op, vd, cache, -, -, -, -, -, hb'⟩ | ⟨op, vd, cache, -, -, -, -, -, hb'⟩ <;>
      rw [hb'] at hb <;> cases hb
    simp only [callback_calls_append, updated_ops_append, applied_ops_append, i1, i3]
    refine ⟨by simp [callback_calls, updated_ops], by simp [updated_ops, i2], [op], ?_,
      by simp⟩
    simp [applied_ops, updated_ops]

/-- C18. With a callback present, the iteration indices passed to the callback
are: in `estimate_hc`, 0 at entry, `k` after the `k`-th applied operator
(`k = 1..n`) and `n` at exit; in `estimate_validation_hc` (on normal return), 0 at
entry, `k - 1` with the `k`-th reported operator and, at exit, the final value
`n` of the iteration counter, where the reported operators are the applied ones
except, possibly, the one applied in a step that leaves the loop.  So the same
step is reported with an index one lower by the validated variant than by the
plain variant. -/
theorem callback_iteration_indices (W : World) (machine_tol : ℚ) (op_set : W.OperatorSet)
    (start : W.Model) (arc_blacklist arc_whitelist : Finset W.Arc)
    (type_whitelist : W.FactorStringTypeVector)
    (max_indegree max_iters : Int) (epsilon : ℚ) (patience : Int)
    (hcheck : W.check_blacklist start arc_blacklist = true) :
    (callback_calls (estimate_hc W machine_tol op_set start arc_blacklist arc_whitelist true
        max_indegree max_iters epsilon).trace =
      (none, 0) ::
        ((applied_ops (estimate_hc W machine_tol op_set start arc_blacklist arc_whitelist true
          max_indegree max_iters epsilon).trace).enumFrom 1).map
            (fun x => (some x.2, (x.1 : Int))) ++
        [(none, ((applied_ops (estimate_hc W machine_tol op_set start arc_blacklist
          arc_whitelist true max_indegree max_iters epsilon).trace).length : Int))]) ∧
    (∀ m, (estimate_validation_hc W machine_tol op_set start arc_blacklist arc_whitelist
        type_whitelist true max_indegree max_iters epsilon patience).returned = Except.ok m →
      callback_calls (estimate_validation_hc W machine_tol op_set start arc_blacklist
          arc_whitelist type_whitelist true max_indegree max_iters epsilon patience).trace =
        (none, 0) ::
          ((updated_ops (estimate_validation_hc W machine_tol op_set start arc_blacklist
            arc_whitelist type_whitelist true max_indegree max_iters epsilon
            patience).trace).enumFrom 0).map (fun x => (some x.2, (x.1 : Int))) ++
          [(none, ((updated_ops (estimate_validation_hc W machine_tol op_set start
            arc_blacklist arc_whitelist type_whitelist true max_indegree max_iters epsilon
            patience).trace).length : Int))] ∧
      ∃ rest, applied_ops (estimate_validation_hc W machine_tol op_set start arc_blacklist
          arc_whitelist type_whitelist true max_indegree max_iters epsilon patience).trace =
        updated_ops (estimate_validation_hc W machine_tol op_set start arc_blacklist
          arc_whitelist type_whitelist true max_indegree max_iters epsilon patience).trace ++
          rest ∧ rest.length ≤ 1) := by
  refine ⟨?_, ?_⟩
  · have key := hc_loop_callback_calls W max_iters epsilon machine_tol
      (hc_init W op_set start arc_blacklist arc_whitelist true max_indegree)
      (by simp [hc_init, call_callback, callback_calls, applied_ops])
      (by simp [hc_init, call_callback, applied_ops])
      max_iters.toNat (by simp [hc_init])
    simp only [estimate_hc, hcheck, if_true, call_callback, callback_calls_append,
      applied_ops_append]
    obtain ⟨k1, k2⟩ := key
    rw [k1, k2]
    simp [callback_calls, applied_ops]
  · intro m hret
    have key := validation_hc_loop_callback_calls W max_iters epsilon machine_tol patience
      (validation_hc_init W op_set start arc_blacklist arc_whitelist type_whitelist true
        max_indegree)
      (by simp [validation_hc_init, call_callback, callback_calls, updated_ops])
      (by simp [validation_hc_init, call_callback, updated_ops])
      (by simp [validation_hc_init, call_callback, updated_ops, applied_ops])
      max_iters.toNat (by simp [validation_hc_init])
    simp only [estimate_validation_hc, hcheck, if_true] at hret ⊢
    revert key hret
    cases validation_hc_loop W true max_iters epsilon machine_tol patience max_iters.toNat
      (validation_hc_init W op_set start arc_blacklist arc_whitelist type_whitelist true
        max_indegree) with
    | mk err st =>
      cases err with
      | none =>
        intro key _
        obtain ⟨k1, k2, rest, k3, k4⟩ := key
        simp only at k1 k2 k3
        simp only [call_callback, if_true, callback_calls_append, applied_ops_append,
          updated_ops_append]
        refine ⟨?_, rest, ?_, k4⟩
        · rw [k1, k2]
          simp [callback_calls, updated_ops]
        · rw [k3]
          simp [applied_ops, updated_ops]
      | some e =>
        intro _ hret
        cases hret

/-- Witness of C18: in the plain scenario the two operators are reported with
indices 1 and 2 and the exit call has index 2; in the validated scenario the
two reported operators have indices 0 and 1 and the exit call has index 2. -/
theorem callback_iteration_indices_witness :
    toyWorld.check_blacklist (∅ : Finset (String × String)) ∅ = true ∧
    callback_calls toy_plain_run.trace =
      (none, 0) ::
        ((applied_ops toy_plain_run.trace).enumFrom 1).map
          (fun x => (some x.2, (x.1 : Int))) ++
        [(none, ((applied_ops toy_plain_run.trace).length : Int))] ∧
    callback_calls toy_plain_run.trace =
      [(none, 0), (some (toyAdd "A" "B" 2 0), 1), (some (toyAdd "B" "C" (3 / 2) 0), 2),
       (none, 2)] ∧
    callback_calls toy_validated_run.trace =
      [(none, 0), (some (toyAdd "A" "B" 2 (3 / 10)), 0),
       (some (toyAdd "B" "C" (3 / 2) (-1 / 10)), 1), (none, 2)] :=
  ⟨by decide,
   (callback_iteration_indices toyWorld toy_tol toy_plain_script
     (∅ : Finset (String × String)) ∅ ∅ () 3 10 (1 / 100) 2 (by decide)).1,
   by decide!, by decide!⟩

/-! ## The validated search when every step is accepted -/

/-- The log of steps only grows along the loop. -/
theorem validation_hc_loop_history_mono (W : World) (callback : Bool) (max_iters : Int)
    (epsilon machine_tol : ℚ) (patience : Int) (r : VStep W) :
    ∀ (fuel : Nat) (st : VState W), r ∈ st.history →
      r ∈ (validation_hc_loop W callback max_iters epsilon machine_tol patience fuel
        st).2.history := by
  intro fuel
  induction fuel with
  | zero => intro st h; exact h
  | succ n ih =>
    intro st h
    simp only [validation_hc_loop]
    by_cases hlt : st.iter < max_iters
    · simp only [hlt, if_true]
      rcases validation_hc_body_cases W callback epsilon machine_tol patience st with
        ⟨-, hb⟩ | ⟨_, _, -, -, -, hb⟩ | ⟨_, _, _, -, -, -, -, hb⟩ |
        ⟨_, _, _, -, -, -, -, -, hb⟩ | ⟨_, _, _, -, -, -, -, -, hb⟩ <;> rw [hb]
      · exact h
      · exact h
      · exact ih _ (by simp [h])
      · simp [h]
      · exact ih _ (by simp [h])
    · simp only [hlt, if_false]
      exact h

/-- Lockstep of the two loops: from states that agree on the working model, the
operator set and the iteration counter, with an empty tabu set and a zero
offset, the validated loop and the plain loop end with the same working model
and the same applied operators, provided the validated loop ends normally and
every validation delta it logs is positive. -/
theorem validation_hc_loop_lockstep (W : World) (callback : Bool) (max_iters : Int)
    (epsilon machine_tol : ℚ) (patience : Int)
    (hfm : ∀ s m, W.find_max_tabu s m ∅ = W.find_max s m) :
    ∀ (fuel : Nat) (hst : HCState W) (vst : VState W),
      hst.current_model = vst.current_model → hst.op_set = vst.op_set →
      hst.iter = vst.iter → vst.tabu_set = ∅ → vst.validation_offset = 0 →
      applied_ops hst.trace = applied_ops vst.trace →
      (vst.history ≠ [] → vst.best_model = vst.current_model) →
      (applied_ops vst.trace).length = vst.history.length →
      (validation_hc_loop W callback max_iters epsilon machine_tol patience fuel vst).1 =
        none →
      (∀ r ∈ (validation_hc_loop W callback max_iters epsilon machine_tol patience fuel
        vst).2.history, r.validation_delta > 0) →
      (hc_loop W callback max_iters epsilon machine_tol fuel hst).current_model =
        (validation_hc_loop W callback max_iters epsilon machine_tol patience fuel
          vst).2.current_model ∧
      applied_ops (hc_loop W callback max_iters epsilon machine_tol fuel hst).trace =
        applied_ops (validation_hc_loop W callback max_iters epsilon machine_tol patience fuel
          vst).2.trace ∧
      ((validation_hc_loop W callback max_iters epsilon machine_tol patience fuel
          vst).2.history ≠ [] →
        (validation_hc_loop W callback max_iters epsilon machine_tol patience fuel
          vst).2.best_model =
        (validation_hc_loop W callback max_iters epsilon machine_tol patience fuel
          vst).2.current_model) ∧
      (applied_ops (validation_hc_loop W callback max_iters epsilon machine_tol patience fuel
          vst).2.trace).length =
        (validation_hc_loop W callback max_iters epsilon machine_tol patience fuel
          vst).2.history.length := by
  intro fuel
  induction fuel with
  | zero =>
    intro hst vst r1 r2 r3 r4 r5 r6 r7 r8 _ _
    exact ⟨r1, r6, r7, r8⟩
  | succ n ih =>
    intro hst vst r1 r2 r3 r4 r5 r6 r7 r8 hnone hpos
    have hfind : W.find_max hst.op_set hst.current_model =
        W.find_max_tabu vst.op_set vst.current_model vst.tabu_set := by
      rw [r1, r2, r4, hfm]
    simp only [validation_hc_loop, hc_loop] at hnone hpos ⊢
    by_cases hlt : vst.iter < max_iters
    · have hlt' : hst.iter < max_iters := by rw [r3]; exact hlt
      simp only [hlt, hlt', if_true] at hnone hpos ⊢
      rcases validation_hc_body_cases W callback epsilon machine_tol patience vst with
        ⟨hc, hb⟩ | ⟨op, e, -, -, -, hb⟩ | ⟨op, vd, cache, h1, h2, -, hacc, hb⟩ |
        ⟨op, vd, cache, -, -, -, hacc, -, hb⟩ | ⟨op, vd, cache, -, -, -, hacc, -, hb⟩
      · rw [hb] at hnone hpos ⊢
        cases hh : hc_body W callback epsilon machine_tol hst with
        | next hst' =>
          obtain ⟨op, g1, g2, -⟩ := hc_body_next hh
          rw [hfind] at g1
          rcases hc with hc | ⟨o, ho, hd⟩
          · rw [hc] at g1; cases g1
          · rw [ho] at g1; cases g1; exact absurd hd g2
        | stop hst' =>
          obtain ⟨g1, -, -, g4, -⟩ := hc_body_stop hh
          dsimp only
          refine ⟨by rw [g1, r1], ?_, r7, ?_⟩
          · rw [g4, applied_ops_append, applied_ops_append, r6]; rfl
          · rw [applied_ops_append, List.length_append, r8]; rfl
      · rw [hb] at hnone
        cases hnone
      · rw [hb] at hnone hpos ⊢
        cases hh : hc_body W callback epsilon machine_tol hst with
        | next hst' =>
          obtain ⟨o, g1, -, g3, g4, g5, g6⟩ := hc_body_next hh
          rw [hfind, h1] at g1
          cases g1
          dsimp only at hnone hpos ⊢
          refine ih hst' _ (by rw [g3, r1]) (by rw [g5, hfind, r1]) (by rw [g4, r3])
            rfl rfl ?_ (fun _ => rfl) ?_ hnone hpos
          · rw [g6, applied_ops_append, applied_ops_append, r6]
            cases callback <;> simp [applied_ops]
          · rw [applied_ops_append, List.length_append, List.length_append, r8]
            cases callback <;> simp [applied_ops]
        | stop hst' =>
          obtain ⟨-, -, -, -, g5⟩ := hc_body_stop hh
          rw [hfind, h1] at g5
          rcases g5 with g5 | ⟨o, ho, hd⟩
          · cases g5
          · cases ho; exact absurd hd h2
      · rw [hb] at hpos
        dsimp only at hpos
        have := hpos _ (List.mem_append_right _ (List.mem_singleton_self _))
        simp only [r5] at this hacc
        exact absurd (by linarith) hacc
      · rw [hb] at hpos
        dsimp only at hpos
        have := hpos _ (validation_hc_loop_history_mono W callback max_iters epsilon
          machine_tol patience _ n _ (List.mem_append_right _ (List.mem_singleton_self _)))
        simp only [r5] at this hacc
        exact absurd (by linarith) hacc
    · have hlt' : ¬ hst.iter < max_iters := by rw [r3]; exact hlt
      simp only [hlt, hlt', if_false]
      exact ⟨r1, r6, r7, r8⟩

/-- C17. If every step's `validation_delta` is `> 0` (so every step is accepted
and no exception occurs), `find_max` with an empty tabu set returns what
`find_max` without a tabu set returns (the candidate, and the operator set is
left in the same state), the type whitelist is empty (setting it on the
operator set and forcing it on the model change nothing), and at least
one operator is applied, then `estimate_validation_hc` applies the same sequence
of operators as `estimate_hc` on the same inputs and returns the same model, for
every value of `patience`. -/
theorem validated_agrees_with_plain (W : World) (machine_tol : ℚ) (op_set : W.OperatorSet)
    (start : W.Model) (arc_blacklist arc_whitelist : Finset W.Arc)
    (type_whitelist : W.FactorStringTypeVector) (callback : Bool)
    (max_indegree max_iters : Int) (epsilon : ℚ) (patience : Int) (m : W.Model)
    (hfm : ∀ s m', W.find_max_tabu s m' ∅ = W.find_max s m')
    (hset : ∀ s, W.set_type_whitelist s type_whitelist = s)
    (hforce : ∀ m', W.force_type_whitelist m' type_whitelist = m')
    (hret : (estimate_validation_hc W machine_tol op_set start arc_blacklist arc_whitelist
      type_whitelist callback max_indegree max_iters epsilon patience).returned = Except.ok m)
    (hpos : ∀ r ∈ (estimate_validation_hc W machine_tol op_set start arc_blacklist
        arc_whitelist type_whitelist callback max_indegree max_iters epsilon patience).history,
      r.validation_delta > 0)
    (hne : applied_ops (estimate_validation_hc W machine_tol op_set start arc_blacklist
        arc_whitelist type_whitelist callback max_indegree max_iters epsilon
        patience).trace ≠ []) :
    applied_ops (estimate_validation_hc W machine_tol op_set start arc_blacklist arc_whitelist
        type_whitelist callback max_indegree max_iters epsilon patience).trace =
      applied_ops (estimate_hc W machine_tol op_set start arc_blacklist arc_whitelist callback
        max_indegree max_iters epsilon).trace ∧
    (estimate_validation_hc W machine_tol op_set start arc_blacklist arc_whitelist
        type_whitelist callback max_indegree max_iters epsilon patience).returned =
      (estimate_hc W machine_tol op_set start arc_blacklist arc_whitelist callback
        max_indegree max_iters epsilon).returned := by
  by_cases h : W.check_blacklist start arc_blacklist = true
  · have hstart : validation_hc_start W start arc_whitelist type_whitelist =
        W.force_whitelist start arc_whitelist := by
      simp only [validation_hc_start, hforce, ite_self]
    have key := validation_hc_loop_lockstep W callback max_iters epsilon machine_tol patience
      hfm max_iters.toNat
      (hc_init W op_set start arc_blacklist arc_whitelist callback max_indegree)
      (validation_hc_init W op_set start arc_blacklist arc_whitelist type_whitelist callback
        max_indegree)
      (by simp [hc_init, validation_hc_init, hstart])
      (by simp [hc_init, validation_hc_init, hstart, hset])
      (by simp [hc_init, validation_hc_init])
      (by simp [validation_hc_init])
      (by simp [validation_hc_init])
      (by cases callback <;> simp [hc_init, validation_hc_init, call_callback, applied_ops])
      (by simp [validation_hc_init])
      (by cases callback <;> simp [validation_hc_init, call_callback, applied_ops])
    have ha : ∀ (st : HCState W),
        applied_ops (call_callback callback st.current_model none st.iter st.trace) =
          applied_ops st.trace := by
      intro st; cases callback <;> simp [call_callback, applied_ops, List.filterMap_append]
    have hv : ∀ (st : VState W),
        applied_ops (call_callback callback st.current_model none st.iter st.trace) =
          applied_ops st.trace := by
      intro st; cases callback <;> simp [call_callback, applied_ops, List.filterMap_append]
    simp only [estimate_validation_hc, estimate_hc, h, if_true] at hret hpos hne ⊢
    revert key hret hpos hne
    cases validation_hc_loop W callback max_iters epsilon machine_tol patience max_iters.toNat
      (validation_hc_init W op_set start arc_blacklist arc_whitelist type_whitelist callback
        max_indegree) with
    | mk err st =>
      cases err with
      | none =>
        intro key _ hpos hne
        simp only [ha, hv] at hne ⊢
        obtain ⟨k1, k2, k3, k4⟩ := key rfl hpos
        simp only at k1 k2 k3 k4
        have hhist : st.history ≠ [] := by
          intro h0
          rw [h0] at k4
          exact hne (List.length_eq_zero.1 k4)
        exact ⟨k2.symm, by rw [k3 hhist, k1]⟩
      | some e =>
        intro _ hret
        cases hret
  · simp [estimate_validation_hc, h] at hret

/-- Witness of C17: two candidates with validation deltas +0.3 and +0.1; the
validated search (with `patience = 0`) and the plain search apply both and
return the network `A -> B`, `B -> C`. -/
theorem validated_agrees_with_plain_witness :
    (∀ r ∈ toy_accepting_run.history, r.validation_delta > 0) ∧
    applied_ops toy_accepting_run.trace ≠ [] ∧
    applied_ops toy_accepting_run.trace = applied_ops toy_accepting_plain_run.trace ∧
    toy_accepting_run.returned = toy_accepting_plain_run.returned ∧
    toy_accepting_run.returned = Except.ok ({("B", "C"), ("A", "B")} : Finset (String × String)) ∧
    applied_ops toy_accepting_run.trace =
      [toyAdd "A" "B" 2 (3 / 10), toyAdd "B" "C" (3 / 2) (1 / 10)] := by
  have hret : toy_accepting_run.returned =
      Except.ok ({("B", "C"), ("A", "B")} : Finset (String × String)) := by
    norm_num [toy_accepting_run, toy_accepting_script, toy_tol, estimate_validation_hc,
      validation_hc_loop, validation_hc_body, validation_hc_init, validation_hc_start,
      validation_hc_tail, validation_delta_score, toy_find_max, toyAdd, call_callback,
      ToyOperator.run, ToyOperator.opposite]
  have hpos : ∀ r ∈ toy_accepting_run.history, r.validation_delta > 0 := by
    have : toy_accepting_run.history.all (fun r => decide (r.validation_delta > 0)) = true := by
      decide!
    intro r hr
    simpa using List.all_eq_true.1 this r hr
  have hne : applied_ops toy_accepting_run.trace ≠ [] := by decide!
  have key := validated_agrees_with_plain toyWorld toy_tol toy_accepting_script
    (∅ : Finset (String × String)) ∅ ∅ () true 3 10 (1 / 100) 0 {("B", "C"), ("A", "B")}
    (fun _ _ => rfl) (fun _ => rfl) (fun _ => rfl) hret hpos hne
  exact ⟨hpos, hne, key.1, key.2, hret, by decide!⟩

end HillClimbing

namespace Factors

/-! ## `SemiparametricCPD::__setstate__`: claim -/

/-- C20. `SemiparametricCPD::__setstate__` fails with `runtime_error` for every
tuple whose size is not 2; for a tuple of size 2 whose first element casts to the
index and whose second element casts to a tuple, it decodes the second element
with the `LinearGaussianCPD` decoder when the index is 0 and with the `CKDE`
decoder for every other index value: no index is rejected, and the result or
exception is the decoder's. -/
theorem setstate_dispatch (P : Pickle) :
    (∀ t : List P.Obj, t.length ≠ 2 →
      SemiparametricCPD.__setstate__ P t = Except.error SetstateError.runtime_error) ∧
    (∀ (t0 t1 : P.Obj) (index : Nat) (state : List P.Obj),
      P.cast_size_t t0 = Except.ok index → P.cast_tuple t1 = Except.ok state →
      (index = 0 →
        SemiparametricCPD.__setstate__ P [t0, t1] =
          to_variant Sum.inl (P.lg_setstate state)) ∧
      (index ≠ 0 →
        SemiparametricCPD.__setstate__ P [t0, t1] =
          to_variant Sum.inr (P.ckde_setstate state))) ∧
    (∀ t : List P.Obj, t.length = 2 →
      SemiparametricCPD.__setstate__ P t ≠ Except.error SetstateError.runtime_error) := by
  refine ⟨?_, ?_, ?_⟩
  · intro t ht
    match t, ht with
    | [], _ => rfl
    | [_], _ => rfl
    | [_, _], ht => exact absurd rfl ht
    | _ :: _ :: _ :: _, _ => rfl
  · intro t0 t1 index state h0 h1
    constructor
    · intro hi
      simp [SemiparametricCPD.__setstate__, h0, h1, hi]
    · intro hi
      simp [SemiparametricCPD.__setstate__, h0, h1, hi]
  · intro t ht
    match t, ht with
    | [t0, t1], _ =>
      simp only [SemiparametricCPD.__setstate__]
      cases P.cast_size_t t0 with
      | error e => simp
      | ok index =>
        by_cases hi : index = 0
        · simp only [hi, if_true]
          cases P.cast_tuple t1 with
          | error e => simp
          | ok state => cases h : P.lg_setstate state <;> simp [to_variant, h]
        · simp only [hi, if_false]
          cases P.cast_tuple t1 with
          | error e => simp
          | ok state => cases h : P.ckde_setstate state <;> simp [to_variant, h]

/-- Witness of C20: the tuple `(5, (1, 2))` is decoded by the `CKDE` decoder, the
tuple `(0, (1, 2))` by the `LinearGaussianCPD` decoder, a tuple of size 3 is
rejected. -/
theorem setstate_dispatch_witness :
    ([ToyObj.int 5, ToyObj.tuple [1, 2], ToyObj.int 0] : List ToyObj).length ≠ 2 ∧
    SemiparametricCPD.__setstate__ toyPickle
        [ToyObj.int 5, ToyObj.tuple [1, 2], ToyObj.int 0] =
      Except.error SetstateError.runtime_error ∧
    toyPickle.cast_size_t (ToyObj.int 5) = Except.ok 5 ∧
    toyPickle.cast_tuple (ToyObj.tuple [1, 2]) = Except.ok [ToyObj.int 1, ToyObj.int 2] ∧
    SemiparametricCPD.__setstate__ toyPickle [ToyObj.int 5, ToyObj.tuple [1, 2]] =
      to_variant Sum.inr (toyPickle.ckde_setstate [ToyObj.int 1, ToyObj.int 2]) ∧
    SemiparametricCPD.__setstate__ toyPickle [ToyObj.int 0, ToyObj.tuple [1, 2]] =
      to_variant Sum.inl (toyPickle.lg_setstate [ToyObj.int 1, ToyObj.int 2]) ∧
    (to_variant Sum.inr (toyPickle.ckde_setstate [ToyObj.int 1, ToyObj.int 2]) :
        Except (SetstateError String) (List Int ⊕ List Int)) =
      Except.ok (Sum.inr [1, 2]) :=
  ⟨by decide,
   (setstate_dispatch toyPickle).1 [ToyObj.int 5, ToyObj.tuple [1, 2], ToyObj.int 0]
     (by decide),
   rfl, rfl,
   ((setstate_dispatch toyPickle).2.1 (ToyObj.int 5) (ToyObj.tuple [1, 2]) 5
     [ToyObj.int 1, ToyObj.int 2] rfl rfl).2 (by decide),
   ((setstate_dispatch toyPickle).2.1 (ToyObj.int 0) (ToyObj.tuple [1, 2]) 0
     [ToyObj.int 1, ToyObj.int 2] rfl rfl).1 rfl,
   rfl⟩

end Factors
